import Mathlib

/-!
# Fixed-size vector / matrix algebra and the two-layer network built on it

A shallow embedding of `src/matrix/vector.hpp`, `src/matrix/matrix.hpp` and
`src/neural/nn.hpp`.

Modelling conventions.

* `Vector<T, SIZE>` is its array `T data[SIZE]`, a function `Fin SIZE → T`;
  `Matrix<T, ROWS, COLS>` is its array `Vector<T, COLS> data[ROWS]`.
* A raw array access `this->data[i]` takes an index that carries its bound
  (`Fin SIZE`); the bounds-checked `operator[]` takes a `size_t`, here a `Nat`,
  and may throw.
* C++ exceptions are the `Except Error` monad.
* `Vector() = default` and `Matrix() = default` leave the elements
  indeterminate: every function that default-constructs a local takes the
  indeterminate value as the argument `junk`, and the theorems hold for every
  `junk`.
* A loop `for (size_t i = 0; i < n; i++)` is `forLoop n`, a left fold over the
  indices `0, 1, …, n-1` in increasing order that threads the mutated locals.
* The element type `T` is generic, as in the source; theorems are stated over
  exact arithmetic (a semiring, ring, field or the reals as the claim needs).
* The trainer reads its samples through a raw `Img*`: the pointer is the part
  of the sample array from the pointee to the end, and a read past the end is
  undefined behaviour, an outcome of its own (`Fault`) next to thrown
  exceptions. The same holds for `% 0` and for a conversion to `int` that does
  not fit.
* The two loops of `train_batch` have a run-time bound and step; their model
  takes fuel, and the theorems hold for every amount of fuel above a stated
  bound.
* `std::exp`, `sqrt` and the values returned by `rand()` are parameters.
-/

namespace CppNN

/-! ## Definitions -/

/-- The exception classes thrown by the library:
`std::invalid_argument` (shape mismatch), `std::out_of_range` (bad index) and
`std::runtime_error` (`argmax` of an empty vector). -/
inductive Error
  | invalid_argument
  | out_of_range
  | runtime_error
  deriving DecidableEq, Repr

/-- The loop `for (std::size_t i = 0; i < n; i++) body`, with the locals it
mutates as the state; an exception thrown by the body leaves the loop. -/
def forLoop {σ : Type} (n : Nat) (init : σ) (body : σ → Fin n → Except Error σ) :
    Except Error σ :=
  (List.finRange n).foldlM body init

/-- Models `template <typename T, std::size_t SIZE> class Vector`, field `T data[SIZE]`. -/
structure Vector (T : Type) (SIZE : Nat) where
  data : Fin SIZE → T

/-- Models `template <typename T, std::size_t ROWS, std::size_t COLS> class Matrix`,
field `Vector<T, COLS> data[ROWS]`. -/
structure Matrix (T : Type) (ROWS COLS : Nat) where
  data : Fin ROWS → Vector T COLS

section Containers

variable {T : Type} {SIZE RHS_SIZE ROWS COLS RHS_ROWS RHS_COLS : Nat}

instance Vector.instDecidableEq [DecidableEq T] : DecidableEq (Vector T SIZE) :=
  fun a b => decidable_of_iff (a.data = b.data)
    ⟨fun h => by cases a; cases b; cases h; rfl, fun h => by rw [h]⟩

instance Matrix.instDecidableEq [DecidableEq T] : DecidableEq (Matrix T ROWS COLS) :=
  fun a b => decidable_of_iff (a.data = b.data)
    ⟨fun h => by cases a; cases b; cases h; rfl, fun h => by rw [h]⟩

/-- Models `Vector() = default`: every element holds the indeterminate value. -/
def Vector.uninit (junk : T) : Vector T SIZE := ⟨fun _ => junk⟩

/-- Models `Matrix() = default`: every row is a default-constructed vector. -/
def Matrix.uninit (junk : T) : Matrix T ROWS COLS := ⟨fun _ => Vector.uninit junk⟩

/-- The raw store `this->data[i] = x`. -/
def Vector.write (self : Vector T SIZE) (i : Fin SIZE) (x : T) : Vector T SIZE :=
  ⟨Function.update self.data i x⟩

/-- The raw store `this->data[i] = row`. -/
def Matrix.write (self : Matrix T ROWS COLS) (i : Fin ROWS) (row : Vector T COLS) :
    Matrix T ROWS COLS :=
  ⟨Function.update self.data i row⟩

/-- Models `T& Vector::operator[](size_t i)`: the reference it returns is the checked
location of element `i`. -/
def Vector.operator_index (_self : Vector T SIZE) (i : Nat) : Except Error (Fin SIZE) :=
  if h : i ≥ SIZE then throw Error.out_of_range else pure ⟨i, Nat.lt_of_not_le h⟩

/-- Models `const T& Vector::operator[](size_t i) const`. -/
def Vector.operator_index_const (self : Vector T SIZE) (i : Nat) : Except Error T :=
  if h : i ≥ SIZE then throw Error.out_of_range else pure (self.data ⟨i, Nat.lt_of_not_le h⟩)

/-- Models `Vector<T, COLS>& Matrix::operator[](size_t i)`: the reference it returns is
the checked location of row `i`. -/
def Matrix.operator_index (_self : Matrix T ROWS COLS) (i : Nat) : Except Error (Fin ROWS) :=
  if h : i ≥ ROWS then throw Error.out_of_range else pure ⟨i, Nat.lt_of_not_le h⟩

/-- Models `const Vector<T, COLS>& Matrix::operator[](size_t i) const`. -/
def Matrix.operator_index_const (self : Matrix T ROWS COLS) (i : Nat) :
    Except Error (Vector T COLS) :=
  if h : i ≥ ROWS then throw Error.out_of_range else pure (self.data ⟨i, Nat.lt_of_not_le h⟩)

/-- The statement `out[i] = x` on a vector: checked reference, then store. -/
def Vector.assign (out : Vector T SIZE) (i : Nat) (x : T) : Except Error (Vector T SIZE) := do
  let loc ← out.operator_index i
  pure (out.write loc x)

/-- The statement `out[i] = row` on a matrix: checked reference, then store. -/
def Matrix.assign_row (out : Matrix T ROWS COLS) (i : Nat) (row : Vector T COLS) :
    Except Error (Matrix T ROWS COLS) := do
  let loc ← out.operator_index i
  pure (out.write loc row)

/-- The statement `out[i][j] = x` on a matrix: the checked row reference, the
checked element reference inside that row, then the store. -/
def Matrix.assign (out : Matrix T ROWS COLS) (i j : Nat) (x : T) :
    Except Error (Matrix T ROWS COLS) := do
  let r ← out.operator_index i
  let c ← (out.data r).operator_index j
  pure (out.write r ((out.data r).write c x))

/-- Models `Vector::dot` (vector.hpp 74-83), the outer product. -/
def Vector.dot (self : Vector T SIZE) [Mul T] (rhs : Vector T RHS_SIZE) (junk : T) :
    Except Error (Matrix T SIZE RHS_SIZE) :=
  forLoop SIZE (Matrix.uninit junk) fun out row =>
    forLoop RHS_SIZE out fun out col => do
      let r ← rhs.operator_index_const col
      out.assign row col (self.data row * r)

/-- Models `Vector::softmax` (vector.hpp 85-95); `exp` stands for `std::exp`. -/
def Vector.softmax [Zero T] [Add T] [Div T] (exp : T → T) (self : Vector T SIZE) (junk : T) :
    Except Error (Vector T SIZE) := do
  let total ← forLoop SIZE (0 : T) fun total i => pure (total + exp (self.data i))
  forLoop SIZE (Vector.uninit junk) fun out i => out.assign i (exp (self.data i) / total)

/-- Models `Vector::argmax` (vector.hpp 97-110). The loop starts at index 1; its state
is the pair of locals `(max_index, max_elem)`. -/
def Vector.argmax [LT T] [DecidableRel (fun a b : T => a < b)] (self : Vector T SIZE) :
    Except Error Nat :=
  if h : SIZE = 0 then throw Error.runtime_error
  else
    let max_index : Nat := 0
    let max_elem : T := self.data ⟨0, Nat.pos_of_ne_zero h⟩
    let last := ((List.finRange SIZE).drop 1).foldl
      (fun (st : Nat × T) i => if self.data i > st.2 then (i.val, self.data i) else st)
      (max_index, max_elem)
    pure last.1

/-- Models `Vector::operator+(const Vector&)` (vector.hpp 135-141). -/
def Vector.operator_plus [Add T] (self rhs : Vector T SIZE) (junk : T) :
    Except Error (Vector T SIZE) :=
  forLoop SIZE (Vector.uninit junk) fun out i => do
    let r ← rhs.operator_index_const i
    pure (out.write i (self.data i + r))

/-- Models `Vector::operator-(const Vector&)` (vector.hpp 165-171). -/
def Vector.operator_minus [Sub T] (self rhs : Vector T SIZE) (junk : T) :
    Except Error (Vector T SIZE) :=
  forLoop SIZE (Vector.uninit junk) fun out i => do
    let r ← rhs.operator_index_const i
    pure (out.write i (self.data i - r))

/-- Models `Matrix::operator+(const Matrix&)` (matrix.hpp 59-65). -/
def Matrix.operator_plus [Add T] (self rhs : Matrix T ROWS COLS) (junk : T) :
    Except Error (Matrix T ROWS COLS) :=
  forLoop ROWS (Matrix.uninit junk) fun out row => do
    let r ← rhs.operator_index_const row
    let v ← (self.data row).operator_plus r junk
    out.assign_row row v

/-- Models `Matrix::operator-(const Matrix&)` (matrix.hpp 89-95). -/
def Matrix.operator_minus [Sub T] (self rhs : Matrix T ROWS COLS) (junk : T) :
    Except Error (Matrix T ROWS COLS) :=
  forLoop ROWS (Matrix.uninit junk) fun out row => do
    let r ← rhs.operator_index_const row
    let v ← (self.data row).operator_minus r junk
    out.assign_row row v

/-- Models `Matrix::dot(const Matrix<T, RHS_ROWS, RHS_COLS>&)` (matrix.hpp 179-195). The
template accepts every right-hand shape; the shapes are compared at run time. -/
def Matrix.dot [Zero T] [Add T] [Mul T] (self : Matrix T ROWS COLS)
    (rhs : Matrix T RHS_ROWS RHS_COLS) (junk : T) : Except Error (Matrix T ROWS RHS_COLS) :=
  if COLS ≠ RHS_ROWS then throw Error.invalid_argument
  else
    forLoop ROWS (Matrix.uninit junk) fun out i =>
      forLoop RHS_COLS out fun out j => do
        let sum ← forLoop RHS_ROWS (0 : T) fun sum k => do
          let a ← (self.data i).operator_index_const k
          let rhs_k ← rhs.operator_index_const k
          let b ← rhs_k.operator_index_const j
          pure (sum + a * b)
        out.assign i j sum

/-- Models `Matrix::dot(const Vector<T, COLS>&)` (matrix.hpp 197-207). -/
def Matrix.dot_vector [Zero T] [Add T] [Mul T] (self : Matrix T ROWS COLS)
    (rhs : Vector T COLS) (junk : T) : Except Error (Vector T ROWS) :=
  forLoop ROWS (Vector.uninit junk) fun out row => do
    let sum ← forLoop COLS (0 : T) fun sum col => do
      let a ← (self.data row).operator_index_const col
      let b ← rhs.operator_index_const col
      pure (sum + a * b)
    out.assign row sum

/-- Models `Matrix::transpose` (matrix.hpp 229-237). -/
def Matrix.transpose (self : Matrix T ROWS COLS) (junk : T) :
    Except Error (Matrix T COLS ROWS) :=
  forLoop ROWS (Matrix.uninit junk) fun out row =>
    forLoop COLS out fun out col => do
      let x ← (self.data row).operator_index_const col
      out.assign col row x

end Containers

/-! ### Binary persistence

`save_binary` and the stream constructors copy object representations
(`(const char*)&size`, `(char*)this->data`) to and from a file. A `std::size_t`
is 8 bytes, least significant first; the element type is generic, so its object
representation is a parameter. -/

/-- One `char` of a binary file. -/
abbrev Byte : Type := Fin 256

/-- The object representation of a trivially copyable type: `sizeof`, the bytes
of a value, and the value denoted by `sizeof` bytes. -/
structure ObjRepr (α : Type) where
  sizeof : Nat
  to_bytes : α → List Byte
  of_bytes : List Byte → α

/-- A representation is lawful when every value occupies `sizeof` bytes and
copying the bytes of a value out and back in gives the value again. -/
def ObjRepr.Lawful {α : Type} (R : ObjRepr α) : Prop :=
  (∀ x, (R.to_bytes x).length = R.sizeof) ∧ (∀ x, R.of_bytes (R.to_bytes x) = x)

/-- The bytes of a `std::size_t`, which holds values modulo `2 ^ 64`. -/
def size_t_to_bytes (n : Nat) : List Byte :=
  (List.range 8).map fun k => ⟨n / 256 ^ k % 256, Nat.mod_lt _ (by decide)⟩

/-- The `std::size_t` held by a buffer of bytes. -/
def size_t_of_bytes (bs : List Byte) : Nat :=
  bs.foldr (fun b acc => b.val + 256 * acc) 0

/-- The bytes of an array `α a[n]`: the elements one after the other. -/
def array_to_bytes {α : Type} (R : ObjRepr α) (n : Nat) (a : Fin n → α) : List Byte :=
  ((List.finRange n).map fun i => R.to_bytes (a i)).flatten

/-- The array `α a[n]` held by a buffer: element `i` is read from the `sizeof`
bytes at offset `i * sizeof`. -/
def array_of_bytes {α : Type} (R : ObjRepr α) (n : Nat) (bs : List Byte) : Fin n → α :=
  fun i => R.of_bytes ((bs.drop (i.val * R.sizeof)).take R.sizeof)

/-- The object representation of `Vector<T, SIZE>`, whose only member is
`T data[SIZE]`. -/
def ObjRepr.vector {T : Type} (R : ObjRepr T) (SIZE : Nat) : ObjRepr (Vector T SIZE) where
  sizeof := SIZE * R.sizeof
  to_bytes := fun v => array_to_bytes R SIZE v.data
  of_bytes := fun bs => ⟨array_of_bytes R SIZE bs⟩

/-- The object representation of `Matrix<T, ROWS, COLS>`, whose only member is
`Vector<T, COLS> data[ROWS]`: the rows one after the other (row-major). -/
def ObjRepr.matrix {T : Type} (R : ObjRepr T) (ROWS COLS : Nat) :
    ObjRepr (Matrix T ROWS COLS) where
  sizeof := ROWS * (COLS * R.sizeof)
  to_bytes := fun m => array_to_bytes (R.vector COLS) ROWS m.data
  of_bytes := fun bs => ⟨array_of_bytes (R.vector COLS) ROWS bs⟩

/-- The representation of a one-byte element type, the byte itself. -/
def ObjRepr.byte : ObjRepr Byte where
  sizeof := 1
  to_bytes := fun b => [b]
  of_bytes := fun bs => bs.headD 0

/-- A `std::ifstream`: the bytes not yet extracted, and whether the stream is
still good (`false` once `failbit` is set). -/
structure IStream where
  bytes : List Byte
  good : Bool

/-- A `std::ofstream`: the bytes written so far, and whether the stream is good. -/
structure OStream where
  bytes : List Byte
  good : Bool

/-- Models `in.read(buf, n)`, where `buf` holds the previous contents of the
destination. A stream that is not good extracts nothing. Otherwise `n` bytes
are stored; if fewer are left, those are stored at the start of the
destination, the rest of it is untouched and `failbit` is set. Result: the new
contents of the destination and the stream. -/
def IStream.read (s : IStream) (n : Nat) (buf : List Byte) : List Byte × IStream :=
  if s.good = false then (buf, s)
  else if n ≤ s.bytes.length then (s.bytes.take n, ⟨s.bytes.drop n, true⟩)
  else (s.bytes ++ buf.drop s.bytes.length, ⟨[], false⟩)

/-- Models `out.write(buf, n)` where `buf` is the object representation written from. -/
def OStream.write (s : OStream) (buf : List Byte) (n : Nat) : OStream :=
  if s.good = false then s else ⟨s.bytes ++ buf.take n, true⟩

section Persistence

variable {T : Type} {SIZE ROWS COLS : Nat}

/-- Models `Vector::save_binary` (vector.hpp 112-117). The byte count
`sizeof(T) * SIZE` is computed in `std::size_t`. -/
def Vector.save_binary (R : ObjRepr T) (self : Vector T SIZE) (out : OStream) : OStream :=
  let size : Nat := SIZE % 2 ^ 64
  let out := out.write (size_t_to_bytes size) 8
  out.write ((R.vector SIZE).to_bytes self) (R.sizeof * SIZE % 2 ^ 64)

/-- Models `Matrix::save_binary` (matrix.hpp 239-245). -/
def Matrix.save_binary (R : ObjRepr T) (self : Matrix T ROWS COLS) (out : OStream) : OStream :=
  let rows : Nat := ROWS % 2 ^ 64
  let cols : Nat := COLS % 2 ^ 64
  let out := out.write (size_t_to_bytes rows) 8
  let out := out.write (size_t_to_bytes cols) 8
  out.write ((R.matrix ROWS COLS).to_bytes self) (R.sizeof * ROWS % 2 ^ 64 * COLS % 2 ^ 64)

/-- Models `Vector::Vector(std::ifstream&)` (vector.hpp 56-64). `junk_size` is the
indeterminate value of the local `size` before the read and `junk` that of the
elements. The result is what the constructor returns or throws, together with
the stream as the constructor leaves it. -/
def Vector.ctor_ifstream (R : ObjRepr T) (inp : IStream) (junk_size : Nat) (junk : T) :
    Except Error (Vector T SIZE) × IStream :=
  let r₁ := inp.read 8 (size_t_to_bytes junk_size)
  let size := size_t_of_bytes r₁.1
  if size ≠ SIZE then (throw Error.invalid_argument, r₁.2)
  else
    let r₂ := r₁.2.read (R.sizeof * SIZE % 2 ^ 64)
      ((R.vector SIZE).to_bytes (Vector.uninit junk))
    (pure ((R.vector SIZE).of_bytes r₂.1), r₂.2)

/-- Models `Matrix::Matrix(std::ifstream&)` (matrix.hpp 26-35). -/
def Matrix.ctor_ifstream (R : ObjRepr T) (inp : IStream) (junk_rows junk_cols : Nat)
    (junk : T) : Except Error (Matrix T ROWS COLS) × IStream :=
  let r₁ := inp.read 8 (size_t_to_bytes junk_rows)
  let rows := size_t_of_bytes r₁.1
  let r₂ := r₁.2.read 8 (size_t_to_bytes junk_cols)
  let cols := size_t_of_bytes r₂.1
  if rows ≠ ROWS ∨ cols ≠ COLS then (throw Error.invalid_argument, r₂.2)
  else
    let r₃ := r₂.2.read (R.sizeof * ROWS % 2 ^ 64 * COLS % 2 ^ 64)
      ((R.matrix ROWS COLS).to_bytes (Matrix.uninit junk))
    (pure ((R.matrix ROWS COLS).of_bytes r₃.1), r₃.2)

end Persistence

/-! ### Literal construction, fills, maps and the remaining arithmetic -/

section MoreContainers

variable {T : Type} {SIZE RHS_SIZE ROWS COLS : Nat}

/-- Models `Vector(const T& e)` (vector.hpp 40-44): raw stores only, so the
constructor cannot throw. The object under construction starts indeterminate. -/
def Vector.ctor_fill (e : T) (junk : T) : Vector T SIZE :=
  (List.finRange SIZE).foldl (fun self i => self.write i e) (Vector.uninit junk)

/-- Models `Matrix(const T& e)` (matrix.hpp 10-14): every row is assigned
`Vector<T, COLS>(e)` by a raw store. -/
def Matrix.ctor_fill (e : T) (junk : T) : Matrix T ROWS COLS :=
  (List.finRange ROWS).foldl (fun self i => self.write i (Vector.ctor_fill e junk))
    (Matrix.uninit junk)

/-- Models `Vector(std::initializer_list<T> il)` (vector.hpp 46-54); the list of
literals is a `List`, and `*it` after `i` increments is its element `i`. -/
def Vector.ctor_initializer_list (il : List T) (junk : T) : Except Error (Vector T SIZE) :=
  if h : il.length ≠ SIZE then throw Error.invalid_argument
  else
    pure ((List.finRange SIZE).foldl
      (fun self i => self.write i (il.get ⟨i.val, by rw [not_not.mp h]; exact i.isLt⟩))
      (Vector.uninit junk))

/-- Models `Matrix(std::initializer_list<std::initializer_list<T>> il)`
(matrix.hpp 16-24): only the number of rows is compared here, each row is built
by the vector constructor, which compares its own length. -/
def Matrix.ctor_initializer_list (il : List (List T)) (junk : T) :
    Except Error (Matrix T ROWS COLS) :=
  if h : il.length ≠ ROWS then throw Error.invalid_argument
  else
    forLoop ROWS (Matrix.uninit junk) fun self i => do
      let row ← Vector.ctor_initializer_list
        (il.get ⟨i.val, by rw [not_not.mp h]; exact i.isLt⟩) junk
      pure (self.write i row)

/-- Models `Vector::apply` (vector.hpp 66-72); the `std::function` is a pure
function of the element. -/
def Vector.apply (self : Vector T SIZE) (func : T → T) (junk : T) :
    Except Error (Vector T SIZE) :=
  forLoop SIZE (Vector.uninit junk) fun out i => out.assign i (func (self.data i))

/-- Models `Vector::operator*(const Vector&)` (vector.hpp 195-201), the
element-wise product. -/
def Vector.operator_times [Mul T] (self rhs : Vector T SIZE) (junk : T) :
    Except Error (Vector T SIZE) :=
  forLoop SIZE (Vector.uninit junk) fun out i => do
    let r ← rhs.operator_index_const i
    pure (out.write i (self.data i * r))

/-- Models `Vector::operator*(const T&)` (vector.hpp 210-216): raw accesses only. -/
def Vector.operator_times_scalar [Mul T] (self : Vector T SIZE) (rhs : T) (junk : T) :
    Vector T SIZE :=
  (List.finRange SIZE).foldl (fun out i => out.write i (self.data i * rhs)) (Vector.uninit junk)

/-- Models `Matrix::operator*(const T&)` (matrix.hpp 134-140). -/
def Matrix.operator_times_scalar [Mul T] (self : Matrix T ROWS COLS) (rhs : T) (junk : T) :
    Except Error (Matrix T ROWS COLS) :=
  forLoop ROWS (Matrix.uninit junk) fun out row =>
    out.assign_row row ((self.data row).operator_times_scalar rhs junk)

/-- Models `Vector::operator+=(const Vector&)` (vector.hpp 143-148); the result
is the new value of `*this`. -/
def Vector.operator_plus_assign [Add T] (self rhs : Vector T SIZE) :
    Except Error (Vector T SIZE) :=
  forLoop SIZE self fun self i => do
    let r ← rhs.operator_index_const i
    pure (self.write i (self.data i + r))

/-- Models `Matrix::operator+=(const Matrix&)` (matrix.hpp 67-72); the result is
the new value of `*this`. -/
def Matrix.operator_plus_assign [Add T] (self rhs : Matrix T ROWS COLS) :
    Except Error (Matrix T ROWS COLS) :=
  forLoop ROWS self fun self row => do
    let r ← rhs.operator_index_const row
    let v ← (self.data row).operator_plus_assign r
    pure (self.write row v)

/-- Models `Matrix::flatten_vertical` (matrix.hpp 209-217). The index
`row * ROWS + col` is computed in `std::size_t`. -/
def Matrix.flatten_vertical (self : Matrix T ROWS COLS) (junk : T) :
    Except Error (Matrix T (ROWS * COLS) 1) :=
  forLoop ROWS (Matrix.uninit junk) fun out row =>
    forLoop COLS out fun out col => do
      let x ← (self.data row).operator_index_const col
      out.assign ((row * ROWS + col) % 2 ^ 64) 0 x

/-- Models `Matrix::flatten_horizontal` (matrix.hpp 219-227). -/
def Matrix.flatten_horizontal (self : Matrix T ROWS COLS) (junk : T) :
    Except Error (Matrix T 1 (ROWS * COLS)) :=
  forLoop ROWS (Matrix.uninit junk) fun out row =>
    forLoop COLS out fun out col => do
      let x ← (self.data row).operator_index_const col
      out.assign 0 ((row * ROWS + col) % 2 ^ 64) x

end MoreContainers

/-! ### Runs that can go wrong without an exception

The trainer reads samples through a raw `Img*`, and `randomize` converts a
floating value to `int` and takes a remainder: besides throwing, such code can
have undefined behaviour. The loops of `train_batch` have a run-time step, so
their model carries fuel. -/

/-- How a run ends without a result: a thrown exception, undefined behaviour
(a read past the end of the sample array, a remainder by zero, a conversion to
`int` of a value that is not an `int`), or, in the model only, a loop that used
up its fuel. -/
inductive Fault
  | exception (e : Error)
  | undefined_behavior
  | out_of_fuel
  deriving DecidableEq, Repr

/-- A computation that can only throw, as part of a run. -/
def Fault.lift {α : Type} : Except Error α → Except Fault α
  | Except.ok a => Except.ok a
  | Except.error e => Except.error (Fault.exception e)

/-- Modelled from the spec: `Img` of `util/img.hpp`, which is not among the
sources. The spec (section 3, Labeled Sample) gives a sample an input vector of
length `INPUT` and an integer class label; `nn.hpp` reads them as the members
`img_data` and `label`. -/
structure Img (T : Type) (INPUT_SIZE : Nat) where
  img_data : Vector T INPUT_SIZE
  label : Nat

/-- The read of `imgs[i]` through an `Img*`. The pointer is modelled by the part
of the sample array from the pointee to the end of the array, so `imgs + i` is
`imgs.drop i`; a read past the end of the array is undefined behaviour. -/
def Img.deref {T : Type} {INPUT_SIZE : Nat} (imgs : List (Img T INPUT_SIZE)) (i : Nat) :
    Except Fault (Img T INPUT_SIZE) :=
  match imgs[i]? with
  | some img => pure img
  | none => throw Fault.undefined_behavior

section Randomize

variable {T : Type} {ROWS COLS : Nat} [LinearOrderedField T] [FloorRing T]

/-- The conversion `(int)x` of a floating value: the fractional part is
discarded, and the behaviour is undefined when the truncated value is not a
(32-bit) `int`. -/
def int_of_floating (x : T) : Except Fault Int :=
  let truncated : Int := if 0 ≤ x then ⌊x⌋ else ⌈x⌉
  if -2 ^ 31 ≤ truncated ∧ truncated ≤ 2 ^ 31 - 1 then pure truncated
  else throw Fault.undefined_behavior

/-- Models `Matrix::uniform_distribution` (matrix.hpp 273-278); `rand_value` is
what its call of `rand()` returns. `%` on `int` truncates toward zero and is
undefined for a zero divisor. -/
def Matrix.uniform_distribution (rand_value : Int) (low high : T) : Except Fault T := do
  let difference : T := high - low
  let scale : Int := 10000
  let scaled_difference ← int_of_floating (difference * (scale : T))
  if scaled_difference = 0 then throw Fault.undefined_behavior
  else pure (low + (1 * ((Int.tmod rand_value scaled_difference : Int) : T) / (scale : T)))

/-- Models `Matrix::randomize` (matrix.hpp 259-270). `sqrt` stands for the
library `sqrt`; `rand k` is the value returned by the call number `k` of
`rand()` and `calls` the number of calls made before. Result: the new value of
`*this` and the number of calls of `rand()` made so far. -/
def Matrix.randomize (self : Matrix T ROWS COLS) (sqrt : T → T) (rand : Nat → Int)
    (calls : Nat) (n : T) : Except Fault (Matrix T ROWS COLS × Nat) :=
  let min : T := -1 / sqrt n
  let max : T := 1 / sqrt n
  (List.finRange ROWS).foldlM (fun st row =>
    (List.finRange COLS).foldlM (fun (st : Matrix T ROWS COLS × Nat) (col : Fin COLS) => do
      let x ← Matrix.uniform_distribution (rand st.2) min max
      let loc ← Fault.lift ((st.1.data row).operator_index col.val)
      pure (st.1.write row ((st.1.data row).write loc x), st.2 + 1)) st) (self, calls)

end Randomize

/-! ### The network (nn.hpp) -/

/-- Models `template<typename T, std::size_t INPUT_SIZE, std::size_t HIDDEN_SIZE,
std::size_t OUTPUT_SIZE> class NeuralNetwork` with its two weight matrices. -/
structure NeuralNetwork (T : Type) (INPUT_SIZE HIDDEN_SIZE OUTPUT_SIZE : Nat) where
  hidden_weights : Matrix T HIDDEN_SIZE INPUT_SIZE
  output_weights : Matrix T OUTPUT_SIZE HIDDEN_SIZE

section Network

variable {T : Type} {INPUT_SIZE HIDDEN_SIZE OUTPUT_SIZE WEIGHTS_ROWS WEIGHTS_COLS : Nat}
variable [Zero T] [One T] [Add T] [Sub T] [Mul T] [Div T] [NatCast T]

/-- Models `NeuralNetwork::feed_forward` (nn.hpp 132-141). -/
def NeuralNetwork.feed_forward (self : NeuralNetwork T INPUT_SIZE HIDDEN_SIZE OUTPUT_SIZE)
    (input : Vector T INPUT_SIZE) (activation : T → T) (junk : T) :
    Except Error (Vector T HIDDEN_SIZE × Vector T OUTPUT_SIZE) := do
  let hidden_output_unactivated ← self.hidden_weights.dot_vector input junk
  let hidden_output ← hidden_output_unactivated.apply activation junk
  let final_output_unactivated ← self.output_weights.dot_vector hidden_output junk
  let final_output ← final_output_unactivated.apply activation junk
  pure (hidden_output, final_output)

/-- Models `NeuralNetwork::find_errors` (nn.hpp 143-151). -/
def NeuralNetwork.find_errors (self : NeuralNetwork T INPUT_SIZE HIDDEN_SIZE OUTPUT_SIZE)
    (expected_output final_output : Vector T OUTPUT_SIZE) (junk : T) :
    Except Error (Vector T HIDDEN_SIZE × Vector T OUTPUT_SIZE) := do
  let transposed_mat ← self.output_weights.transpose junk
  let output_errors ← expected_output.operator_minus final_output junk
  let hidden_errors ← transposed_mat.dot_vector output_errors junk
  pure (hidden_errors, output_errors)

/-- Models `NeuralNetwork::back_propagate_core` (nn.hpp 153-163). -/
def NeuralNetwork.back_propagate_core (output errors : Vector T WEIGHTS_ROWS)
    (input : Vector T WEIGHTS_COLS) (activation_prime : T → T) (junk : T) :
    Except Error (Matrix T WEIGHTS_ROWS WEIGHTS_COLS) := do
  let primed_output ← output.apply activation_prime junk
  let multiplied_output ← errors.operator_times primed_output junk
  multiplied_output.dot input junk

/-- Models `NeuralNetwork::back_propagate` (nn.hpp 165-190). -/
def NeuralNetwork.back_propagate (hidden_errors : Vector T HIDDEN_SIZE)
    (output_errors : Vector T OUTPUT_SIZE) (hidden_output : Vector T HIDDEN_SIZE)
    (final_output : Vector T OUTPUT_SIZE) (input : Vector T INPUT_SIZE)
    (activation_prime : T → T) (junk : T) :
    Except Error (Matrix T HIDDEN_SIZE INPUT_SIZE × Matrix T OUTPUT_SIZE HIDDEN_SIZE) := do
  let output_delta ← NeuralNetwork.back_propagate_core final_output output_errors
    hidden_output activation_prime junk
  let hidden_delta ← NeuralNetwork.back_propagate_core hidden_output hidden_errors
    input activation_prime junk
  pure (hidden_delta, output_delta)

/-- Models `NeuralNetwork::train` (nn.hpp 19-35), a `const` member: the weights
are read, never written. -/
def NeuralNetwork.train (self : NeuralNetwork T INPUT_SIZE HIDDEN_SIZE OUTPUT_SIZE)
    (input : Vector T INPUT_SIZE) (expected_output : Vector T OUTPUT_SIZE)
    (activation activation_prime : T → T) (junk : T) :
    Except Error (Matrix T HIDDEN_SIZE INPUT_SIZE × Matrix T OUTPUT_SIZE HIDDEN_SIZE) := do
  let (hidden_output, final_output) ← self.feed_forward input activation junk
  let (hidden_errors, output_errors) ← self.find_errors expected_output final_output junk
  NeuralNetwork.back_propagate hidden_errors output_errors hidden_output final_output input
    activation_prime junk

/-- Models `NeuralNetwork::train_mini_batch` (nn.hpp 37-63), a `const` member.
The loop state is the pair `(hidden_delta_avg, output_delta_avg)`. -/
def NeuralNetwork.train_mini_batch (self : NeuralNetwork T INPUT_SIZE HIDDEN_SIZE OUTPUT_SIZE)
    (imgs : List (Img T INPUT_SIZE)) (activation activation_prime : T → T)
    (mini_batch_size : Nat) (junk : T) :
    Except Fault (Matrix T HIDDEN_SIZE INPUT_SIZE × Matrix T OUTPUT_SIZE HIDDEN_SIZE) :=
  let hidden_delta_avg : Matrix T HIDDEN_SIZE INPUT_SIZE := Matrix.ctor_fill 0 junk
  let output_delta_avg : Matrix T OUTPUT_SIZE HIDDEN_SIZE := Matrix.ctor_fill 0 junk
  (List.range mini_batch_size).foldlM
    (fun (avg : Matrix T HIDDEN_SIZE INPUT_SIZE × Matrix T OUTPUT_SIZE HIDDEN_SIZE) i => do
      let cur_img ← Img.deref imgs i
      let expected_output : Vector T OUTPUT_SIZE := Vector.ctor_fill 0 junk
      let expected_output ← Fault.lift (expected_output.assign cur_img.label 1)
      let (hidden_delta, output_delta) ← Fault.lift
        (self.train cur_img.img_data expected_output activation activation_prime junk)
      let hidden_delta_avg ← Fault.lift (avg.1.operator_plus_assign hidden_delta)
      let output_delta_avg ← Fault.lift (avg.2.operator_plus_assign output_delta)
      pure (hidden_delta_avg, output_delta_avg))
    (hidden_delta_avg, output_delta_avg)

/-- Models `NeuralNetwork::train_batch_inner` (nn.hpp 65-79); the result is the
network after the two `+=`. In `lr / mini_batch_size` the `std::size_t` is
converted to `T`. -/
def NeuralNetwork.train_batch_inner (self : NeuralNetwork T INPUT_SIZE HIDDEN_SIZE OUTPUT_SIZE)
    (imgs : List (Img T INPUT_SIZE)) (lr : T) (activation activation_prime : T → T)
    (mini_batch_size : Nat) (junk : T) :
    Except Fault (NeuralNetwork T INPUT_SIZE HIDDEN_SIZE OUTPUT_SIZE) := do
  let (hidden_delta_avg, output_delta_avg) ←
    self.train_mini_batch imgs activation activation_prime mini_batch_size junk
  let hidden_step ← Fault.lift
    (hidden_delta_avg.operator_times_scalar (lr / (mini_batch_size : T)) junk)
  let hidden_weights ← Fault.lift (self.hidden_weights.operator_plus_assign hidden_step)
  let output_step ← Fault.lift
    (output_delta_avg.operator_times_scalar (lr / (mini_batch_size : T)) junk)
  let output_weights ← Fault.lift (self.output_weights.operator_plus_assign output_step)
  pure ⟨hidden_weights, output_weights⟩

/-- The inner loop of `NeuralNetwork::train_batch` (nn.hpp 92-95),
`for (std::size_t i = 0; i < batch_size; i += mini_batch_size)`, from the value
`i` on; `i += mini_batch_size` is computed in `std::size_t`. -/
def NeuralNetwork.train_batch_windows :
    Nat → NeuralNetwork T INPUT_SIZE HIDDEN_SIZE OUTPUT_SIZE → List (Img T INPUT_SIZE) →
    Nat → Nat → Nat → T → (T → T) → (T → T) → T →
    Except Fault (NeuralNetwork T INPUT_SIZE HIDDEN_SIZE OUTPUT_SIZE)
  | 0, _, _, _, _, _, _, _, _, _ => throw Fault.out_of_fuel
  | fuel + 1, self, imgs, i, batch_size, mini_batch_size, lr, activation, activation_prime,
      junk =>
    if i < batch_size then do
      let net ← self.train_batch_inner (imgs.drop i) lr activation activation_prime
        mini_batch_size junk
      NeuralNetwork.train_batch_windows fuel net imgs ((i + mini_batch_size) % 2 ^ 64)
        batch_size mini_batch_size lr activation activation_prime junk
    else pure self

/-- The outer loop of `NeuralNetwork::train_batch` (nn.hpp 91-97),
`for (std::size_t e = 1; e <= epochs; e++)`, from the value `e` on, with
`lr *= lr_coef` after each epoch. -/
def NeuralNetwork.train_batch_epochs :
    Nat → NeuralNetwork T INPUT_SIZE HIDDEN_SIZE OUTPUT_SIZE → List (Img T INPUT_SIZE) →
    Nat → Nat → Nat → Nat → T → T → (T → T) → (T → T) → T →
    Except Fault (NeuralNetwork T INPUT_SIZE HIDDEN_SIZE OUTPUT_SIZE)
  | 0, _, _, _, _, _, _, _, _, _, _, _ => throw Fault.out_of_fuel
  | fuel + 1, self, imgs, e, epochs, batch_size, mini_batch_size, lr, lr_coef, activation,
      activation_prime, junk =>
    if e ≤ epochs then do
      let net ← NeuralNetwork.train_batch_windows fuel self imgs 0 batch_size mini_batch_size
        lr activation activation_prime junk
      NeuralNetwork.train_batch_epochs fuel net imgs ((e + 1) % 2 ^ 64) epochs batch_size
        mini_batch_size (lr * lr_coef) lr_coef activation activation_prime junk
    else pure self

/-- Models `NeuralNetwork::train_batch` (nn.hpp 81-98); `fuel` bounds the number
of iterations of each loop, and the result is the network after the call. -/
def NeuralNetwork.train_batch (fuel : Nat)
    (self : NeuralNetwork T INPUT_SIZE HIDDEN_SIZE OUTPUT_SIZE) (imgs : List (Img T INPUT_SIZE))
    (epochs batch_size mini_batch_size : Nat) (lr lr_coef : T)
    (activation activation_prime : T → T) (junk : T) :
    Except Fault (NeuralNetwork T INPUT_SIZE HIDDEN_SIZE OUTPUT_SIZE) :=
  NeuralNetwork.train_batch_epochs fuel self imgs 1 epochs batch_size mini_batch_size lr lr_coef
    activation activation_prime junk

/-- Models `NeuralNetwork::predict` (nn.hpp 100-104); `exp` stands for `std::exp`. -/
def NeuralNetwork.predict (self : NeuralNetwork T INPUT_SIZE HIDDEN_SIZE OUTPUT_SIZE)
    (exp : T → T) (input : Vector T INPUT_SIZE) (activation : T → T) (junk : T) :
    Except Error (Vector T OUTPUT_SIZE) := do
  let feed ← self.feed_forward input activation junk
  let res := feed.2
  res.softmax exp junk

/-- Models `NeuralNetwork::predict_img` (nn.hpp 106-109). -/
def NeuralNetwork.predict_img [LT T] [DecidableRel (fun a b : T => a < b)]
    (self : NeuralNetwork T INPUT_SIZE HIDDEN_SIZE OUTPUT_SIZE) (exp : T → T)
    (img : Img T INPUT_SIZE) (activation : T → T) (junk : T) : Except Error Nat := do
  let res ← self.predict exp img.img_data activation junk
  res.argmax

/-- Models `NeuralNetwork::predict_imgs` (nn.hpp 111-121). The result is a
`double`, modelled by its own exact type `D`. -/
def NeuralNetwork.predict_imgs [LT T] [DecidableRel (fun a b : T => a < b)]
    {D : Type} [One D] [Mul D] [Div D] [NatCast D]
    (self : NeuralNetwork T INPUT_SIZE HIDDEN_SIZE OUTPUT_SIZE) (exp : T → T)
    (imgs : List (Img T INPUT_SIZE)) (n_imgs : Nat) (activation : T → T) (junk : T) :
    Except Fault D := do
  let n_correct ← (List.range n_imgs).foldlM (fun (n_correct : Nat) i => do
    let img ← Img.deref imgs i
    let prediction ← Fault.lift (self.predict_img exp img activation junk)
    if prediction = img.label then pure (n_correct + 1) else pure n_correct) 0
  pure (1 * (n_correct : D) / (n_imgs : D))

/-- Models `NeuralNetwork::train_batch_inner` (nn.hpp 65-79) as the mutating
member it is: the outcome of the call together with the value of `*this` when
the call ends, by return or by exception. Statement by statement:
`train_mini_batch` is `const`, so a fault in it leaves `*this` as it was; the
first `+=` replaces the hidden weights, the second the output weights.
`operator*` and `operator+=` on matrices of equal shape never fail, so no
half-written matrix is modelled for them. -/
def NeuralNetwork.train_batch_inner_in_place
    (self : NeuralNetwork T INPUT_SIZE HIDDEN_SIZE OUTPUT_SIZE)
    (imgs : List (Img T INPUT_SIZE)) (lr : T) (activation activation_prime : T → T)
    (mini_batch_size : Nat) (junk : T) :
    Except Fault Unit × NeuralNetwork T INPUT_SIZE HIDDEN_SIZE OUTPUT_SIZE :=
  match self.train_mini_batch imgs activation activation_prime mini_batch_size junk with
  | Except.error e => (Except.error e, self)
  | Except.ok (hidden_delta_avg, output_delta_avg) =>
    match Fault.lift (do
        let hidden_step ← hidden_delta_avg.operator_times_scalar
          (lr / (mini_batch_size : T)) junk
        self.hidden_weights.operator_plus_assign hidden_step) with
    | Except.error e => (Except.error e, self)
    | Except.ok hidden_weights =>
      match Fault.lift (do
          let output_step ← output_delta_avg.operator_times_scalar
            (lr / (mini_batch_size : T)) junk
          self.output_weights.operator_plus_assign output_step) with
      | Except.error e => (Except.error e, ⟨hidden_weights, self.output_weights⟩)
      | Except.ok output_weights => (Except.ok (), ⟨hidden_weights, output_weights⟩)

end Network

section Construction

variable {T : Type} {INPUT_SIZE HIDDEN_SIZE OUTPUT_SIZE : Nat}
variable [LinearOrderedField T] [FloorRing T]

/-- Models `NeuralNetwork::NeuralNetwork()` (nn.hpp 12-15): the two members are
default-constructed, then `hidden_weights.randomize(HIDDEN_SIZE)` and
`output_weights.randomize(OUTPUT_SIZE)` run in this order, the `std::size_t`
converted to `T`. `sqrt`, `rand` and `calls` are as in `Matrix.randomize`;
the result is the new network and the number of calls of `rand()` so far. -/
def NeuralNetwork.ctor_default (sqrt : T → T) (rand : Nat → Int) (calls : Nat) (junk : T) :
    Except Fault (NeuralNetwork T INPUT_SIZE HIDDEN_SIZE OUTPUT_SIZE × Nat) := do
  let hidden_weights : Matrix T HIDDEN_SIZE INPUT_SIZE := Matrix.uninit junk
  let output_weights : Matrix T OUTPUT_SIZE HIDDEN_SIZE := Matrix.uninit junk
  let (hidden_weights, calls) ← hidden_weights.randomize sqrt rand calls (HIDDEN_SIZE : T)
  let (output_weights, calls) ← output_weights.randomize sqrt rand calls (OUTPUT_SIZE : T)
  pure (⟨hidden_weights, output_weights⟩, calls)

end Construction

/-! ### The behaviour the claims describe, for comparison with the code -/

/-- The one-hot target C14 describes: the vector of length `OUTPUT_SIZE` whose
entry `label` is 1 and whose other entries are 0. -/
def one_hot {T : Type} [Zero T] [One T] (OUTPUT_SIZE : Nat) (label : Nat) :
    Vector T OUTPUT_SIZE :=
  ⟨fun o => if o.val = label then 1 else 0⟩

section Described

variable {T : Type} {INPUT_SIZE HIDDEN_SIZE OUTPUT_SIZE : Nat} [Field T]

/-- The start indices `0, m, 2m, …` of the windows of one epoch, in increasing
order: the multiples of `mini_batch_size` below `batch_size`. -/
def window_starts (batch_size mini_batch_size : Nat) : List Nat :=
  (List.range ((batch_size + mini_batch_size - 1) / mini_batch_size)).map
    (fun k => k * mini_batch_size)

/-- The training run as C16 describes it: epochs `1 … epochs` in order; in epoch
`e` the windows are visited in increasing start index, every call of
`train_batch_inner` receives the rate `lr * lr_coef ^ (e - 1)` and the weights
left by the previous call. -/
def NeuralNetwork.train_batch_described
    (self : NeuralNetwork T INPUT_SIZE HIDDEN_SIZE OUTPUT_SIZE) (imgs : List (Img T INPUT_SIZE))
    (epochs batch_size mini_batch_size : Nat) (lr lr_coef : T)
    (activation activation_prime : T → T) (junk : T) :
    Except Fault (NeuralNetwork T INPUT_SIZE HIDDEN_SIZE OUTPUT_SIZE) :=
  (List.range epochs).foldlM (fun net e =>
    (window_starts batch_size mini_batch_size).foldlM (fun net i =>
      net.train_batch_inner (imgs.drop i) (lr * lr_coef ^ e) activation activation_prime
        mini_batch_size junk) net) self

end Described

/-! ## Loop and access lemmas -/

section Lemmas

variable {T : Type} {SIZE RHS_SIZE ROWS COLS : Nat}

theorem vector_ext_data {a b : Vector T SIZE} (h : ∀ i, a.data i = b.data i) : a = b := by
  cases a; cases b; congr; exact funext h

theorem matrix_ext_data {a b : Matrix T ROWS COLS}
    (h : ∀ i j, (a.data i).data j = (b.data i).data j) : a = b := by
  cases a; cases b; congr; exact funext fun i => vector_ext_data (h i)

theorem foldlM_ok {σ ι : Type} (body : σ → ι → Except Error σ) (g : σ → ι → σ)
    (h : ∀ s i, body s i = Except.ok (g s i)) (l : List ι) (init : σ) :
    l.foldlM body init = Except.ok (l.foldl g init) := by
  induction l generalizing init with
  | nil => rfl
  | cons a l ih =>
    rw [List.foldlM_cons, h]
    exact ih (g init a)

/-- A loop whose body never throws is the pure left fold of its effect. -/
theorem forLoop_ok {σ : Type} {n : Nat} (body : σ → Fin n → Except Error σ)
    (g : σ → Fin n → σ) (h : ∀ s i, body s i = Except.ok (g s i)) (init : σ) :
    forLoop n init body = Except.ok ((List.finRange n).foldl g init) :=
  foldlM_ok body g h _ init

theorem foldl_update_mem {ι α : Type} [DecidableEq ι] (f : ι → α) (l : List ι) (d : ι → α) :
    l.foldl (fun d i => Function.update d i (f i)) d = fun j => if j ∈ l then f j else d j := by
  induction l generalizing d with
  | nil => simp
  | cons a l ih =>
    rw [List.foldl_cons, ih]
    funext j
    by_cases hj : j ∈ l
    · simp [hj]
    · by_cases hja : j = a
      · subst hja; simp [hj]
      · simp [hj, hja]

/-- Storing `f i` at every index `i` of a vector leaves the vector `f`. -/
theorem vector_foldl_write (f : Fin SIZE → T) (init : Vector T SIZE) :
    (List.finRange SIZE).foldl (fun out i => out.write i (f i)) init = ⟨f⟩ := by
  have key : ∀ (l : List (Fin SIZE)) (v : Vector T SIZE),
      l.foldl (fun out i => out.write i (f i)) v
        = ⟨l.foldl (fun d i => Function.update d i (f i)) v.data⟩ := by
    intro l
    induction l with
    | nil => intro v; rfl
    | cons a l ih => intro v; rw [List.foldl_cons, ih]; rfl
  rw [key, foldl_update_mem]
  simp

/-- Storing the row `f i` at every row index `i` of a matrix leaves the matrix `f`. -/
theorem matrix_foldl_write (f : Fin ROWS → Vector T COLS) (init : Matrix T ROWS COLS) :
    (List.finRange ROWS).foldl (fun out i => out.write i (f i)) init = ⟨f⟩ := by
  have key : ∀ (l : List (Fin ROWS)) (m : Matrix T ROWS COLS),
      l.foldl (fun out i => out.write i (f i)) m
        = ⟨l.foldl (fun d i => Function.update d i (f i)) m.data⟩ := by
    intro l
    induction l with
    | nil => intro m; rfl
    | cons a l ih => intro m; rw [List.foldl_cons, ih]; rfl
  rw [key, foldl_update_mem]
  simp

/-- Storing `f j` at every column `j` of row `i` replaces row `i` by `f`. -/
theorem Matrix.foldl_write_cell (i : Fin ROWS) (f : Fin COLS → T) (init : Matrix T ROWS COLS) :
    (List.finRange COLS).foldl (fun out j => out.write i ((out.data i).write j (f j))) init
      = init.write i ⟨f⟩ := by
  have key : ∀ (l : List (Fin COLS)) (m : Matrix T ROWS COLS),
      l.foldl (fun out j => out.write i ((out.data i).write j (f j))) m
        = m.write i ⟨l.foldl (fun d j => Function.update d j (f j)) (m.data i).data⟩ := by
    intro l
    induction l with
    | nil =>
      intro m
      simp [Matrix.write]
    | cons a l ih =>
      intro m
      rw [List.foldl_cons, ih]
      simp [Matrix.write, Vector.write]
  rw [key, foldl_update_mem]
  simp

theorem vector_operator_index_fin (v : Vector T SIZE) (i : Fin SIZE) :
    v.operator_index i = Except.ok i := by
  simp [Vector.operator_index, pure, Except.pure]

theorem vector_operator_index_const_fin (v : Vector T SIZE) (i : Fin SIZE) :
    v.operator_index_const i = Except.ok (v.data i) := by
  simp [Vector.operator_index_const, pure, Except.pure]

theorem matrix_operator_index_fin (m : Matrix T ROWS COLS) (i : Fin ROWS) :
    m.operator_index i = Except.ok i := by
  simp [Matrix.operator_index, pure, Except.pure]

theorem matrix_operator_index_const_fin (m : Matrix T ROWS COLS) (i : Fin ROWS) :
    m.operator_index_const i = Except.ok (m.data i) := by
  simp [Matrix.operator_index_const, pure, Except.pure]

theorem vector_assign_fin (out : Vector T SIZE) (i : Fin SIZE) (x : T) :
    out.assign i x = Except.ok (out.write i x) := by
  simp [Vector.assign, vector_operator_index_fin, bind, Except.bind, pure, Except.pure]

theorem Matrix.assign_row_fin (out : Matrix T ROWS COLS) (i : Fin ROWS) (row : Vector T COLS) :
    out.assign_row i row = Except.ok (out.write i row) := by
  simp [Matrix.assign_row, matrix_operator_index_fin, bind, Except.bind, pure, Except.pure]

theorem matrix_assign_fin (out : Matrix T ROWS COLS) (i : Fin ROWS) (j : Fin COLS) (x : T) :
    out.assign i j x = Except.ok (out.write i ((out.data i).write j x)) := by
  simp [Matrix.assign, matrix_operator_index_fin, vector_operator_index_fin, bind, Except.bind,
    pure, Except.pure]

theorem foldl_add_eq_sum {n : Nat} [AddCommMonoid T] (f : Fin n → T) :
    (List.finRange n).foldl (fun s k => s + f k) 0 = ∑ k, f k := by
  rw [Fin.sum_univ_def, List.sum_eq_foldl, List.foldl_map]

theorem vector_operator_plus_eq [Add T] (a b : Vector T SIZE) (junk : T) :
    a.operator_plus b junk = Except.ok ⟨fun i => a.data i + b.data i⟩ := by
  unfold Vector.operator_plus
  rw [forLoop_ok _ (fun out i => out.write i (a.data i + b.data i))]
  · rw [vector_foldl_write]
  · intro s i
    simp [vector_operator_index_const_fin, bind, Except.bind, pure, Except.pure]

theorem vector_operator_minus_eq [Sub T] (a b : Vector T SIZE) (junk : T) :
    a.operator_minus b junk = Except.ok ⟨fun i => a.data i - b.data i⟩ := by
  unfold Vector.operator_minus
  rw [forLoop_ok _ (fun out i => out.write i (a.data i - b.data i))]
  · rw [vector_foldl_write]
  · intro s i
    simp [vector_operator_index_const_fin, bind, Except.bind, pure, Except.pure]

theorem matrix_operator_plus_eq [Add T] (a b : Matrix T ROWS COLS) (junk : T) :
    a.operator_plus b junk
      = Except.ok ⟨fun i => ⟨fun j => (a.data i).data j + (b.data i).data j⟩⟩ := by
  unfold Matrix.operator_plus
  rw [forLoop_ok _ (fun out i => out.write i ⟨fun j => (a.data i).data j + (b.data i).data j⟩)]
  · rw [matrix_foldl_write]
  · intro s i
    simp [matrix_operator_index_const_fin, vector_operator_plus_eq, Matrix.assign_row_fin, bind,
      Except.bind]

theorem matrix_operator_minus_eq [Sub T] (a b : Matrix T ROWS COLS) (junk : T) :
    a.operator_minus b junk
      = Except.ok ⟨fun i => ⟨fun j => (a.data i).data j - (b.data i).data j⟩⟩ := by
  unfold Matrix.operator_minus
  rw [forLoop_ok _ (fun out i => out.write i ⟨fun j => (a.data i).data j - (b.data i).data j⟩)]
  · rw [matrix_foldl_write]
  · intro s i
    simp [matrix_operator_index_const_fin, vector_operator_minus_eq, Matrix.assign_row_fin, bind,
      Except.bind]

/-- The product loop nest of `Matrix::dot` once the shapes agree. -/
theorem Matrix.dot_eq [Semiring T] {K : Nat} (a : Matrix T ROWS COLS) (b : Matrix T COLS K)
    (junk : T) :
    a.dot b junk
      = Except.ok ⟨fun i => ⟨fun j => ∑ k : Fin COLS, (a.data i).data k * (b.data k).data j⟩⟩ := by
  unfold Matrix.dot
  have hsum : ∀ (i : Fin ROWS) (j : Fin K),
      forLoop COLS (0 : T) (fun sum k => do
          let x ← (a.data i).operator_index_const k
          let rhs_k ← b.operator_index_const k
          let y ← rhs_k.operator_index_const j
          pure (sum + x * y))
        = Except.ok (∑ k : Fin COLS, (a.data i).data k * (b.data k).data j) := by
    intro i j
    rw [forLoop_ok _ (fun sum k => sum + (a.data i).data k * (b.data k).data j)]
    · rw [foldl_add_eq_sum]
    · intro s k
      simp [vector_operator_index_const_fin, matrix_operator_index_const_fin, bind, Except.bind,
        pure, Except.pure]
  have inner : ∀ (out : Matrix T ROWS K) (i : Fin ROWS),
      forLoop K out (fun out j => do
          let sum ← forLoop COLS (0 : T) (fun sum k => do
            let x ← (a.data i).operator_index_const k
            let rhs_k ← b.operator_index_const k
            let y ← rhs_k.operator_index_const j
            pure (sum + x * y))
          out.assign i j sum)
        = Except.ok (out.write i
            ⟨fun j => ∑ k : Fin COLS, (a.data i).data k * (b.data k).data j⟩) := by
    intro out i
    rw [forLoop_ok _ (fun out j => out.write i ((out.data i).write j
      (∑ k : Fin COLS, (a.data i).data k * (b.data k).data j)))]
    · rw [Matrix.foldl_write_cell]
    · intro s j
      rw [hsum]
      simp [matrix_assign_fin, bind, Except.bind]
  rw [if_neg (by simp)]
  rw [forLoop_ok _ (fun out i => out.write i
    ⟨fun j => ∑ k : Fin COLS, (a.data i).data k * (b.data k).data j⟩) inner]
  rw [matrix_foldl_write]

/-- The inner loop of `Matrix::transpose` for a fixed source row `r`: element `r`
of every row `c` of the result receives `f c`. -/
theorem Matrix.foldl_write_column (r : Fin COLS) (f : Fin ROWS → T)
    (init : Matrix T ROWS COLS) :
    (List.finRange ROWS).foldl (fun out c => out.write c ((out.data c).write r (f c))) init
      = ⟨fun c => (init.data c).write r (f c)⟩ := by
  have key : ∀ (l : List (Fin ROWS)) (m : Matrix T ROWS COLS),
      l.foldl (fun out c => out.write c ((out.data c).write r (f c))) m
        = ⟨fun c => if c ∈ l then (m.data c).write r (f c) else m.data c⟩ := by
    intro l
    induction l with
    | nil => intro m; simp
    | cons a l ih =>
      intro m
      rw [List.foldl_cons, ih]
      congr 1
      funext c
      by_cases hca : c = a
      · subst hca
        by_cases hc : c ∈ l <;> simp [hc, Matrix.write, Vector.write]
      · by_cases hc : c ∈ l <;> simp [hc, hca, Matrix.write]
  rw [key]
  simp

/-- The outer loop of `Matrix::transpose`: after all source rows, element `r` of
row `c` holds `g r c`. -/
theorem Matrix.foldl_write_columns (g : Fin COLS → Fin ROWS → T) (init : Matrix T ROWS COLS) :
    (List.finRange COLS).foldl
        (fun out r => (⟨fun c => (out.data c).write r (g r c)⟩ : Matrix T ROWS COLS)) init
      = ⟨fun c => ⟨fun r => g r c⟩⟩ := by
  have key : ∀ (l : List (Fin COLS)) (m : Matrix T ROWS COLS),
      l.foldl (fun out r => (⟨fun c => (out.data c).write r (g r c)⟩ : Matrix T ROWS COLS)) m
        = ⟨fun c => ⟨fun r => if r ∈ l then g r c else (m.data c).data r⟩⟩ := by
    intro l
    induction l with
    | nil => intro m; simp
    | cons a l ih =>
      intro m
      rw [List.foldl_cons, ih]
      congr 1
      funext c
      congr 1
      funext r
      by_cases hra : r = a
      · subst hra
        by_cases hr : r ∈ l <;> simp [hr, Vector.write]
      · by_cases hr : r ∈ l <;> simp [hr, hra, Vector.write]
  rw [key]
  simp

theorem Matrix.transpose_eq (m : Matrix T ROWS COLS) (junk : T) :
    m.transpose junk = Except.ok ⟨fun c => ⟨fun r => (m.data r).data c⟩⟩ := by
  unfold Matrix.transpose
  have inner : ∀ (out : Matrix T COLS ROWS) (row : Fin ROWS),
      forLoop COLS out (fun out col => do
          let x ← (m.data row).operator_index_const col
          out.assign col row x)
        = Except.ok ⟨fun c => (out.data c).write row ((m.data row).data c)⟩ := by
    intro out row
    rw [forLoop_ok _ (fun out col => out.write col ((out.data col).write row
      ((m.data row).data col)))]
    · rw [Matrix.foldl_write_column]
    · intro s col
      simp [vector_operator_index_const_fin, matrix_assign_fin, bind, Except.bind]
  rw [forLoop_ok _ (fun out row => (⟨fun c => (out.data c).write row ((m.data row).data c)⟩ :
    Matrix T COLS ROWS)) inner]
  rw [Matrix.foldl_write_columns (fun r c => (m.data r).data c)]

/-- The loop of `Vector::argmax` keeps the first maximum of the indices seen so
far: `S` is the set of indices already compared, `l` the indices still to visit. -/
theorem Vector.argmax_fold [LinearOrder T] (v : Vector T SIZE) (l : List (Fin SIZE)) :
    ∀ (mi : Fin SIZE) (S : Fin SIZE → Prop), l.Pairwise (fun a b => a < b) → S mi →
      (∀ j, S j → v.data j ≤ v.data mi) → (∀ j, S j → j < mi → v.data j < v.data mi) →
      (∀ j, S j → ∀ i ∈ l, j < i) →
      ∃ r : Fin SIZE,
        l.foldl (fun (st : Nat × T) i => if st.2 < v.data i then (i.val, v.data i) else st)
          (mi.val, v.data mi) = (r.val, v.data r) ∧
        (∀ j, (S j ∨ j ∈ l) → v.data j ≤ v.data r) ∧
        (∀ j, (S j ∨ j ∈ l) → j < r → v.data j < v.data r) := by
  induction l with
  | nil =>
    intro mi S _ _ hmax hfirst _
    refine ⟨mi, rfl, ?_, ?_⟩
    · intro j hj
      rcases hj with hj | hj
      · exact hmax j hj
      · cases hj
    · intro j hj hlt
      rcases hj with hj | hj
      · exact hfirst j hj hlt
      · cases hj
  | cons a l ih =>
    intro mi S hl hS hmax hfirst hord
    rw [List.pairwise_cons] at hl
    rw [List.foldl_cons]
    by_cases hlt : v.data mi < v.data a
    · have hstep : (if (mi.val, v.data mi).2 < v.data a then (a.val, v.data a)
          else (mi.val, v.data mi)) = (a.val, v.data a) := if_pos hlt
      rw [hstep]
      obtain ⟨r, hr, h1, h2⟩ := ih a (fun j => S j ∨ j = a) hl.2 (Or.inr rfl)
        (by
          intro j hj
          rcases hj with hj | hj
          · exact le_of_lt (lt_of_le_of_lt (hmax j hj) hlt)
          · rw [hj])
        (by
          intro j hj hja
          rcases hj with hj | hj
          · exact lt_of_le_of_lt (hmax j hj) hlt
          · exact absurd hja (by rw [hj]; exact lt_irrefl _))
        (by
          intro j hj i hi
          rcases hj with hj | hj
          · exact hord j hj i (List.mem_cons_of_mem _ hi)
          · rw [hj]; exact hl.1 i hi)
      refine ⟨r, hr, ?_, ?_⟩
      · intro j hj
        apply h1
        rcases hj with hj | hj
        · exact Or.inl (Or.inl hj)
        · rcases List.mem_cons.mp hj with hj | hj
          · exact Or.inl (Or.inr hj)
          · exact Or.inr hj
      · intro j hj
        apply h2
        rcases hj with hj | hj
        · exact Or.inl (Or.inl hj)
        · rcases List.mem_cons.mp hj with hj | hj
          · exact Or.inl (Or.inr hj)
          · exact Or.inr hj
    · have hstep : (if (mi.val, v.data mi).2 < v.data a then (a.val, v.data a)
          else (mi.val, v.data mi)) = (mi.val, v.data mi) := if_neg hlt
      rw [hstep]
      obtain ⟨r, hr, h1, h2⟩ := ih mi (fun j => S j ∨ j = a) hl.2 (Or.inl hS)
        (by
          intro j hj
          rcases hj with hj | hj
          · exact hmax j hj
          · rw [hj]; exact not_lt.mp hlt)
        (by
          intro j hj hjm
          rcases hj with hj | hj
          · exact hfirst j hj hjm
          · exact absurd (hord mi hS a (List.mem_cons_self _ _))
              (by rw [← hj]; exact not_lt.mpr (le_of_lt hjm)))
        (by
          intro j hj i hi
          rcases hj with hj | hj
          · exact hord j hj i (List.mem_cons_of_mem _ hi)
          · rw [hj]; exact hl.1 i hi)
      refine ⟨r, hr, ?_, ?_⟩
      · intro j hj
        apply h1
        rcases hj with hj | hj
        · exact Or.inl (Or.inl hj)
        · rcases List.mem_cons.mp hj with hj | hj
          · exact Or.inl (Or.inr hj)
          · exact Or.inr hj
      · intro j hj
        apply h2
        rcases hj with hj | hj
        · exact Or.inl (Or.inl hj)
        · rcases List.mem_cons.mp hj with hj | hj
          · exact Or.inl (Or.inr hj)
          · exact Or.inr hj

end Lemmas

/-! ## Persistence lemmas -/

section PersistenceLemmas

theorem size_t_to_bytes_length (n : Nat) : (size_t_to_bytes n).length = 8 := by
  simp [size_t_to_bytes]

theorem size_t_of_bytes_to_bytes (n : Nat) : size_t_of_bytes (size_t_to_bytes n) = n % 2 ^ 64 := by
  simp [size_t_to_bytes, size_t_of_bytes, List.range, List.range.loop]
  omega

theorem array_to_bytes_succ {α : Type} (R : ObjRepr α) (n : Nat) (a : Fin (n + 1) → α) :
    array_to_bytes R (n + 1) a = R.to_bytes (a 0) ++ array_to_bytes R n (fun i => a i.succ) := by
  simp [array_to_bytes, List.finRange_succ_eq_map, List.map_map, Function.comp_def]

theorem array_to_bytes_length {α : Type} (R : ObjRepr α) (hR : R.Lawful) (n : Nat)
    (a : Fin n → α) : (array_to_bytes R n a).length = n * R.sizeof := by
  induction n with
  | zero => simp [array_to_bytes]
  | succ n ih =>
    rw [array_to_bytes_succ, List.length_append, ih, hR.1]
    ring

theorem array_to_bytes_slice {α : Type} (R : ObjRepr α) (hR : R.Lawful) (n : Nat)
    (a : Fin n → α) (rest : List Byte) (i : Fin n) :
    ((array_to_bytes R n a ++ rest).drop (i.val * R.sizeof)).take R.sizeof = R.to_bytes (a i) := by
  induction n with
  | zero => exact i.elim0
  | succ n ih =>
    rw [array_to_bytes_succ, List.append_assoc]
    refine Fin.cases ?_ (fun k => ?_) i
    · simp only [Fin.val_zero, Nat.zero_mul, List.drop_zero]
      exact List.take_left' (hR.1 _)
    · have hk : (k.succ : Fin (n + 1)).val * R.sizeof
          = (R.to_bytes (a 0)).length + k.val * R.sizeof := by
        rw [hR.1, Fin.val_succ]; ring
      rw [hk, List.drop_append]
      exact ih (fun i => a i.succ) k

theorem array_of_bytes_to_bytes {α : Type} (R : ObjRepr α) (hR : R.Lawful) (n : Nat)
    (a : Fin n → α) : array_of_bytes R n (array_to_bytes R n a) = a := by
  funext i
  have h := array_to_bytes_slice R hR n a [] i
  rw [List.append_nil] at h
  simp only [array_of_bytes, h, hR.2]

theorem ObjRepr.vector_lawful {T : Type} (R : ObjRepr T) (hR : R.Lawful) (SIZE : Nat) :
    (R.vector SIZE).Lawful :=
  ⟨fun v => array_to_bytes_length R hR SIZE v.data,
   fun v => by
    show (⟨array_of_bytes R SIZE (array_to_bytes R SIZE v.data)⟩ : Vector T SIZE) = v
    rw [array_of_bytes_to_bytes R hR]⟩

theorem ObjRepr.matrix_lawful {T : Type} (R : ObjRepr T) (hR : R.Lawful) (ROWS COLS : Nat) :
    (R.matrix ROWS COLS).Lawful :=
  ⟨fun m => array_to_bytes_length (R.vector COLS) (R.vector_lawful hR COLS) ROWS m.data,
   fun m => by
    show (⟨array_of_bytes (R.vector COLS) ROWS (array_to_bytes (R.vector COLS) ROWS m.data)⟩ :
      Matrix T ROWS COLS) = m
    rw [array_of_bytes_to_bytes (R.vector COLS) (R.vector_lawful hR COLS)]⟩

theorem ObjRepr.byte_lawful : ObjRepr.byte.Lawful :=
  ⟨fun _ => rfl, fun _ => rfl⟩

theorem IStream.read_exact (pre rest buf : List Byte) (n : Nat) (h : pre.length = n) :
    IStream.read ⟨pre ++ rest, true⟩ n buf = (pre, ⟨rest, true⟩) := by
  simp [IStream.read, ← h]

theorem OStream.write_exact (bytes buf : List Byte) (n : Nat) (h : buf.length = n) :
    OStream.write ⟨bytes, true⟩ buf n = ⟨bytes ++ buf, true⟩ := by
  simp [OStream.write, ← h]

/-- The byte count `sizeof(T) * ROWS * COLS`, computed in `std::size_t`, is the
size of the matrix when that size fits a `std::size_t`. -/
theorem matrix_byte_count (w ROWS COLS : Nat) (h : w * ROWS * COLS < 2 ^ 64) :
    w * ROWS % 2 ^ 64 * COLS % 2 ^ 64 = ROWS * (COLS * w) := by
  rw [Nat.mod_mul_mod, Nat.mod_eq_of_lt h]
  ring

section StreamLemmas

variable {T : Type} {SIZE ROWS COLS : Nat}

/-- What `Vector::save_binary` appends to a good stream. -/
theorem vector_save_binary_eq (R : ObjRepr T) (hR : R.Lawful) (v : Vector T SIZE)
    (hsize : SIZE < 2 ^ 64) (hv : R.sizeof * SIZE < 2 ^ 64) (pre : List Byte) :
    v.save_binary R ⟨pre, true⟩
      = ⟨pre ++ (size_t_to_bytes SIZE ++ array_to_bytes R SIZE v.data), true⟩ := by
  unfold Vector.save_binary
  simp only [Nat.mod_eq_of_lt hsize, Nat.mod_eq_of_lt hv]
  rw [OStream.write_exact _ _ _ (size_t_to_bytes_length _)]
  rw [OStream.write_exact _ _ _ (by
    rw [(R.vector_lawful hR SIZE).1]; exact Nat.mul_comm _ _)]
  rw [List.append_assoc]
  rfl

/-- What `Matrix::save_binary` appends to a good stream. -/
theorem matrix_save_binary_eq (R : ObjRepr T) (hR : R.Lawful) (m : Matrix T ROWS COLS)
    (hrows : ROWS < 2 ^ 64) (hcols : COLS < 2 ^ 64) (hm : R.sizeof * ROWS * COLS < 2 ^ 64)
    (pre : List Byte) :
    m.save_binary R ⟨pre, true⟩
      = ⟨pre ++ (size_t_to_bytes ROWS ++ (size_t_to_bytes COLS
          ++ array_to_bytes (R.vector COLS) ROWS m.data)), true⟩ := by
  unfold Matrix.save_binary
  simp only [Nat.mod_eq_of_lt hrows, Nat.mod_eq_of_lt hcols, matrix_byte_count _ _ _ hm]
  rw [OStream.write_exact _ _ _ (size_t_to_bytes_length _)]
  rw [OStream.write_exact _ _ _ (size_t_to_bytes_length _)]
  rw [OStream.write_exact _ _ (ROWS * (COLS * R.sizeof)) ((R.matrix_lawful hR ROWS COLS).1 m)]
  rw [List.append_assoc, List.append_assoc]
  rfl

/-- The vector constructor on a good stream that starts with a length word. -/
theorem vector_ctor_ifstream_header (R : ObjRepr T) (size : Nat) (hsize : size < 2 ^ 64)
    (rest : List Byte) (j₁ : Nat) (junk : T) :
    (Vector.ctor_ifstream R ⟨size_t_to_bytes size ++ rest, true⟩ j₁ junk :
        Except Error (Vector T SIZE) × IStream)
      = if size ≠ SIZE then (Except.error Error.invalid_argument, ⟨rest, true⟩)
        else
          let r₂ := IStream.read ⟨rest, true⟩ (R.sizeof * SIZE % 2 ^ 64)
            ((R.vector SIZE).to_bytes (Vector.uninit junk))
          (Except.ok ((R.vector SIZE).of_bytes r₂.1), r₂.2) := by
  unfold Vector.ctor_ifstream
  simp only [IStream.read_exact _ _ _ _ (size_t_to_bytes_length _), size_t_of_bytes_to_bytes,
    Nat.mod_eq_of_lt hsize]
  rfl

/-- The matrix constructor on a good stream that starts with two shape words. -/
theorem matrix_ctor_ifstream_header (R : ObjRepr T) (rows cols : Nat) (hrows : rows < 2 ^ 64)
    (hcols : cols < 2 ^ 64) (rest : List Byte) (j₁ j₂ : Nat) (junk : T) :
    (Matrix.ctor_ifstream R ⟨size_t_to_bytes rows ++ (size_t_to_bytes cols ++ rest), true⟩
        j₁ j₂ junk : Except Error (Matrix T ROWS COLS) × IStream)
      = if rows ≠ ROWS ∨ cols ≠ COLS then (Except.error Error.invalid_argument, ⟨rest, true⟩)
        else
          let r₃ := IStream.read ⟨rest, true⟩ (R.sizeof * ROWS % 2 ^ 64 * COLS % 2 ^ 64)
            ((R.matrix ROWS COLS).to_bytes (Matrix.uninit junk))
          (Except.ok ((R.matrix ROWS COLS).of_bytes r₃.1), r₃.2) := by
  unfold Matrix.ctor_ifstream
  simp only [IStream.read_exact _ _ _ _ (size_t_to_bytes_length _), size_t_of_bytes_to_bytes,
    Nat.mod_eq_of_lt hrows, Nat.mod_eq_of_lt hcols]
  rfl

end StreamLemmas

end PersistenceLemmas

/-! ## Theorems -/

section Claims

variable {T : Type} {SIZE RHS_SIZE ROWS COLS RHS_ROWS RHS_COLS : Nat}

/-- C1. `Matrix::dot(Matrix)`: for a `ROWS × COLS` left operand and an
`RHS_ROWS × RHS_COLS` right operand the call throws if and only if
`COLS ≠ RHS_ROWS`, and what it throws is the dimension error
`std::invalid_argument`; when `COLS = RHS_ROWS` it returns the
`ROWS × RHS_COLS` matrix with `out[i][j] = Σ_{k<COLS} this[i][k] * rhs[k][j]`,
and when the shared dimension is 0 that is the all-zero matrix. -/
theorem Matrix.dot_spec [Semiring T] (a : Matrix T ROWS COLS)
    (b : Matrix T RHS_ROWS RHS_COLS) (junk : T) :
    ((∃ e, a.dot b junk = Except.error e) ↔ COLS ≠ RHS_ROWS) ∧
    (COLS ≠ RHS_ROWS → a.dot b junk = Except.error Error.invalid_argument) ∧
    (∀ h : COLS = RHS_ROWS, a.dot b junk = Except.ok
      ⟨fun i => ⟨fun j => ∑ k : Fin COLS, (a.data i).data k * (b.data (Fin.cast h k)).data j⟩⟩) ∧
    (COLS = 0 → RHS_ROWS = 0 → a.dot b junk = Except.ok ⟨fun _ => ⟨fun _ => 0⟩⟩) := by
  have hne : COLS ≠ RHS_ROWS → a.dot b junk = Except.error Error.invalid_argument := by
    intro h
    unfold Matrix.dot
    rw [if_pos h]
    rfl
  have heq : ∀ h : COLS = RHS_ROWS, a.dot b junk = Except.ok
      ⟨fun i => ⟨fun j => ∑ k : Fin COLS, (a.data i).data k * (b.data (Fin.cast h k)).data j⟩⟩ := by
    intro h
    subst h
    exact Matrix.dot_eq a b junk
  refine ⟨⟨?_, ?_⟩, hne, heq, ?_⟩
  · rintro ⟨e, he⟩ h
    rw [heq h] at he
    cases he
  · intro h
    exact ⟨_, hne h⟩
  · intro h0 h0r
    subst h0
    subst h0r
    rw [Matrix.dot_eq]
    simp

/-- C2. `Matrix::dot(Vector)`: for every `ROWS × COLS` matrix `m` and every vector
`v` of length `COLS` the call returns normally and the result is the vector of
length `ROWS` with `out[i] = Σ_{k<COLS} m[i][k] * v[k]`. -/
theorem Matrix.dot_vector_spec [Semiring T] (m : Matrix T ROWS COLS) (v : Vector T COLS)
    (junk : T) :
    m.dot_vector v junk
      = Except.ok ⟨fun i => ∑ k : Fin COLS, (m.data i).data k * v.data k⟩ := by
  unfold Matrix.dot_vector
  have hsum : ∀ (row : Fin ROWS),
      forLoop COLS (0 : T) (fun sum col => do
          let x ← (m.data row).operator_index_const col
          let y ← v.operator_index_const col
          pure (sum + x * y))
        = Except.ok (∑ k : Fin COLS, (m.data row).data k * v.data k) := by
    intro row
    rw [forLoop_ok _ (fun sum k => sum + (m.data row).data k * v.data k)]
    · rw [foldl_add_eq_sum]
    · intro s k
      simp [vector_operator_index_const_fin, bind, Except.bind, pure, Except.pure]
  rw [forLoop_ok _ (fun out row => out.write row (∑ k : Fin COLS, (m.data row).data k * v.data k))]
  · rw [vector_foldl_write]
  · intro s row
    rw [hsum]
    simp [vector_assign_fin, bind, Except.bind]

/-- C4. `Matrix::transpose`: for every `ROWS × COLS` matrix `m` the call returns
the `COLS × ROWS` matrix `t` with `t[j][i] = m[i][j]`, and transposing `t` again
returns `m`. -/
theorem Matrix.transpose_spec (m : Matrix T ROWS COLS) (junk junk2 : T) :
    ∃ t : Matrix T COLS ROWS, m.transpose junk = Except.ok t ∧
      (∀ (i : Fin ROWS) (j : Fin COLS), (t.data j).data i = (m.data i).data j) ∧
      t.transpose junk2 = Except.ok m := by
  refine ⟨_, Matrix.transpose_eq m junk, fun _ _ => rfl, ?_⟩
  rw [Matrix.transpose_eq]

/-- C5. Over exact arithmetic (an additive commutative group) element-wise
addition and subtraction return normally and satisfy `a + b = b + a` and
`(a + b) - b = a`, for vectors of the same length and for matrices of the same
shape. -/
theorem operator_plus_comm_and_minus_cancel [AddCommGroup T] (a b : Vector T SIZE)
    (A B : Matrix T ROWS COLS) (j₁ j₂ j₃ : T) :
    (∃ s, a.operator_plus b j₁ = Except.ok s ∧ b.operator_plus a j₂ = Except.ok s ∧
      s.operator_minus b j₃ = Except.ok a) ∧
    (∃ S, A.operator_plus B j₁ = Except.ok S ∧ B.operator_plus A j₂ = Except.ok S ∧
      S.operator_minus B j₃ = Except.ok A) := by
  constructor
  · refine ⟨_, vector_operator_plus_eq a b j₁, ?_, ?_⟩
    · rw [vector_operator_plus_eq]
      congr 2
      funext i
      exact add_comm _ _
    · rw [vector_operator_minus_eq]
      congr 1
      apply vector_ext_data
      intro i
      exact add_sub_cancel_right _ _
  · refine ⟨_, matrix_operator_plus_eq A B j₁, ?_, ?_⟩
    · rw [matrix_operator_plus_eq]
      congr 1
      apply matrix_ext_data
      intro i j
      exact add_comm _ _
    · rw [matrix_operator_minus_eq]
      congr 1
      apply matrix_ext_data
      intro i j
      exact add_sub_cancel_right _ _

/-- C6. `Vector::argmax` throws if and only if `SIZE = 0` (and then it throws
`std::runtime_error`); for `SIZE ≥ 1` it returns the smallest index of a maximal
element: `v[j] ≤ v[i]` for every `j` and `v[j] < v[i]` for every `j < i`. On
`[0.1, 0.9, 0.3]` it returns 1 and on `[5, 5, 2]` it returns 0. -/
theorem Vector.argmax_spec [LinearOrder T] (v : Vector T SIZE) :
    ((∃ e, v.argmax = Except.error e) ↔ SIZE = 0) ∧
    (SIZE = 0 → v.argmax = Except.error Error.runtime_error) ∧
    (1 ≤ SIZE → ∃ i : Fin SIZE, v.argmax = Except.ok i.val ∧
      (∀ j, v.data j ≤ v.data i) ∧ (∀ j, j < i → v.data j < v.data i)) ∧
    Vector.argmax (⟨![1 / 10, 9 / 10, 3 / 10]⟩ : Vector ℚ 3) = Except.ok 1 ∧
    Vector.argmax (⟨![5, 5, 2]⟩ : Vector ℚ 3) = Except.ok 0 := by
  have hzero : SIZE = 0 → v.argmax = Except.error Error.runtime_error := by
    intro h
    unfold Vector.argmax
    rw [dif_pos h]
    rfl
  have hpos : 1 ≤ SIZE → ∃ i : Fin SIZE, v.argmax = Except.ok i.val ∧
      (∀ j, v.data j ≤ v.data i) ∧ (∀ j, j < i → v.data j < v.data i) := by
    intro h
    obtain ⟨n, rfl⟩ : ∃ n, SIZE = n + 1 := ⟨SIZE - 1, by omega⟩
    have hpw := List.pairwise_lt_finRange (n + 1)
    have hall : ∀ j : Fin (n + 1), j ∈ List.finRange (n + 1) := List.mem_finRange
    rw [List.finRange_succ_eq_map] at hpw hall
    rw [List.pairwise_cons] at hpw
    obtain ⟨r, hr, h1, h2⟩ := Vector.argmax_fold v ((List.finRange n).map Fin.succ) 0
      (fun j => j = 0) hpw.2 rfl (by intro j hj; rw [hj])
      (by intro j hj hlt; rw [hj] at hlt; exact absurd hlt (lt_irrefl _))
      (by intro j hj i hi; rw [hj]; exact hpw.1 i hi)
    refine ⟨r, ?_, ?_, ?_⟩
    · unfold Vector.argmax
      rw [dif_neg (by omega)]
      simp only [List.finRange_succ_eq_map, List.drop_succ_cons, List.drop_zero]
      show Except.ok _ = _
      congr 1
      exact congrArg Prod.fst hr
    · intro j
      exact h1 j ((List.mem_cons.mp (hall j)).imp id id)
    · intro j
      exact h2 j ((List.mem_cons.mp (hall j)).imp id id)
  refine ⟨⟨?_, ?_⟩, hzero, hpos, ?_, ?_⟩
  · rintro ⟨e, he⟩
    by_contra hne
    obtain ⟨i, hi, _⟩ := hpos (by omega)
    rw [hi] at he
    cases he
  · intro h
    exact ⟨_, hzero h⟩
  · simp [Vector.argmax, List.finRange_succ_eq_map, pure, Except.pure]
    norm_num
  · simp [Vector.argmax, List.finRange_succ_eq_map, pure, Except.pure]
    norm_num

/-- C3. `Vector::dot` is the outer product: for every `u` of length `SIZE` and
every `w` of length `RHS_SIZE` the call returns normally, whatever the
indeterminate contents of the default-constructed result were, and the result
is the `SIZE × RHS_SIZE` matrix with `out[i][j] = u[i] * w[j]`; no sum is taken. -/
theorem Vector.dot_is_outer_product [Mul T] (u : Vector T SIZE) (w : Vector T RHS_SIZE)
    (junk : T) :
    u.dot w junk = Except.ok ⟨fun i => ⟨fun j => u.data i * w.data j⟩⟩ := by
  unfold Vector.dot
  have inner : ∀ (out : Matrix T SIZE RHS_SIZE) (row : Fin SIZE),
      forLoop RHS_SIZE out (fun out col => do
          let r ← w.operator_index_const col
          out.assign row col (u.data row * r))
        = Except.ok (out.write row ⟨fun j => u.data row * w.data j⟩) := by
    intro out row
    rw [forLoop_ok _ (fun out col => out.write row ((out.data row).write col
      (u.data row * w.data col)))]
    · rw [Matrix.foldl_write_cell]
    · intro s col
      simp [vector_operator_index_const_fin, matrix_assign_fin, bind, Except.bind]
  rw [forLoop_ok _ (fun out row => out.write row ⟨fun j => u.data row * w.data j⟩) inner]
  rw [matrix_foldl_write]

/-- C7. `Vector::softmax` over the reals: for every vector `x` of length
`SIZE ≥ 1` the call returns normally, `softmax(x)[i] = exp(x[i]) / Σ_j exp(x[j])`,
every entry is non-negative and the entries sum to exactly 1. -/
theorem Vector.softmax_spec (x : Vector ℝ SIZE) (junk : ℝ) (hN : 1 ≤ SIZE) :
    ∃ out : Vector ℝ SIZE, x.softmax Real.exp junk = Except.ok out ∧
      (∀ i, out.data i = Real.exp (x.data i) / ∑ j, Real.exp (x.data j)) ∧
      (∀ i, 0 ≤ out.data i) ∧ ∑ i, out.data i = 1 := by
  have htotal : forLoop SIZE (0 : ℝ) (fun total i => pure (total + Real.exp (x.data i)))
      = Except.ok (∑ j, Real.exp (x.data j)) := by
    rw [forLoop_ok _ (fun total i => total + Real.exp (x.data i))]
    · rw [foldl_add_eq_sum]
    · intro _ _
      rfl
  have hrun : x.softmax Real.exp junk
      = Except.ok ⟨fun i => Real.exp (x.data i) / ∑ j, Real.exp (x.data j)⟩ := by
    unfold Vector.softmax
    rw [htotal]
    show forLoop SIZE (Vector.uninit junk) _ = _
    rw [forLoop_ok _ (fun out i => out.write i
      (Real.exp (x.data i) / ∑ j, Real.exp (x.data j)))]
    · rw [vector_foldl_write]
    · intro s i
      exact vector_assign_fin s i _
  have hpos : 0 < ∑ j : Fin SIZE, Real.exp (x.data j) := by
    haveI : Nonempty (Fin SIZE) := ⟨⟨0, hN⟩⟩
    exact Finset.sum_pos (fun j _ => Real.exp_pos _) Finset.univ_nonempty
  refine ⟨_, hrun, fun _ => rfl, ?_, ?_⟩
  · intro i
    exact div_nonneg (le_of_lt (Real.exp_pos _)) (le_of_lt hpos)
  · show ∑ i : Fin SIZE, Real.exp (x.data i) / ∑ j, Real.exp (x.data j) = 1
    rw [← Finset.sum_div]
    exact div_self (ne_of_gt hpos)

/-- Witness for C7: the vector `[0, 1]` of length 2. -/
theorem Vector.softmax_spec_witness :
    ∃ out : Vector ℝ 2, Vector.softmax Real.exp (⟨![0, 1]⟩ : Vector ℝ 2) 7 = Except.ok out ∧
      (∀ i, out.data i
        = Real.exp ((⟨![0, 1]⟩ : Vector ℝ 2).data i)
          / ∑ j, Real.exp ((⟨![0, 1]⟩ : Vector ℝ 2).data j)) ∧
      (∀ i, 0 ≤ out.data i) ∧ ∑ i, out.data i = 1 :=
  Vector.softmax_spec ⟨![0, 1]⟩ 7 (by decide)

/-- C10. Bounds-checked access: `v[i]`, through the mutable and through the
read-only `operator[]`, throws `std::out_of_range` if and only if `i ≥ SIZE` and
otherwise yields element `i`; row access `m[i]` on a matrix throws
`std::out_of_range` if and only if `i ≥ ROWS` and otherwise yields row `i`. -/
theorem operator_index_spec (v : Vector T SIZE) (m : Matrix T ROWS COLS) (i : Nat) :
    ((v.operator_index i = Except.error Error.out_of_range ↔ i ≥ SIZE) ∧
      (v.operator_index_const i = Except.error Error.out_of_range ↔ i ≥ SIZE) ∧
      (∀ h : i < SIZE, v.operator_index i = Except.ok ⟨i, h⟩ ∧
        v.operator_index_const i = Except.ok (v.data ⟨i, h⟩))) ∧
    ((m.operator_index i = Except.error Error.out_of_range ↔ i ≥ ROWS) ∧
      (m.operator_index_const i = Except.error Error.out_of_range ↔ i ≥ ROWS) ∧
      (∀ h : i < ROWS, m.operator_index i = Except.ok ⟨i, h⟩ ∧
        m.operator_index_const i = Except.ok (m.data ⟨i, h⟩))) := by
  refine ⟨⟨?_, ?_, ?_⟩, ?_, ?_, ?_⟩
  · unfold Vector.operator_index
    by_cases h : i ≥ SIZE
    · simp [h, throw, throwThe, MonadExceptOf.throw]
    · simp [h, pure, Except.pure]
  · unfold Vector.operator_index_const
    by_cases h : i ≥ SIZE
    · simp [h, throw, throwThe, MonadExceptOf.throw]
    · simp [h, pure, Except.pure]
  · intro h
    exact ⟨vector_operator_index_fin v ⟨i, h⟩, vector_operator_index_const_fin v ⟨i, h⟩⟩
  · unfold Matrix.operator_index
    by_cases h : i ≥ ROWS
    · simp [h, throw, throwThe, MonadExceptOf.throw]
    · simp [h, pure, Except.pure]
  · unfold Matrix.operator_index_const
    by_cases h : i ≥ ROWS
    · simp [h, throw, throwThe, MonadExceptOf.throw]
    · simp [h, pure, Except.pure]
  · intro h
    exact ⟨matrix_operator_index_fin m ⟨i, h⟩, matrix_operator_index_const_fin m ⟨i, h⟩⟩

/-- Witness for C1: the product of a `2 × 3` and a `3 × 2` integer matrix, with the
entries computed by hand. -/
theorem Matrix.dot_spec_witness :
    Matrix.dot (⟨![⟨![1, 2, 3]⟩, ⟨![4, 5, 6]⟩]⟩ : Matrix ℤ 2 3)
        (⟨![⟨![7, 8]⟩, ⟨![9, 10]⟩, ⟨![11, 12]⟩]⟩ : Matrix ℤ 3 2) 0
      = Except.ok ⟨![⟨![58, 64]⟩, ⟨![139, 154]⟩]⟩ := by
  rw [(Matrix.dot_spec (⟨![⟨![1, 2, 3]⟩, ⟨![4, 5, 6]⟩]⟩ : Matrix ℤ 2 3)
    (⟨![⟨![7, 8]⟩, ⟨![9, 10]⟩, ⟨![11, 12]⟩]⟩ : Matrix ℤ 3 2) 0).2.2.1 rfl]
  congr 1
  apply matrix_ext_data
  intro i j
  fin_cases i <;> fin_cases j <;> simp [Fin.sum_univ_succ]

/-- Witness for C6: on `[3, 7, 7]` the first maximum is returned. -/
theorem Vector.argmax_spec_witness :
    ∃ i : Fin 3, Vector.argmax (⟨![3, 7, 7]⟩ : Vector ℤ 3) = Except.ok i.val ∧
      (∀ j, (⟨![3, 7, 7]⟩ : Vector ℤ 3).data j ≤ (⟨![3, 7, 7]⟩ : Vector ℤ 3).data i) ∧
      (∀ j, j < i → (⟨![3, 7, 7]⟩ : Vector ℤ 3).data j < (⟨![3, 7, 7]⟩ : Vector ℤ 3).data i) :=
  (Vector.argmax_spec (⟨![3, 7, 7]⟩ : Vector ℤ 3)).2.2.1 (by decide)

/-- Witness for C10: index 1 of a vector of length 2 and row 1 of a `2 × 1` matrix. -/
theorem operator_index_spec_witness :
    (Vector.operator_index (⟨![4, 5]⟩ : Vector ℤ 2) 1 = Except.ok ⟨1, by decide⟩ ∧
      Vector.operator_index_const (⟨![4, 5]⟩ : Vector ℤ 2) 1
        = Except.ok ((⟨![4, 5]⟩ : Vector ℤ 2).data ⟨1, by decide⟩)) ∧
    (Vector.operator_index (⟨![4, 5]⟩ : Vector ℤ 2) 2 = Except.error Error.out_of_range) :=
  ⟨(operator_index_spec (⟨![4, 5]⟩ : Vector ℤ 2) (⟨![⟨![6]⟩, ⟨![7]⟩]⟩ : Matrix ℤ 2 1) 1).1.2.2
      (by decide),
    (operator_index_spec (⟨![4, 5]⟩ : Vector ℤ 2) (⟨![⟨![6]⟩, ⟨![7]⟩]⟩ : Matrix ℤ 2 1) 2).1.1.mpr
      (by decide)⟩

end Claims

section PersistenceClaims

variable {T : Type} {SIZE ROWS COLS : Nat}

/-- C8. Binary round trip. For a lawful element representation and sizes that
fit a `std::size_t`, `Matrix::save_binary` writes the word `ROWS`, the word
`COLS` and then the `ROWS · COLS` elements in row-major order, and the
`Matrix<T, ROWS, COLS>` stream constructor run on those bytes (followed by any
`rest`) returns a matrix equal to the saved one and leaves exactly `rest` in the
stream; likewise `Vector::save_binary` writes the word `SIZE` and the `SIZE`
elements in order, and the `Vector<T, SIZE>` stream constructor returns the
saved vector. -/
theorem save_binary_round_trip (R : ObjRepr T) (hR : R.Lawful) (m : Matrix T ROWS COLS)
    (v : Vector T SIZE) (hrows : ROWS < 2 ^ 64) (hcols : COLS < 2 ^ 64)
    (hm : R.sizeof * ROWS * COLS < 2 ^ 64) (hsize : SIZE < 2 ^ 64)
    (hv : R.sizeof * SIZE < 2 ^ 64) (rest : List Byte) (j₁ j₂ : Nat) (junk : T) :
    ((m.save_binary R ⟨[], true⟩).bytes
        = size_t_to_bytes ROWS ++ size_t_to_bytes COLS
          ++ ((List.finRange ROWS).map fun i =>
              ((List.finRange COLS).map fun j => R.to_bytes ((m.data i).data j)).flatten).flatten ∧
      Matrix.ctor_ifstream R ⟨(m.save_binary R ⟨[], true⟩).bytes ++ rest, true⟩ j₁ j₂ junk
        = (Except.ok m, ⟨rest, true⟩)) ∧
    ((v.save_binary R ⟨[], true⟩).bytes
        = size_t_to_bytes SIZE
          ++ ((List.finRange SIZE).map fun i => R.to_bytes (v.data i)).flatten ∧
      Vector.ctor_ifstream R ⟨(v.save_binary R ⟨[], true⟩).bytes ++ rest, true⟩ j₁ junk
        = (Except.ok v, ⟨rest, true⟩)) := by
  rw [matrix_save_binary_eq R hR m hrows hcols hm, vector_save_binary_eq R hR v hsize hv]
  simp only [List.nil_append]
  refine ⟨⟨?_, ?_⟩, ?_, ?_⟩
  · rw [List.append_assoc]
    rfl
  · rw [List.append_assoc, List.append_assoc, matrix_ctor_ifstream_header R ROWS COLS hrows hcols]
    rw [if_neg (by simp)]
    simp only [matrix_byte_count _ _ _ hm]
    rw [IStream.read_exact (array_to_bytes (R.vector COLS) ROWS m.data) _ _
      (ROWS * (COLS * R.sizeof)) ((R.matrix_lawful hR ROWS COLS).1 m)]
    exact congrArg (fun x => (Except.ok x, (⟨rest, true⟩ : IStream)))
      ((R.matrix_lawful hR ROWS COLS).2 m)
  · rfl
  · rw [List.append_assoc, vector_ctor_ifstream_header R SIZE hsize]
    rw [if_neg (by simp)]
    simp only [Nat.mod_eq_of_lt hv]
    rw [IStream.read_exact (array_to_bytes R SIZE v.data) _ _ (R.sizeof * SIZE) (by
      rw [array_to_bytes_length R hR]; exact Nat.mul_comm _ _)]
    exact congrArg (fun x => (Except.ok x, (⟨rest, true⟩ : IStream)))
      ((R.vector_lawful hR SIZE).2 v)

/-- Witness for C8: a `2 × 2` matrix and a vector of length 3 over one-byte
elements, followed in the file by one more byte. -/
theorem save_binary_round_trip_witness :
    Matrix.ctor_ifstream ObjRepr.byte
        ⟨(Matrix.save_binary ObjRepr.byte (⟨![⟨![1, 2]⟩, ⟨![3, 4]⟩]⟩ : Matrix Byte 2 2)
          ⟨[], true⟩).bytes ++ [9], true⟩ 5 6 0
      = (Except.ok (⟨![⟨![1, 2]⟩, ⟨![3, 4]⟩]⟩ : Matrix Byte 2 2), ⟨[9], true⟩) :=
  (save_binary_round_trip ObjRepr.byte ObjRepr.byte_lawful
    (⟨![⟨![1, 2]⟩, ⟨![3, 4]⟩]⟩ : Matrix Byte 2 2) (⟨![5, 6, 7]⟩ : Vector Byte 3)
    (by norm_num) (by norm_num) (by norm_num [ObjRepr.byte]) (by norm_num)
    (by norm_num [ObjRepr.byte]) [9] 5 6 0).1.2

/-- C9. Deserialization rejects a mismatched shape before touching element data.
On a good stream that starts with the header words `rows`, `cols` the
`Matrix<T, ROWS, COLS>` stream constructor throws if and only if
`(rows, cols) ≠ (ROWS, COLS)`; what it throws is the dimension error
`std::invalid_argument`, and it leaves the stream good with exactly the two
header words consumed. On a good stream that starts with the word `size` the
`Vector<T, SIZE>` stream constructor throws if and only if `size ≠ SIZE`, with
exactly the one header word consumed. -/
theorem ctor_ifstream_rejects_mismatch (R : ObjRepr T) (rows cols size : Nat)
    (hrows : rows < 2 ^ 64) (hcols : cols < 2 ^ 64) (hsize : size < 2 ^ 64)
    (rest : List Byte) (j₁ j₂ : Nat) (junk : T) :
    (((∃ e, (Matrix.ctor_ifstream R ⟨size_t_to_bytes rows ++ (size_t_to_bytes cols ++ rest), true⟩
          j₁ j₂ junk : Except Error (Matrix T ROWS COLS) × IStream).1 = Except.error e)
        ↔ (rows, cols) ≠ (ROWS, COLS)) ∧
      ((rows, cols) ≠ (ROWS, COLS) →
        (Matrix.ctor_ifstream R ⟨size_t_to_bytes rows ++ (size_t_to_bytes cols ++ rest), true⟩
          j₁ j₂ junk : Except Error (Matrix T ROWS COLS) × IStream)
          = (Except.error Error.invalid_argument, ⟨rest, true⟩))) ∧
    (((∃ e, (Vector.ctor_ifstream R ⟨size_t_to_bytes size ++ rest, true⟩ j₁ junk :
          Except Error (Vector T SIZE) × IStream).1 = Except.error e) ↔ size ≠ SIZE) ∧
      (size ≠ SIZE →
        (Vector.ctor_ifstream R ⟨size_t_to_bytes size ++ rest, true⟩ j₁ junk :
          Except Error (Vector T SIZE) × IStream)
          = (Except.error Error.invalid_argument, ⟨rest, true⟩))) := by
  rw [matrix_ctor_ifstream_header R rows cols hrows hcols,
    vector_ctor_ifstream_header R size hsize]
  have hpair : (rows, cols) ≠ (ROWS, COLS) ↔ (rows ≠ ROWS ∨ cols ≠ COLS) := by
    rw [Ne, Prod.mk.injEq, not_and_or]
  refine ⟨⟨?_, ?_⟩, ?_, ?_⟩
  · rw [hpair]
    by_cases h : rows ≠ ROWS ∨ cols ≠ COLS
    · rw [if_pos h]
      exact ⟨fun _ => h, fun _ => ⟨_, rfl⟩⟩
    · rw [if_neg h]
      constructor
      · rintro ⟨e, he⟩
        cases he
      · intro h2
        exact absurd h2 h
  · intro h
    rw [if_pos (hpair.mp h)]
  · by_cases h : size ≠ SIZE
    · rw [if_pos h]
      exact ⟨fun _ => h, fun _ => ⟨_, rfl⟩⟩
    · rw [if_neg h]
      constructor
      · rintro ⟨e, he⟩
        cases he
      · intro h2
        exact absurd h2 h
  · intro h
    rw [if_pos h]

/-- Witness for C9: a header announcing `2 × 3` read as a `Matrix<T, 2, 2>`. -/
theorem ctor_ifstream_rejects_mismatch_witness :
    (Matrix.ctor_ifstream ObjRepr.byte
        ⟨size_t_to_bytes 2 ++ (size_t_to_bytes 3 ++ [1, 2, 3, 4, 5, 6]), true⟩ 0 0 0 :
        Except Error (Matrix Byte 2 2) × IStream)
      = (Except.error Error.invalid_argument, ⟨[1, 2, 3, 4, 5, 6], true⟩) :=
  (@ctor_ifstream_rejects_mismatch Byte 3 2 2 ObjRepr.byte 2 3 4 (by norm_num) (by norm_num)
    (by norm_num) [1, 2, 3, 4, 5, 6] 0 0 0).1.2 (by decide)

end PersistenceClaims

/-! ## Literal construction and flattening -/

section LiteralClaims

variable {T : Type} {SIZE ROWS COLS : Nat}

theorem foldlM_pure {ε σ ι : Type} (body : σ → ι → Except ε σ) (g : σ → ι → σ) (l : List ι)
    (h : ∀ s, ∀ i ∈ l, body s i = Except.ok (g s i)) (init : σ) :
    l.foldlM body init = Except.ok (l.foldl g init) := by
  induction l generalizing init with
  | nil => rfl
  | cons a l ih =>
    rw [List.foldlM_cons, h init a (List.mem_cons_self _ _)]
    exact ih (fun s i hi => h s i (List.mem_cons_of_mem _ hi)) (g init a)

theorem foldlM_throws {ε σ ι : Type} (body : σ → ι → Except ε σ) (e : ε) (l : List ι)
    (hall : ∀ s, ∀ i ∈ l, (∃ s', body s i = Except.ok s') ∨ body s i = Except.error e)
    (hsome : ∃ i ∈ l, ∀ s, body s i = Except.error e) (init : σ) :
    l.foldlM body init = Except.error e := by
  induction l generalizing init with
  | nil =>
    obtain ⟨i, hi, _⟩ := hsome
    cases hi
  | cons a l ih =>
    rw [List.foldlM_cons]
    rcases hall init a (List.mem_cons_self _ _) with ⟨s', hs⟩ | herr
    · rw [hs]
      apply ih (fun s i hi => hall s i (List.mem_cons_of_mem _ hi))
      obtain ⟨i, hi, hfail⟩ := hsome
      rcases List.mem_cons.mp hi with hia | hil
      · have hbad := hfail init
        rw [hia, hs] at hbad
        cases hbad
      · exact ⟨i, hil, hfail⟩
    · rw [herr]
      rfl

theorem vector_ctor_initializer_list_ok (il : List T) (junk : T) (h : il.length = SIZE) :
    (Vector.ctor_initializer_list il junk : Except Error (Vector T SIZE))
      = Except.ok ⟨fun i => il.get ⟨i.val, by rw [h]; exact i.isLt⟩⟩ := by
  unfold Vector.ctor_initializer_list
  rw [dif_neg (not_not.mpr h)]
  show Except.ok _ = _
  rw [vector_foldl_write]

theorem vector_ctor_initializer_list_throws (il : List T) (junk : T) (h : il.length ≠ SIZE) :
    (Vector.ctor_initializer_list il junk : Except Error (Vector T SIZE))
      = Except.error Error.invalid_argument := by
  unfold Vector.ctor_initializer_list
  rw [dif_pos h]
  rfl

theorem matrix_ctor_initializer_list_ok (il : List (List T)) (junk : T) (h : il.length = ROWS)
    (hrow : ∀ row ∈ il, row.length = COLS) :
    (Matrix.ctor_initializer_list il junk : Except Error (Matrix T ROWS COLS))
      = Except.ok ⟨fun i => ⟨fun j => (il.get ⟨i.val, by rw [h]; exact i.isLt⟩).get
          ⟨j.val, by rw [hrow _ (List.get_mem _ _ _)]; exact j.isLt⟩⟩⟩ := by
  unfold Matrix.ctor_initializer_list
  rw [dif_neg (not_not.mpr h)]
  rw [forLoop_ok _ (fun self i => self.write i ⟨fun j => (il.get ⟨i.val, by rw [h]; exact i.isLt⟩).get
          ⟨j.val, by rw [hrow _ (List.get_mem _ _ _)]; exact j.isLt⟩⟩)]
  · rw [matrix_foldl_write]
  · intro s i
    rw [vector_ctor_initializer_list_ok _ _ (hrow _ (List.get_mem _ _ _))]
    rfl

theorem matrix_ctor_initializer_list_throws (il : List (List T)) (junk : T)
    (h : il.length ≠ ROWS ∨ ∃ row ∈ il, row.length ≠ COLS) :
    (Matrix.ctor_initializer_list il junk : Except Error (Matrix T ROWS COLS))
      = Except.error Error.invalid_argument := by
  unfold Matrix.ctor_initializer_list
  by_cases hlen : il.length ≠ ROWS
  · rw [dif_pos hlen]
    rfl
  · rw [dif_neg hlen]
    rcases h with h | ⟨row, hmem, hbad⟩
    · exact absurd h hlen
    · obtain ⟨k, hk⟩ := List.get_of_mem hmem
      apply foldlM_throws
      · intro s i _
        by_cases hi : (il.get ⟨i.val, by rw [not_not.mp hlen]; exact i.isLt⟩).length = COLS
        · left
          rw [vector_ctor_initializer_list_ok _ _ hi]
          exact ⟨_, rfl⟩
        · right
          rw [vector_ctor_initializer_list_throws _ _ hi]
          rfl
      · refine ⟨⟨k.val, by rw [← not_not.mp hlen]; exact k.isLt⟩, List.mem_finRange _, ?_⟩
        intro s
        have hk2 : (il.get ⟨k.val, k.isLt⟩).length ≠ COLS := by rw [hk]; exact hbad
        rw [vector_ctor_initializer_list_throws _ _ hk2]
        rfl

/-- C11. Literal construction is shape-checked. `Vector<T, SIZE>` from a list of
literals throws if and only if the length of the list differs from `SIZE`, what
it throws is the dimension error `std::invalid_argument`, and on success
element `i` is the `i`-th literal. `Matrix<T, ROWS, COLS>` from a list of rows
throws if and only if the number of rows differs from `ROWS` or some row has a
length other than `COLS`, again `std::invalid_argument`, and on success
`m[i][j]` is the `j`-th literal of the `i`-th row. -/
theorem ctor_initializer_list_spec (il : List T) (ill : List (List T)) (junk : T) :
    (((∃ e, (Vector.ctor_initializer_list il junk : Except Error (Vector T SIZE))
          = Except.error e) ↔ il.length ≠ SIZE) ∧
      (il.length ≠ SIZE →
        (Vector.ctor_initializer_list il junk : Except Error (Vector T SIZE))
          = Except.error Error.invalid_argument) ∧
      (il.length = SIZE → ∃ v : Vector T SIZE,
        Vector.ctor_initializer_list il junk = Except.ok v ∧
        ∀ i : Fin SIZE, il[i.val]? = some (v.data i))) ∧
    (((∃ e, (Matrix.ctor_initializer_list ill junk : Except Error (Matrix T ROWS COLS))
          = Except.error e) ↔ (ill.length ≠ ROWS ∨ ∃ row ∈ ill, row.length ≠ COLS)) ∧
      ((ill.length ≠ ROWS ∨ ∃ row ∈ ill, row.length ≠ COLS) →
        (Matrix.ctor_initializer_list ill junk : Except Error (Matrix T ROWS COLS))
          = Except.error Error.invalid_argument) ∧
      (ill.length = ROWS → (∀ row ∈ ill, row.length = COLS) → ∃ m : Matrix T ROWS COLS,
        Matrix.ctor_initializer_list ill junk = Except.ok m ∧
        ∀ (i : Fin ROWS) (j : Fin COLS),
          (ill[i.val]?).bind (fun row => row[j.val]?) = some ((m.data i).data j))) := by
  refine ⟨⟨⟨?_, ?_⟩, vector_ctor_initializer_list_throws il junk, ?_⟩,
    ⟨?_, ?_⟩, matrix_ctor_initializer_list_throws ill junk, ?_⟩
  · rintro ⟨e, he⟩ hlen
    rw [vector_ctor_initializer_list_ok il junk hlen] at he
    cases he
  · intro h
    exact ⟨_, vector_ctor_initializer_list_throws il junk h⟩
  · intro h
    refine ⟨_, vector_ctor_initializer_list_ok il junk h, ?_⟩
    intro i
    rw [List.getElem?_eq_getElem (by rw [h]; exact i.isLt)]
    rfl
  · rintro ⟨e, he⟩
    by_contra hgood
    rw [not_or, not_not, not_exists] at hgood
    have hrows : ∀ row ∈ ill, row.length = COLS := by
      intro row hrow
      by_contra hne
      exact hgood.2 row ⟨hrow, hne⟩
    rw [matrix_ctor_initializer_list_ok ill junk hgood.1 hrows] at he
    cases he
  · intro h
    exact ⟨_, matrix_ctor_initializer_list_throws ill junk h⟩
  · intro h hrows
    refine ⟨_, matrix_ctor_initializer_list_ok ill junk h hrows, ?_⟩
    intro i j
    rw [List.getElem?_eq_getElem (by rw [h]; exact i.isLt)]
    show (ill[i.val])[j.val]? = _
    rw [List.getElem?_eq_getElem (by
      rw [hrows _ (List.getElem_mem _)]; exact j.isLt)]
    rfl

/-- Witness for C11: three literals for a `Vector<T, 3>`, two rows of two for a
`Matrix<T, 2, 2>`. -/
theorem ctor_initializer_list_spec_witness :
    (∃ v : Vector ℤ 3, Vector.ctor_initializer_list [4, 5, 6] 0 = Except.ok v ∧
      ∀ i : Fin 3, [4, 5, 6][i.val]? = some (v.data i)) ∧
    (∃ m : Matrix ℤ 2 2, Matrix.ctor_initializer_list [[1, 2], [3, 4]] 0 = Except.ok m ∧
      ∀ (i : Fin 2) (j : Fin 2),
        ([[1, 2], [3, 4]][i.val]?).bind (fun row => row[j.val]?) = some ((m.data i).data j)) :=
  ⟨(@ctor_initializer_list_spec ℤ 3 2 2 [4, 5, 6] [[1, 2], [3, 4]] 0).1.2.2 rfl,
    (@ctor_initializer_list_spec ℤ 3 2 2 [4, 5, 6] [[1, 2], [3, 4]] 0).2.2.2 rfl
      (by decide)⟩

/-- C19 (the code departs from the claim). Both flattening functions index the
result with `row * ROWS + col` where the row-major position is
`row * COLS + col`. On every `3 × 2` matrix both calls throw
`std::out_of_range` (index `2 * 3 + 0 = 6` of 6 elements); on every `2 × 3`
matrix `flatten_vertical` returns normally, but `m[0][2]` is overwritten by
`m[1][0]` and the last element keeps its indeterminate value. -/
theorem Matrix.flatten_row_stride_is_ROWS (a : Matrix T 3 2) (b : Matrix T 2 3) (junk : T) :
    a.flatten_vertical junk = Except.error Error.out_of_range ∧
    a.flatten_horizontal junk = Except.error Error.out_of_range ∧
    b.flatten_vertical junk = Except.ok ⟨![⟨![(b.data 0).data 0]⟩, ⟨![(b.data 0).data 1]⟩,
      ⟨![(b.data 1).data 0]⟩, ⟨![(b.data 1).data 1]⟩, ⟨![(b.data 1).data 2]⟩, ⟨![junk]⟩]⟩ := by
  refine ⟨?_, ?_, ?_⟩
  · simp [Matrix.flatten_vertical, forLoop, List.finRange_succ_eq_map, Matrix.assign,
      Matrix.operator_index, Vector.operator_index, Vector.operator_index_const,
      bind, Except.bind, pure, Except.pure, throw, throwThe, MonadExceptOf.throw]
  · simp [Matrix.flatten_horizontal, forLoop, List.finRange_succ_eq_map, Matrix.assign,
      Matrix.operator_index, Vector.operator_index, Vector.operator_index_const,
      bind, Except.bind, pure, Except.pure, throw, throwThe, MonadExceptOf.throw]
  · simp [Matrix.flatten_vertical, forLoop, List.finRange_succ_eq_map, Matrix.assign,
      Matrix.operator_index, Vector.operator_index, Vector.operator_index_const,
      bind, Except.bind, pure, Except.pure, throw, throwThe, MonadExceptOf.throw]
    apply matrix_ext_data
    intro i j
    fin_cases i <;> fin_cases j <;> rfl

end LiteralClaims

/-! ## Lemmas on fills, maps and in-place arithmetic -/

section TrainerAlgebraLemmas

variable {T : Type} {SIZE RHS_SIZE ROWS COLS : Nat}

theorem foldl_update_self {ι α : Type} [DecidableEq ι] (h : ι → α → α) (l : List ι)
    (hl : l.Nodup) (d : ι → α) :
    l.foldl (fun d i => Function.update d i (h i (d i))) d
      = fun j => if j ∈ l then h j (d j) else d j := by
  induction l generalizing d with
  | nil => simp
  | cons a l ih =>
    rw [List.nodup_cons] at hl
    rw [List.foldl_cons, ih hl.2]
    funext j
    by_cases hja : j = a
    · subst hja
      simp [hl.1]
    · by_cases hj : j ∈ l <;> simp [hj, hja]

theorem vector_ctor_fill_eq (e junk : T) :
    (Vector.ctor_fill e junk : Vector T SIZE) = ⟨fun _ => e⟩ := by
  unfold Vector.ctor_fill
  rw [vector_foldl_write]

theorem matrix_ctor_fill_eq (e junk : T) :
    (Matrix.ctor_fill e junk : Matrix T ROWS COLS) = ⟨fun _ => ⟨fun _ => e⟩⟩ := by
  unfold Matrix.ctor_fill
  rw [matrix_foldl_write, vector_ctor_fill_eq]

theorem Vector.apply_eq (v : Vector T SIZE) (func : T → T) (junk : T) :
    v.apply func junk = Except.ok ⟨fun i => func (v.data i)⟩ := by
  unfold Vector.apply
  rw [forLoop_ok _ (fun out i => out.write i (func (v.data i)))]
  · rw [vector_foldl_write]
  · intro s i
    exact vector_assign_fin s i _

theorem Vector.operator_times_eq [Mul T] (a b : Vector T SIZE) (junk : T) :
    a.operator_times b junk = Except.ok ⟨fun i => a.data i * b.data i⟩ := by
  unfold Vector.operator_times
  rw [forLoop_ok _ (fun out i => out.write i (a.data i * b.data i))]
  · rw [vector_foldl_write]
  · intro s i
    simp [vector_operator_index_const_fin, bind, Except.bind, pure, Except.pure]

theorem vector_operator_times_scalar_eq [Mul T] (a : Vector T SIZE) (x junk : T) :
    a.operator_times_scalar x junk = ⟨fun i => a.data i * x⟩ := by
  unfold Vector.operator_times_scalar
  rw [vector_foldl_write]

theorem matrix_operator_times_scalar_eq [Mul T] (a : Matrix T ROWS COLS) (x junk : T) :
    a.operator_times_scalar x junk = Except.ok ⟨fun i => ⟨fun j => (a.data i).data j * x⟩⟩ := by
  unfold Matrix.operator_times_scalar
  rw [forLoop_ok _ (fun out i => out.write i ⟨fun j => (a.data i).data j * x⟩)]
  · rw [matrix_foldl_write]
  · intro s i
    rw [vector_operator_times_scalar_eq]
    exact Matrix.assign_row_fin s i _

theorem vector_operator_plus_assign_eq [Add T] (a b : Vector T SIZE) :
    a.operator_plus_assign b = Except.ok ⟨fun i => a.data i + b.data i⟩ := by
  unfold Vector.operator_plus_assign
  rw [forLoop_ok _ (fun self i => self.write i (self.data i + b.data i))]
  · have key : ∀ (l : List (Fin SIZE)) (v : Vector T SIZE),
        l.foldl (fun self i => self.write i (self.data i + b.data i)) v
          = ⟨l.foldl (fun d i => Function.update d i ((fun i x => x + b.data i) i (d i)))
              v.data⟩ := by
      intro l
      induction l with
      | nil => intro v; rfl
      | cons x l ih => intro v; rw [List.foldl_cons, ih]; rfl
    rw [key, foldl_update_self (fun i x => x + b.data i) _ (List.nodup_finRange SIZE)]
    simp
  · intro s i
    simp [vector_operator_index_const_fin, bind, Except.bind, pure, Except.pure]

theorem matrix_operator_plus_assign_eq [Add T] (a b : Matrix T ROWS COLS) :
    a.operator_plus_assign b
      = Except.ok ⟨fun i => ⟨fun j => (a.data i).data j + (b.data i).data j⟩⟩ := by
  unfold Matrix.operator_plus_assign
  rw [forLoop_ok _ (fun self i => self.write i
    ⟨fun j => (self.data i).data j + (b.data i).data j⟩)]
  · have key : ∀ (l : List (Fin ROWS)) (m : Matrix T ROWS COLS),
        l.foldl (fun self i => self.write i
            ⟨fun j => (self.data i).data j + (b.data i).data j⟩) m
          = ⟨l.foldl (fun d i => Function.update d i
              ((fun i (x : Vector T COLS) =>
                (⟨fun j => x.data j + (b.data i).data j⟩ : Vector T COLS)) i (d i))) m.data⟩ := by
      intro l
      induction l with
      | nil => intro m; rfl
      | cons x l ih => intro m; rw [List.foldl_cons, ih]; rfl
    rw [key, foldl_update_self (fun i (x : Vector T COLS) =>
      (⟨fun j => x.data j + (b.data i).data j⟩ : Vector T COLS)) _ (List.nodup_finRange ROWS)]
    simp
  · intro s i
    simp [matrix_operator_index_const_fin, vector_operator_plus_assign_eq, bind, Except.bind,
      pure, Except.pure]

end TrainerAlgebraLemmas

/-! ## The forward and backward pass in closed form -/

section NetworkLemmas

variable {T : Type} {SIZE RHS_SIZE ROWS COLS : Nat}
variable {INPUT_SIZE HIDDEN_SIZE OUTPUT_SIZE WEIGHTS_ROWS WEIGHTS_COLS : Nat}

/-- One row of a matrix-vector product: the accumulation loop. -/
theorem matrix_dot_vector_row [Semiring T] (m : Matrix T ROWS COLS) (v : Vector T COLS)
    (row : Fin ROWS) :
    forLoop COLS (0 : T) (fun sum col => do
        let x ← (m.data row).operator_index_const col
        let y ← v.operator_index_const col
        pure (sum + x * y))
      = Except.ok (∑ k : Fin COLS, (m.data row).data k * v.data k) := by
  rw [forLoop_ok _ (fun sum k => sum + (m.data row).data k * v.data k)]
  · exact congrArg Except.ok (foldl_add_eq_sum _)
  · intro s k
    rw [vector_operator_index_const_fin, vector_operator_index_const_fin]
    rfl

theorem matrix_dot_vector_eq [Semiring T] (m : Matrix T ROWS COLS) (v : Vector T COLS)
    (junk : T) :
    m.dot_vector v junk
      = Except.ok ⟨fun i => ∑ k : Fin COLS, (m.data i).data k * v.data k⟩ := by
  unfold Matrix.dot_vector
  rw [forLoop_ok _ (fun out row => out.write row (∑ k : Fin COLS, (m.data row).data k * v.data k))]
  · exact congrArg Except.ok (vector_foldl_write _ _)
  · intro s row
    rw [matrix_dot_vector_row]
    exact vector_assign_fin s row _

theorem vector_dot_eq [Mul T] (u : Vector T SIZE) (w : Vector T RHS_SIZE) (junk : T) :
    u.dot w junk = Except.ok ⟨fun i => ⟨fun j => u.data i * w.data j⟩⟩ := by
  unfold Vector.dot
  rw [forLoop_ok _ (fun out row => out.write row ⟨fun j => u.data row * w.data j⟩)]
  · exact congrArg Except.ok (matrix_foldl_write _ _)
  · intro out row
    rw [forLoop_ok _ (fun out col => out.write row ((out.data row).write col
      (u.data row * w.data col)))]
    · exact congrArg Except.ok (Matrix.foldl_write_cell row _ out)
    · intro s col
      rw [vector_operator_index_const_fin]
      exact matrix_assign_fin s row col _

theorem vector_softmax_eq [DivisionRing T] (exp : T → T) (x : Vector T SIZE) (junk : T) :
    x.softmax exp junk = Except.ok ⟨fun i => exp (x.data i) / ∑ j, exp (x.data j)⟩ := by
  have htotal : forLoop SIZE (0 : T) (fun total i => pure (total + exp (x.data i)))
      = Except.ok (∑ j, exp (x.data j)) := by
    rw [forLoop_ok _ (fun total i => total + exp (x.data i))]
    · exact congrArg Except.ok (foldl_add_eq_sum _)
    · intro _ _
      rfl
  unfold Vector.softmax
  rw [htotal]
  show forLoop SIZE (Vector.uninit junk) _ = _
  rw [forLoop_ok _ (fun out i => out.write i (exp (x.data i) / ∑ j, exp (x.data j)))]
  · exact congrArg Except.ok (vector_foldl_write _ _)
  · intro s i
    exact vector_assign_fin s i _

theorem NeuralNetwork.feed_forward_eq [Semiring T]
    (net : NeuralNetwork T INPUT_SIZE HIDDEN_SIZE OUTPUT_SIZE) (x : Vector T INPUT_SIZE)
    (act : T → T) (junk : T) :
    net.feed_forward x act junk = Except.ok
      (⟨fun h => act (∑ i, (net.hidden_weights.data h).data i * x.data i)⟩,
       ⟨fun o => act (∑ h, (net.output_weights.data o).data h
          * act (∑ i, (net.hidden_weights.data h).data i * x.data i))⟩) := by
  unfold NeuralNetwork.feed_forward
  simp only [matrix_dot_vector_eq, Vector.apply_eq, bind, Except.bind, pure, Except.pure]

theorem NeuralNetwork.find_errors_eq [Ring T]
    (net : NeuralNetwork T INPUT_SIZE HIDDEN_SIZE OUTPUT_SIZE)
    (expected final : Vector T OUTPUT_SIZE) (junk : T) :
    net.find_errors expected final junk = Except.ok
      (⟨fun h => ∑ o, (net.output_weights.data o).data h * (expected.data o - final.data o)⟩,
       ⟨fun o => expected.data o - final.data o⟩) := by
  unfold NeuralNetwork.find_errors
  simp only [Matrix.transpose_eq, vector_operator_minus_eq, matrix_dot_vector_eq, bind,
    Except.bind, pure, Except.pure]

theorem NeuralNetwork.back_propagate_core_eq [Mul T] (output errors : Vector T WEIGHTS_ROWS)
    (input : Vector T WEIGHTS_COLS) (act_prime : T → T) (junk : T) :
    NeuralNetwork.back_propagate_core output errors input act_prime junk = Except.ok
      ⟨fun r => ⟨fun c => errors.data r * act_prime (output.data r) * input.data c⟩⟩ := by
  unfold NeuralNetwork.back_propagate_core
  simp only [Vector.apply_eq, Vector.operator_times_eq, vector_dot_eq, bind,
    Except.bind, pure, Except.pure]

/-- The value `NeuralNetwork::train` returns, in closed form. -/
theorem NeuralNetwork.train_eq [Ring T]
    (net : NeuralNetwork T INPUT_SIZE HIDDEN_SIZE OUTPUT_SIZE) (x : Vector T INPUT_SIZE)
    (e : Vector T OUTPUT_SIZE) (act act_prime : T → T) (junk : T) :
    net.train x e act act_prime junk = Except.ok
      (⟨fun h => ⟨fun i =>
          (∑ o, (net.output_weights.data o).data h
              * (e.data o - act (∑ k, (net.output_weights.data o).data k
                  * act (∑ i, (net.hidden_weights.data k).data i * x.data i))))
            * act_prime (act (∑ i, (net.hidden_weights.data h).data i * x.data i))
            * x.data i⟩⟩,
       ⟨fun o => ⟨fun h =>
          (e.data o - act (∑ k, (net.output_weights.data o).data k
              * act (∑ i, (net.hidden_weights.data k).data i * x.data i)))
            * act_prime (act (∑ k, (net.output_weights.data o).data k
              * act (∑ i, (net.hidden_weights.data k).data i * x.data i)))
            * act (∑ i, (net.hidden_weights.data h).data i * x.data i)⟩⟩) := by
  unfold NeuralNetwork.train NeuralNetwork.back_propagate
  simp only [NeuralNetwork.feed_forward_eq, NeuralNetwork.find_errors_eq,
    NeuralNetwork.back_propagate_core_eq, bind, Except.bind, pure, Except.pure]

end NetworkLemmas

/-! ## Mini-batches -/

section MiniBatchLemmas

variable {T : Type} {ROWS COLS : Nat}
variable {INPUT_SIZE HIDDEN_SIZE OUTPUT_SIZE : Nat}

theorem Fault.lift_ok {α : Type} (a : α) : Fault.lift (Except.ok a) = Except.ok a := rfl

theorem Fault.lift_error {α : Type} (e : Error) :
    (Fault.lift (Except.error e) : Except Fault α) = Except.error (Fault.exception e) := rfl

theorem Img.deref_some (imgs : List (Img T INPUT_SIZE)) (i : Nat) (img : Img T INPUT_SIZE)
    (h : imgs[i]? = some img) : Img.deref imgs i = Except.ok img := by
  unfold Img.deref
  rw [h]
  rfl

theorem Img.deref_past_end (imgs : List (Img T INPUT_SIZE)) (i : Nat) (h : imgs.length ≤ i) :
    Img.deref imgs i = Except.error Fault.undefined_behavior := by
  unfold Img.deref
  rw [List.getElem?_eq_none h]
  rfl

/-- Building the one-hot target: fill with 0, then the checked store of 1. -/
theorem one_hot_assign [Zero T] [One T] (label : Nat) (junk : T) (h : label < OUTPUT_SIZE) :
    (Vector.ctor_fill (0 : T) junk : Vector T OUTPUT_SIZE).assign label 1
      = Except.ok (one_hot OUTPUT_SIZE label) := by
  rw [vector_ctor_fill_eq]
  have := vector_assign_fin (⟨fun _ => (0 : T)⟩ : Vector T OUTPUT_SIZE) ⟨label, h⟩ 1
  rw [this]
  congr 1
  apply vector_ext_data
  intro o
  by_cases ho : o = ⟨label, h⟩
  · subst ho
    simp [Vector.write, one_hot]
  · have hne : o.val ≠ label := fun hv => ho (Fin.ext hv)
    simp [Vector.write, one_hot, ho, hne]

theorem one_hot_assign_bad [Zero T] [One T] (label : Nat) (junk : T)
    (h : OUTPUT_SIZE ≤ label) :
    (Vector.ctor_fill (0 : T) junk : Vector T OUTPUT_SIZE).assign label 1
      = Except.error Error.out_of_range := by
  simp [Vector.assign, Vector.operator_index, h, bind, Except.bind, throw, throwThe,
    MonadExceptOf.throw]

/-- Accumulating matrices with `+=` from a start value adds their sum. -/
theorem matrix_foldl_accumulate [AddCommMonoid T] (f : Nat → Matrix T ROWS COLS) (m : Nat)
    (init : Matrix T ROWS COLS) :
    (List.range m).foldl (fun (acc : Matrix T ROWS COLS) i =>
        (⟨fun r => ⟨fun c => (acc.data r).data c + ((f i).data r).data c⟩⟩ : Matrix T ROWS COLS))
      init
      = ⟨fun r => ⟨fun c => (init.data r).data c
          + ∑ i ∈ Finset.range m, ((f i).data r).data c⟩⟩ := by
  induction m with
  | zero =>
    apply matrix_ext_data
    intro r c
    simp
  | succ m ih =>
    rw [List.range_succ, List.foldl_append, ih]
    apply matrix_ext_data
    intro r c
    simp [Finset.sum_range_succ, add_assoc]

theorem foldl_pair {α β ι : Type} (g : α → ι → α) (h : β → ι → β) (l : List ι) (a : α) (b : β) :
    l.foldl (fun (p : α × β) i => (g p.1 i, h p.2 i)) (a, b) = (l.foldl g a, l.foldl h b) := by
  induction l generalizing a b with
  | nil => rfl
  | cons x l ih => exact ih _ _

/-- The mini-batch loop when every sample of the window is present, has a label
in range and `d i` is what `train` returns for sample `i`. -/
theorem train_mini_batch_eq [Ring T]
    (net : NeuralNetwork T INPUT_SIZE HIDDEN_SIZE OUTPUT_SIZE) (imgs : List (Img T INPUT_SIZE))
    (act act_prime : T → T) (m : Nat) (junk : T)
    (d : Nat → Matrix T HIDDEN_SIZE INPUT_SIZE × Matrix T OUTPUT_SIZE HIDDEN_SIZE)
    (hd : ∀ i, i < m → ∃ img, imgs[i]? = some img ∧ img.label < OUTPUT_SIZE ∧
      net.train img.img_data (one_hot OUTPUT_SIZE img.label) act act_prime junk
        = Except.ok (d i)) :
    net.train_mini_batch imgs act act_prime m junk = Except.ok
      (⟨fun r => ⟨fun c => ∑ i ∈ Finset.range m, (((d i).1).data r).data c⟩⟩,
       ⟨fun r => ⟨fun c => ∑ i ∈ Finset.range m, (((d i).2).data r).data c⟩⟩) := by
  unfold NeuralNetwork.train_mini_batch
  simp only [matrix_ctor_fill_eq]
  rw [foldlM_pure _ (fun avg i =>
    ((⟨fun r => ⟨fun c => (avg.1.data r).data c + (((d i).1).data r).data c⟩⟩ :
        Matrix T HIDDEN_SIZE INPUT_SIZE),
     (⟨fun r => ⟨fun c => (avg.2.data r).data c + (((d i).2).data r).data c⟩⟩ :
        Matrix T OUTPUT_SIZE HIDDEN_SIZE)))]
  · rw [foldl_pair (fun (acc : Matrix T HIDDEN_SIZE INPUT_SIZE) i =>
        (⟨fun r => ⟨fun c => (acc.data r).data c + (((d i).1).data r).data c⟩⟩ :
          Matrix T HIDDEN_SIZE INPUT_SIZE))
      (fun (acc : Matrix T OUTPUT_SIZE HIDDEN_SIZE) i =>
        (⟨fun r => ⟨fun c => (acc.data r).data c + (((d i).2).data r).data c⟩⟩ :
          Matrix T OUTPUT_SIZE HIDDEN_SIZE))]
    rw [matrix_foldl_accumulate (fun i => (d i).1), matrix_foldl_accumulate (fun i => (d i).2)]
    simp
  · intro avg i hi
    obtain ⟨img, himg, hlabel, htrain⟩ := hd i (List.mem_range.mp hi)
    rw [Img.deref_some imgs i img himg]
    simp only [bind, Except.bind]
    rw [one_hot_assign img.label junk hlabel, Fault.lift_ok]
    simp only []
    rw [htrain, Fault.lift_ok]
    simp only [matrix_operator_plus_assign_eq, Fault.lift_ok]
    rfl

/-- Every sample of a window that lies inside the array, with labels in range,
has a gradient pair: the data `train_mini_batch_eq` asks for. -/
theorem window_gradients [Ring T]
    (net : NeuralNetwork T INPUT_SIZE HIDDEN_SIZE OUTPUT_SIZE) (imgs : List (Img T INPUT_SIZE))
    (act act_prime : T → T) (m : Nat) (junk : T) (hlen : m ≤ imgs.length)
    (hlabel : ∀ i img, i < m → imgs[i]? = some img → img.label < OUTPUT_SIZE) :
    ∃ d : Nat → Matrix T HIDDEN_SIZE INPUT_SIZE × Matrix T OUTPUT_SIZE HIDDEN_SIZE,
      ∀ i, i < m → ∃ img, imgs[i]? = some img ∧ img.label < OUTPUT_SIZE ∧
        net.train img.img_data (one_hot OUTPUT_SIZE img.label) act act_prime junk
          = Except.ok (d i) := by
  have hex : ∀ i : Nat, ∃ p,
      net.train (imgs.getD i ⟨Vector.uninit junk, 0⟩).img_data
        (one_hot OUTPUT_SIZE (imgs.getD i ⟨Vector.uninit junk, 0⟩).label) act act_prime junk
        = Except.ok p := fun i => ⟨_, NeuralNetwork.train_eq net _ _ act act_prime junk⟩
  choose d hd using hex
  refine ⟨d, fun i hi => ?_⟩
  have hi2 : i < imgs.length := lt_of_lt_of_le hi hlen
  have hget : imgs[i]? = some (imgs.getD i ⟨Vector.uninit junk, 0⟩) := by
    rw [List.getD_eq_getElem _ _ hi2, List.getElem?_eq_getElem hi2]
  exact ⟨_, hget, hlabel i _ hi hget, hd i⟩

theorem train_batch_inner_eq [Field T]
    (net : NeuralNetwork T INPUT_SIZE HIDDEN_SIZE OUTPUT_SIZE) (imgs : List (Img T INPUT_SIZE))
    (lr : T) (act act_prime : T → T) (m : Nat) (junk : T)
    (d : Nat → Matrix T HIDDEN_SIZE INPUT_SIZE × Matrix T OUTPUT_SIZE HIDDEN_SIZE)
    (hd : ∀ i, i < m → ∃ img, imgs[i]? = some img ∧ img.label < OUTPUT_SIZE ∧
      net.train img.img_data (one_hot OUTPUT_SIZE img.label) act act_prime junk
        = Except.ok (d i)) :
    net.train_batch_inner imgs lr act act_prime m junk = Except.ok
      ⟨⟨fun r => ⟨fun c => (net.hidden_weights.data r).data c
          + (∑ i ∈ Finset.range m, (((d i).1).data r).data c) * (lr / (m : T))⟩⟩,
       ⟨fun r => ⟨fun c => (net.output_weights.data r).data c
          + (∑ i ∈ Finset.range m, (((d i).2).data r).data c) * (lr / (m : T))⟩⟩⟩ := by
  unfold NeuralNetwork.train_batch_inner
  rw [train_mini_batch_eq net imgs act act_prime m junk d hd]
  simp only [bind, Except.bind, matrix_operator_times_scalar_eq, matrix_operator_plus_assign_eq,
    Fault.lift_ok]
  rfl

/-- A window that runs past the end of the sample array: the read of the first
missing sample is undefined behaviour. -/
theorem train_mini_batch_past_end [Ring T]
    (net : NeuralNetwork T INPUT_SIZE HIDDEN_SIZE OUTPUT_SIZE) (imgs : List (Img T INPUT_SIZE))
    (act act_prime : T → T) (m : Nat) (junk : T) (hlen : imgs.length < m)
    (hlabel : ∀ img ∈ imgs, img.label < OUTPUT_SIZE) :
    net.train_mini_batch imgs act act_prime m junk = Except.error Fault.undefined_behavior := by
  unfold NeuralNetwork.train_mini_batch
  apply foldlM_throws
  · intro avg i _
    by_cases hi : i < imgs.length
    · left
      have hget : imgs[i]? = some imgs[i] := List.getElem?_eq_getElem hi
      rw [Img.deref_some imgs i _ hget]
      simp only [bind, Except.bind]
      rw [one_hot_assign _ junk (hlabel _ (List.getElem_mem _)), Fault.lift_ok]
      simp only []
      rw [NeuralNetwork.train_eq, Fault.lift_ok]
      simp only [matrix_operator_plus_assign_eq, Fault.lift_ok]
      exact ⟨_, rfl⟩
    · right
      rw [Img.deref_past_end imgs i (not_lt.mp hi)]
      rfl
  · refine ⟨imgs.length, List.mem_range.mpr hlen, fun avg => ?_⟩
    rw [Img.deref_past_end imgs _ (le_refl _)]
    rfl

theorem train_batch_inner_past_end [Field T]
    (net : NeuralNetwork T INPUT_SIZE HIDDEN_SIZE OUTPUT_SIZE) (imgs : List (Img T INPUT_SIZE))
    (lr : T) (act act_prime : T → T) (m : Nat) (junk : T) (hlen : imgs.length < m)
    (hlabel : ∀ img ∈ imgs, img.label < OUTPUT_SIZE) :
    net.train_batch_inner imgs lr act act_prime m junk
      = Except.error Fault.undefined_behavior := by
  unfold NeuralNetwork.train_batch_inner
  rw [train_mini_batch_past_end net imgs act act_prime m junk hlen hlabel]
  rfl

end MiniBatchLemmas

/-! ## The loops of `train_batch` -/

section TrainBatchLemmas

variable {T : Type} {INPUT_SIZE HIDDEN_SIZE OUTPUT_SIZE : Nat}

/-- The inner loop of `train_batch` from `i` on, when `K` windows remain. -/
theorem train_batch_windows_eq [Field T] (imgs : List (Img T INPUT_SIZE)) (n m : Nat) (lr : T)
    (act act_prime : T → T) (junk : T) (hov : n + m ≤ 2 ^ 64) :
    ∀ (K fuel i : Nat) (net : NeuralNetwork T INPUT_SIZE HIDDEN_SIZE OUTPUT_SIZE),
      K < fuel → n ≤ i + K * m → (∀ k, k < K → i + k * m < n) →
      NeuralNetwork.train_batch_windows fuel net imgs i n m lr act act_prime junk
        = ((List.range K).map (fun k => i + k * m)).foldlM
            (fun net j => net.train_batch_inner (imgs.drop j) lr act act_prime m junk) net := by
  intro K
  induction K with
  | zero =>
    intro fuel i net hfuel hend _
    obtain ⟨f, rfl⟩ : ∃ f, fuel = f + 1 := ⟨fuel - 1, by omega⟩
    have hi : ¬ i < n := by omega
    simp only [NeuralNetwork.train_batch_windows, if_neg hi, List.range_zero, List.map_nil,
      List.foldlM_nil]
  | succ K ih =>
    intro fuel i net hfuel hend hin
    obtain ⟨f, rfl⟩ : ∃ f, fuel = f + 1 := ⟨fuel - 1, by omega⟩
    have hi : i < n := by
      have := hin 0 (Nat.succ_pos K)
      omega
    have hnext : (i + m) % 2 ^ 64 = i + m := Nat.mod_eq_of_lt (by omega)
    have hstep : ∀ k, i + (k + 1) * m = (i + m) + k * m := by
      intro k
      rw [Nat.succ_mul]
      omega
    simp only [NeuralNetwork.train_batch_windows, if_pos hi, hnext, List.range_succ_eq_map,
      List.map_cons, List.map_map, List.foldlM_cons, Nat.zero_mul, Nat.add_zero]
    congr 1
    funext net2
    rw [ih f (i + m) net2 (by omega) (by rw [← hstep]; exact hend)
      (fun k hk => by rw [← hstep]; exact hin (k + 1) (by omega))]
    congr 1
    apply List.map_congr_left
    intro k _
    exact (hstep k).symm

/-- The number of windows `(n + m - 1) / m` is the least `K` with `n ≤ K * m`. -/
theorem window_count_bounds (n m : Nat) (hm : 1 ≤ m) :
    n ≤ (n + m - 1) / m * m ∧ ∀ k, k < (n + m - 1) / m → k * m < n := by
  constructor
  · have h := Nat.lt_mul_div_succ (n + m - 1) hm
    rw [Nat.mul_succ, Nat.mul_comm] at h
    omega
  · intro k hk
    have h1 : (n + m - 1) / m * m ≤ n + m - 1 := Nat.div_mul_le_self _ _
    have h2 : (k + 1) * m ≤ (n + m - 1) / m * m := Nat.mul_le_mul_right m hk
    rw [Nat.succ_mul] at h2
    omega

theorem train_batch_windows_described [Field T] (imgs : List (Img T INPUT_SIZE)) (n m : Nat)
    (lr : T) (act act_prime : T → T) (junk : T) (hm : 1 ≤ m) (hov : n + m ≤ 2 ^ 64)
    (fuel : Nat) (hfuel : (n + m - 1) / m < fuel)
    (net : NeuralNetwork T INPUT_SIZE HIDDEN_SIZE OUTPUT_SIZE) :
    NeuralNetwork.train_batch_windows fuel net imgs 0 n m lr act act_prime junk
      = (window_starts n m).foldlM
          (fun net j => net.train_batch_inner (imgs.drop j) lr act act_prime m junk) net := by
  have hb := window_count_bounds n m hm
  rw [train_batch_windows_eq imgs n m lr act act_prime junk hov ((n + m - 1) / m) fuel 0 net
    hfuel (by rw [Nat.zero_add]; exact hb.1) (fun k hk => by rw [Nat.zero_add]; exact hb.2 k hk)]
  unfold window_starts
  congr 1
  apply List.map_congr_left
  intro k _
  exact Nat.zero_add _

/-- The outer loop of `train_batch` from epoch `e` on, when `E` epochs remain. -/
theorem train_batch_epochs_eq [Field T] (imgs : List (Img T INPUT_SIZE)) (epochs n m : Nat)
    (lr_coef : T) (act act_prime : T → T) (junk : T) (hm : 1 ≤ m) (hov : n + m ≤ 2 ^ 64)
    (hep : epochs + 1 < 2 ^ 64) :
    ∀ (E fuel e : Nat) (lr : T) (net : NeuralNetwork T INPUT_SIZE HIDDEN_SIZE OUTPUT_SIZE),
      (n + m - 1) / m + E < fuel → e + E = epochs + 1 →
      NeuralNetwork.train_batch_epochs fuel net imgs e epochs n m lr lr_coef act act_prime junk
        = (List.range E).foldlM (fun net k =>
            (window_starts n m).foldlM (fun net j =>
              net.train_batch_inner (imgs.drop j) (lr * lr_coef ^ k) act act_prime m junk) net)
            net := by
  intro E
  induction E with
  | zero =>
    intro fuel e lr net hfuel he
    generalize hK : (n + m - 1) / m = K at hfuel
    obtain ⟨f, rfl⟩ : ∃ f, fuel = f + 1 := ⟨fuel - 1, by omega⟩
    have hle : ¬ e ≤ epochs := by omega
    simp only [NeuralNetwork.train_batch_epochs, if_neg hle, List.range_zero, List.foldlM_nil]
  | succ E ih =>
    intro fuel e lr net hfuel he
    generalize hK : (n + m - 1) / m = K at hfuel
    obtain ⟨f, rfl⟩ : ∃ f, fuel = f + 1 := ⟨fuel - 1, by omega⟩
    have hle : e ≤ epochs := by omega
    have hnext : (e + 1) % 2 ^ 64 = e + 1 := Nat.mod_eq_of_lt (by omega)
    simp only [NeuralNetwork.train_batch_epochs, if_pos hle, hnext, List.range_succ_eq_map,
      List.foldlM_cons, List.foldlM_map, pow_zero, mul_one]
    rw [train_batch_windows_described imgs n m lr act act_prime junk hm hov f
      (by rw [hK]; omega) net]
    congr 1
    funext net2
    rw [ih f (e + 1) (lr * lr_coef) net2 (by rw [hK]; omega) (by omega)]
    congr 1
    funext net3 k
    rw [pow_succ, mul_assoc, mul_comm lr_coef]

theorem mem_window_starts (n m i : Nat) (hm : 1 ≤ m) :
    i ∈ window_starts n m ↔ (i < n ∧ m ∣ i) := by
  have hb := window_count_bounds n m hm
  unfold window_starts
  rw [List.mem_map]
  constructor
  · rintro ⟨k, hk, rfl⟩
    exact ⟨hb.2 k (List.mem_range.mp hk), Dvd.intro_left k rfl⟩
  · rintro ⟨hin, ⟨k, rfl⟩⟩
    refine ⟨k, List.mem_range.mpr ?_, Nat.mul_comm k m⟩
    by_contra hk
    have h1 : (n + m - 1) / m * m ≤ k * m := Nat.mul_le_mul_right m (not_lt.mp hk)
    rw [Nat.mul_comm m k] at hin
    omega

theorem window_starts_increasing (n m : Nat) (hm : 1 ≤ m) :
    (window_starts n m).Pairwise (fun a b => a < b) := by
  unfold window_starts
  rw [List.pairwise_map]
  exact (List.pairwise_lt_range _).imp (fun h => Nat.mul_lt_mul_of_pos_right h hm)

theorem window_starts_length_of_not_dvd (n m : Nat) (hm : 1 ≤ m) (hdiv : ¬ m ∣ n) :
    (window_starts n m).length = n / m + 1 := by
  unfold window_starts
  rw [List.length_map, List.length_range]
  have hr : 1 ≤ n % m := Nat.pos_of_ne_zero (fun h => hdiv (Nat.dvd_of_mod_eq_zero h))
  have hlt : n % m < m := Nat.mod_lt _ hm
  have hn : n + m - 1 = (n % m - 1) + m * (n / m + 1) := by
    have := Nat.div_add_mod n m
    rw [Nat.mul_succ]
    omega
  rw [hn, Nat.add_mul_div_left _ _ hm, Nat.div_eq_of_lt (by omega), Nat.zero_add]

/-- One epoch over an array of exactly `n` samples whose length is not a multiple
of the window size: the last window runs past the end of the array. -/
theorem epoch_past_end [Field T] (imgs : List (Img T INPUT_SIZE)) (m : Nat) (lr : T)
    (act act_prime : T → T) (junk : T) (hm : 1 ≤ m) (hdiv : ¬ m ∣ imgs.length)
    (hlabel : ∀ img ∈ imgs, img.label < OUTPUT_SIZE)
    (net : NeuralNetwork T INPUT_SIZE HIDDEN_SIZE OUTPUT_SIZE) :
    (window_starts imgs.length m).foldlM
        (fun net j => net.train_batch_inner (imgs.drop j) lr act act_prime m junk) net
      = Except.error Fault.undefined_behavior := by
  apply foldlM_throws
  · intro net2 j _
    by_cases hj : m ≤ (imgs.drop j).length
    · left
      obtain ⟨d, hd⟩ := window_gradients net2 (imgs.drop j) act act_prime m junk hj
        (fun i img _ hget => hlabel img (List.mem_of_mem_drop (List.getElem?_mem hget)))
      exact ⟨_, train_batch_inner_eq net2 (imgs.drop j) lr act act_prime m junk d hd⟩
    · right
      exact train_batch_inner_past_end net2 (imgs.drop j) lr act act_prime m junk
        (not_le.mp hj) (fun img himg => hlabel img (List.mem_of_mem_drop himg))
  · have hr : 1 ≤ imgs.length % m :=
      Nat.pos_of_ne_zero (fun h => hdiv (Nat.dvd_of_mod_eq_zero h))
    have hdm := Nat.div_add_mod imgs.length m
    refine ⟨m * (imgs.length / m), (mem_window_starts _ _ _ hm).mpr
      ⟨by omega, Dvd.intro _ rfl⟩, fun net2 => ?_⟩
    apply train_batch_inner_past_end
    · rw [List.length_drop]
      have := Nat.mod_lt imgs.length hm
      omega
    · exact fun img himg => hlabel img (List.mem_of_mem_drop himg)

end TrainBatchLemmas

/-! ## The trainer -/

section TrainerClaims

variable {T : Type} {INPUT_SIZE HIDDEN_SIZE OUTPUT_SIZE : Nat}

/-- C12. `NeuralNetwork::train` computes the stated gradients. With
`hidden = act(Wh·x)`, `out = act(Wo·hidden)`, `output_error = e − out` and
`hidden_error = transpose(Wo)·output_error`, the call returns the pair
`(hidden_delta, output_delta)` with
`hidden_delta[h][i] = hidden_error[h] * act'(hidden[h]) * x[i]` and
`output_delta[o][h] = output_error[o] * act'(out[o]) * hidden[h]`: the
derivative is taken at the activated outputs and the hidden error goes through
the weights the network holds. -/
theorem NeuralNetwork.train_spec [Ring T]
    (net : NeuralNetwork T INPUT_SIZE HIDDEN_SIZE OUTPUT_SIZE) (x : Vector T INPUT_SIZE)
    (e : Vector T OUTPUT_SIZE) (act act_prime : T → T) (junk : T) :
    ∃ (hidden : Fin HIDDEN_SIZE → T) (out : Fin OUTPUT_SIZE → T)
      (output_error : Fin OUTPUT_SIZE → T) (hidden_error : Fin HIDDEN_SIZE → T),
      (∀ h, hidden h = act (∑ i, (net.hidden_weights.data h).data i * x.data i)) ∧
      (∀ o, out o = act (∑ h, (net.output_weights.data o).data h * hidden h)) ∧
      (∀ o, output_error o = e.data o - out o) ∧
      (∀ h, hidden_error h = ∑ o, (net.output_weights.data o).data h * output_error o) ∧
      net.train x e act act_prime junk = Except.ok
        (⟨fun h => ⟨fun i => hidden_error h * act_prime (hidden h) * x.data i⟩⟩,
         ⟨fun o => ⟨fun h => output_error o * act_prime (out o) * hidden h⟩⟩) :=
  ⟨_, _, _, _, fun _ => rfl, fun _ => rfl, fun _ => rfl, fun _ => rfl,
    NeuralNetwork.train_eq net x e act act_prime junk⟩

/-- C14. `NeuralNetwork::train_mini_batch` returns summed, un-averaged gradients
against one-hot targets. For a window of `m` samples that lies inside the sample
array and whose labels are below `OUTPUT_SIZE`, the result is
`(Σ_{i<m} hidden_delta_i, Σ_{i<m} output_delta_i)`, where
`(hidden_delta_i, output_delta_i)` is what `train` returns for the input of
sample `i` and the one-hot vector of its label; for `m = 0` both results are
all-zero matrices. The function is a `const` member: it returns the two sums and
has no access to write the weights. -/
theorem NeuralNetwork.train_mini_batch_spec [Ring T]
    (net : NeuralNetwork T INPUT_SIZE HIDDEN_SIZE OUTPUT_SIZE) (imgs : List (Img T INPUT_SIZE))
    (act act_prime : T → T) (m : Nat) (junk : T) (hlen : m ≤ imgs.length)
    (hlabel : ∀ i img, i < m → imgs[i]? = some img → img.label < OUTPUT_SIZE) :
    (∃ (hidden_delta : Nat → Matrix T HIDDEN_SIZE INPUT_SIZE)
        (output_delta : Nat → Matrix T OUTPUT_SIZE HIDDEN_SIZE),
      (∀ i img, i < m → imgs[i]? = some img →
        net.train img.img_data (one_hot OUTPUT_SIZE img.label) act act_prime junk
          = Except.ok (hidden_delta i, output_delta i)) ∧
      net.train_mini_batch imgs act act_prime m junk = Except.ok
        (⟨fun r => ⟨fun c => ∑ i ∈ Finset.range m, ((hidden_delta i).data r).data c⟩⟩,
         ⟨fun r => ⟨fun c => ∑ i ∈ Finset.range m, ((output_delta i).data r).data c⟩⟩)) ∧
    net.train_mini_batch imgs act act_prime 0 junk
      = Except.ok (⟨fun _ => ⟨fun _ => 0⟩⟩, ⟨fun _ => ⟨fun _ => 0⟩⟩) := by
  obtain ⟨d, hd⟩ := window_gradients net imgs act act_prime m junk hlen hlabel
  refine ⟨⟨fun i => (d i).1, fun i => (d i).2, ?_,
    train_mini_batch_eq net imgs act act_prime m junk d hd⟩, ?_⟩
  · intro i img hi hget
    obtain ⟨img2, hget2, _, htrain⟩ := hd i hi
    rw [hget] at hget2
    cases hget2
    exact htrain
  · have h0 := train_mini_batch_eq net imgs act act_prime 0 junk d
      (fun i hi => absurd hi (Nat.not_lt_zero i))
    rw [h0]
    simp

/-- C13. `NeuralNetwork::train_batch_inner` applies one aggregated update computed
from the weights at the start of the batch. For `m ≥ 1` samples inside the
sample array with labels below `OUTPUT_SIZE`, the weights afterwards are
`Wh + (Σ_{i<m} hidden_delta_i) * (lr / m)` and
`Wo + (Σ_{i<m} output_delta_i) * (lr / m)`, where every
`(hidden_delta_i, output_delta_i)` is what `train` returns on the network as it
was before the call. -/
theorem NeuralNetwork.train_batch_inner_spec [Field T]
    (net : NeuralNetwork T INPUT_SIZE HIDDEN_SIZE OUTPUT_SIZE) (imgs : List (Img T INPUT_SIZE))
    (lr : T) (act act_prime : T → T) (m : Nat) (junk : T) (_hm : 1 ≤ m)
    (hlen : m ≤ imgs.length)
    (hlabel : ∀ i img, i < m → imgs[i]? = some img → img.label < OUTPUT_SIZE) :
    ∃ (hidden_delta : Nat → Matrix T HIDDEN_SIZE INPUT_SIZE)
        (output_delta : Nat → Matrix T OUTPUT_SIZE HIDDEN_SIZE),
      (∀ i img, i < m → imgs[i]? = some img →
        net.train img.img_data (one_hot OUTPUT_SIZE img.label) act act_prime junk
          = Except.ok (hidden_delta i, output_delta i)) ∧
      net.train_batch_inner imgs lr act act_prime m junk = Except.ok
        ⟨⟨fun r => ⟨fun c => (net.hidden_weights.data r).data c
            + (∑ i ∈ Finset.range m, ((hidden_delta i).data r).data c) * (lr / (m : T))⟩⟩,
         ⟨fun r => ⟨fun c => (net.output_weights.data r).data c
            + (∑ i ∈ Finset.range m, ((output_delta i).data r).data c) * (lr / (m : T))⟩⟩⟩ := by
  obtain ⟨d, hd⟩ := window_gradients net imgs act act_prime m junk hlen hlabel
  refine ⟨fun i => (d i).1, fun i => (d i).2, ?_,
    train_batch_inner_eq net imgs lr act act_prime m junk d hd⟩
  intro i img hi hget
  obtain ⟨img2, hget2, _, htrain⟩ := hd i hi
  rw [hget] at hget2
  cases hget2
  exact htrain

/-- C15 (the code departs from the claim). The inner loop of `train_batch` runs
while `i < batch_size`, so it starts a window at every multiple of
`mini_batch_size` below `batch_size`: when `mini_batch_size` does not divide the
number of samples there are `floor(n / m) + 1` windows, not `floor(n / m)`, and
the last one is not dropped but handed to `train_batch_inner`, which reads past
the end of the sample array (undefined behaviour). -/
theorem NeuralNetwork.train_batch_last_window_past_end [Field T]
    (net : NeuralNetwork T INPUT_SIZE HIDDEN_SIZE OUTPUT_SIZE) (imgs : List (Img T INPUT_SIZE))
    (epochs m : Nat) (lr lr_coef : T) (act act_prime : T → T) (junk : T) (fuel : Nat)
    (hm : 1 ≤ m) (hdiv : ¬ m ∣ imgs.length) (hlabel : ∀ img ∈ imgs, img.label < OUTPUT_SIZE)
    (hE : 1 ≤ epochs) (hov : imgs.length + m ≤ 2 ^ 64) (hep : epochs + 1 < 2 ^ 64)
    (hfuel : (imgs.length + m - 1) / m + epochs < fuel) :
    (window_starts imgs.length m).length = imgs.length / m + 1 ∧
    (∀ lr2 (net2 : NeuralNetwork T INPUT_SIZE HIDDEN_SIZE OUTPUT_SIZE),
      NeuralNetwork.train_batch_windows fuel net2 imgs 0 imgs.length m lr2 act act_prime junk
        = (window_starts imgs.length m).foldlM
            (fun net j => net.train_batch_inner (imgs.drop j) lr2 act act_prime m junk) net2) ∧
    net.train_batch fuel imgs epochs imgs.length m lr lr_coef act act_prime junk
      = Except.error Fault.undefined_behavior := by
  refine ⟨window_starts_length_of_not_dvd _ _ hm hdiv, ?_, ?_⟩
  · intro lr2 net2
    exact train_batch_windows_described imgs imgs.length m lr2 act act_prime junk hm hov fuel
      (by generalize (imgs.length + m - 1) / m = K at hfuel; omega) net2
  · unfold NeuralNetwork.train_batch
    rw [train_batch_epochs_eq imgs epochs imgs.length m lr_coef act act_prime junk hm hov hep
      epochs fuel 1 lr net hfuel (Nat.add_comm 1 epochs)]
    obtain ⟨E, rfl⟩ : ∃ E, epochs = E + 1 := ⟨epochs - 1, by omega⟩
    rw [List.range_succ_eq_map, List.foldlM_cons,
      epoch_past_end imgs m _ act act_prime junk hm hdiv hlabel net]
    rfl

/-- C16. `NeuralNetwork::train_batch` decays the learning rate once per epoch. For
a window size `m ≥ 1`, sizes that fit `std::size_t` and enough fuel, the run is
the described one: epochs `1 … E` in order, in each epoch the windows in
increasing start index, every call of `train_batch_inner` of epoch `e` with the
rate `lr · d^(e−1)` and on the weights left by the previous call. The start
indices are exactly the multiples of `m` below `n`, in increasing order, and
with `E = 0` the weights are returned unchanged. -/
theorem NeuralNetwork.train_batch_spec [Field T]
    (net : NeuralNetwork T INPUT_SIZE HIDDEN_SIZE OUTPUT_SIZE) (imgs : List (Img T INPUT_SIZE))
    (epochs n m : Nat) (lr lr_coef : T) (act act_prime : T → T) (junk : T) (fuel : Nat)
    (hm : 1 ≤ m) (hov : n + m ≤ 2 ^ 64) (hep : epochs + 1 < 2 ^ 64)
    (hfuel : (n + m - 1) / m + epochs < fuel) :
    net.train_batch fuel imgs epochs n m lr lr_coef act act_prime junk
      = net.train_batch_described imgs epochs n m lr lr_coef act act_prime junk ∧
    (∀ i, i ∈ window_starts n m ↔ (i < n ∧ m ∣ i)) ∧
    (window_starts n m).Pairwise (fun a b => a < b) ∧
    net.train_batch fuel imgs 0 n m lr lr_coef act act_prime junk = Except.ok net := by
  refine ⟨?_, fun i => mem_window_starts n m i hm, window_starts_increasing n m hm, ?_⟩
  · unfold NeuralNetwork.train_batch NeuralNetwork.train_batch_described
    exact train_batch_epochs_eq imgs epochs n m lr_coef act act_prime junk hm hov hep
      epochs fuel 1 lr net hfuel (Nat.add_comm 1 epochs)
  · unfold NeuralNetwork.train_batch
    rw [train_batch_epochs_eq imgs 0 n m lr_coef act act_prime junk hm hov (by norm_num)
      0 fuel 1 lr net (by generalize (n + m - 1) / m = K at hfuel; omega) rfl]
    rfl

/-- C17. `NeuralNetwork::predict` is the softmax of the two-layer forward pass:
`predict(x) = softmax(act(Wo · act(Wh · x)))`, with `act` applied element-wise
and `·` the matrix-vector product; entry `o` of the result is
`exp(y[o]) / Σ_j exp(y[j])` for `y = act(Wo · act(Wh · x))`. The function is a
`const` member and returns only the vector. -/
theorem NeuralNetwork.predict_spec [Field T]
    (net : NeuralNetwork T INPUT_SIZE HIDDEN_SIZE OUTPUT_SIZE) (exp : T → T)
    (x : Vector T INPUT_SIZE) (act : T → T) (junk : T) :
    ∃ y : Vector T OUTPUT_SIZE,
      (∀ o, y.data o = act (∑ h, (net.output_weights.data o).data h
        * act (∑ i, (net.hidden_weights.data h).data i * x.data i))) ∧
      net.predict exp x act junk = y.softmax exp junk ∧
      net.predict exp x act junk
        = Except.ok ⟨fun o => exp (y.data o) / ∑ j, exp (y.data j)⟩ := by
  have hrun : net.predict exp x act junk
      = Vector.softmax exp (⟨fun o => act (∑ h, (net.output_weights.data o).data h
          * act (∑ i, (net.hidden_weights.data h).data i * x.data i))⟩ : Vector T OUTPUT_SIZE)
          junk := by
    unfold NeuralNetwork.predict
    rw [NeuralNetwork.feed_forward_eq]
    rfl
  refine ⟨_, fun _ => rfl, hrun, ?_⟩
  rw [hrun, vector_softmax_eq]

/-- What `train` returns on the `1-1-2` network with weights `2` and `(3, 1)`,
identity activation and derivative 1, for the input `1` with label 0. -/
theorem train_example_first :
    NeuralNetwork.train (⟨⟨![⟨![2]⟩]⟩, ⟨![⟨![3]⟩, ⟨![1]⟩]⟩⟩ : NeuralNetwork ℚ 1 1 2)
        (⟨![1]⟩ : Vector ℚ 1) (one_hot 2 0) id (fun _ => 1) 0
      = Except.ok (⟨![⟨![-17]⟩]⟩, ⟨![⟨![-10]⟩, ⟨![-4]⟩]⟩) := by
  rw [NeuralNetwork.train_eq]
  congr 1
  refine Prod.ext ?_ ?_
  · apply matrix_ext_data
    intro r c
    fin_cases r
    fin_cases c
    simp [one_hot, Fin.sum_univ_succ]
    norm_num
  · apply matrix_ext_data
    intro r c
    fin_cases c
    fin_cases r <;> simp [one_hot, Fin.sum_univ_succ] <;> norm_num

/-- The same network on the input `-1` with label 1. -/
theorem train_example_second :
    NeuralNetwork.train (⟨⟨![⟨![2]⟩]⟩, ⟨![⟨![3]⟩, ⟨![1]⟩]⟩⟩ : NeuralNetwork ℚ 1 1 2)
        (⟨![-1]⟩ : Vector ℚ 1) (one_hot 2 1) id (fun _ => 1) 0
      = Except.ok (⟨![⟨![-21]⟩]⟩, ⟨![⟨![-12]⟩, ⟨![-6]⟩]⟩) := by
  rw [NeuralNetwork.train_eq]
  congr 1
  refine Prod.ext ?_ ?_
  · apply matrix_ext_data
    intro r c
    fin_cases r
    fin_cases c
    simp [one_hot, Fin.sum_univ_succ]
    norm_num
  · apply matrix_ext_data
    intro r c
    fin_cases c
    fin_cases r <;> simp [one_hot, Fin.sum_univ_succ] <;> norm_num

/-- Witness for C14: the `1-1-2` network with weights `2` and `(3, 1)` over the
rationals and a window of two samples with labels 0 and 1. The two gradient
pairs are `(−17, (−10, −4))` and `(−21, (−12, −6))`; the call returns their sums
`(−38, (−22, −10))`, not their averages. -/
theorem NeuralNetwork.train_mini_batch_spec_witness :
    ((∃ (hidden_delta : Nat → Matrix ℚ 1 1) (output_delta : Nat → Matrix ℚ 2 1),
      (∀ i img, i < 2 →
        [(⟨⟨![1]⟩, 0⟩ : Img ℚ 1), (⟨⟨![-1]⟩, 1⟩ : Img ℚ 1)][i]? = some img →
        NeuralNetwork.train (⟨⟨![⟨![2]⟩]⟩, ⟨![⟨![3]⟩, ⟨![1]⟩]⟩⟩ : NeuralNetwork ℚ 1 1 2)
            img.img_data (one_hot 2 img.label) id (fun _ => 1) 0
          = Except.ok (hidden_delta i, output_delta i)) ∧
      NeuralNetwork.train_mini_batch
          (⟨⟨![⟨![2]⟩]⟩, ⟨![⟨![3]⟩, ⟨![1]⟩]⟩⟩ : NeuralNetwork ℚ 1 1 2)
          [(⟨⟨![1]⟩, 0⟩ : Img ℚ 1), (⟨⟨![-1]⟩, 1⟩ : Img ℚ 1)] id (fun _ => 1) 2 0
        = Except.ok
          (⟨fun r => ⟨fun c => ∑ i ∈ Finset.range 2, ((hidden_delta i).data r).data c⟩⟩,
           ⟨fun r => ⟨fun c => ∑ i ∈ Finset.range 2, ((output_delta i).data r).data c⟩⟩)) ∧
      NeuralNetwork.train_mini_batch
          (⟨⟨![⟨![2]⟩]⟩, ⟨![⟨![3]⟩, ⟨![1]⟩]⟩⟩ : NeuralNetwork ℚ 1 1 2)
          [(⟨⟨![1]⟩, 0⟩ : Img ℚ 1), (⟨⟨![-1]⟩, 1⟩ : Img ℚ 1)] id (fun _ => 1) 0 0
        = Except.ok (⟨fun _ => ⟨fun _ => 0⟩⟩, ⟨fun _ => ⟨fun _ => 0⟩⟩)) ∧
    NeuralNetwork.train_mini_batch
        (⟨⟨![⟨![2]⟩]⟩, ⟨![⟨![3]⟩, ⟨![1]⟩]⟩⟩ : NeuralNetwork ℚ 1 1 2)
        [(⟨⟨![1]⟩, 0⟩ : Img ℚ 1), (⟨⟨![-1]⟩, 1⟩ : Img ℚ 1)] id (fun _ => 1) 2 0
      = Except.ok (⟨![⟨![-38]⟩]⟩, ⟨![⟨![-22]⟩, ⟨![-10]⟩]⟩) := by
  have hthm := NeuralNetwork.train_mini_batch_spec
    (⟨⟨![⟨![2]⟩]⟩, ⟨![⟨![3]⟩, ⟨![1]⟩]⟩⟩ : NeuralNetwork ℚ 1 1 2)
    [(⟨⟨![1]⟩, 0⟩ : Img ℚ 1), (⟨⟨![-1]⟩, 1⟩ : Img ℚ 1)] id (fun _ => 1) 2 0 (by decide)
    (by
      intro i img hi hget
      have hi2 : i = 0 ∨ i = 1 := by omega
      rcases hi2 with rfl | rfl
      · simp at hget
        rw [← hget]
        decide
      · simp at hget
        rw [← hget]
        decide)
  refine ⟨hthm, ?_⟩
  obtain ⟨⟨hd, od, htrain, hrun⟩, _⟩ := hthm
  have h0 : NeuralNetwork.train (⟨⟨![⟨![2]⟩]⟩, ⟨![⟨![3]⟩, ⟨![1]⟩]⟩⟩ : NeuralNetwork ℚ 1 1 2)
      (⟨![1]⟩ : Vector ℚ 1) (one_hot 2 0) id (fun _ => 1) 0 = Except.ok (hd 0, od 0) :=
    htrain 0 ⟨⟨![1]⟩, 0⟩ (by decide) rfl
  have h1 : NeuralNetwork.train (⟨⟨![⟨![2]⟩]⟩, ⟨![⟨![3]⟩, ⟨![1]⟩]⟩⟩ : NeuralNetwork ℚ 1 1 2)
      (⟨![-1]⟩ : Vector ℚ 1) (one_hot 2 1) id (fun _ => 1) 0 = Except.ok (hd 1, od 1) :=
    htrain 1 ⟨⟨![-1]⟩, 1⟩ (by decide) rfl
  rw [train_example_first] at h0
  rw [train_example_second] at h1
  obtain ⟨h0h, h0o⟩ := Prod.mk.inj (Except.ok.inj h0)
  obtain ⟨h1h, h1o⟩ := Prod.mk.inj (Except.ok.inj h1)
  rw [hrun]
  congr 1
  refine Prod.ext ?_ ?_
  · apply matrix_ext_data
    intro r c
    fin_cases r
    fin_cases c
    simp [Finset.sum_range_succ, ← h0h, ← h1h]
    norm_num
  · apply matrix_ext_data
    intro r c
    fin_cases c
    fin_cases r <;> simp [Finset.sum_range_succ, ← h0o, ← h1o] <;> norm_num

/-- Witness for C13: the same network and window with learning rate `1 / 2`.
Both gradient pairs are computed on the weights `2` and `(3, 1)` the call
started with, and the weights afterwards are `2 − 38/4` and
`(3 − 22/4, 1 − 10/4)`. -/
theorem NeuralNetwork.train_batch_inner_spec_witness :
    (∃ (hidden_delta : Nat → Matrix ℚ 1 1) (output_delta : Nat → Matrix ℚ 2 1),
      (∀ i img, i < 2 →
        [(⟨⟨![1]⟩, 0⟩ : Img ℚ 1), (⟨⟨![-1]⟩, 1⟩ : Img ℚ 1)][i]? = some img →
        NeuralNetwork.train (⟨⟨![⟨![2]⟩]⟩, ⟨![⟨![3]⟩, ⟨![1]⟩]⟩⟩ : NeuralNetwork ℚ 1 1 2)
            img.img_data (one_hot 2 img.label) id (fun _ => 1) 0
          = Except.ok (hidden_delta i, output_delta i)) ∧
      NeuralNetwork.train_batch_inner
          (⟨⟨![⟨![2]⟩]⟩, ⟨![⟨![3]⟩, ⟨![1]⟩]⟩⟩ : NeuralNetwork ℚ 1 1 2)
          [(⟨⟨![1]⟩, 0⟩ : Img ℚ 1), (⟨⟨![-1]⟩, 1⟩ : Img ℚ 1)] (1 / 2) id (fun _ => 1) 2 0
        = Except.ok
          ⟨⟨fun r => ⟨fun c => ((⟨![⟨![2]⟩]⟩ : Matrix ℚ 1 1).data r).data c
              + (∑ i ∈ Finset.range 2, ((hidden_delta i).data r).data c)
                * (1 / 2 / ((2 : Nat) : ℚ))⟩⟩,
           ⟨fun r => ⟨fun c => ((⟨![⟨![3]⟩, ⟨![1]⟩]⟩ : Matrix ℚ 2 1).data r).data c
              + (∑ i ∈ Finset.range 2, ((output_delta i).data r).data c)
                * (1 / 2 / ((2 : Nat) : ℚ))⟩⟩⟩) ∧
    NeuralNetwork.train_batch_inner
        (⟨⟨![⟨![2]⟩]⟩, ⟨![⟨![3]⟩, ⟨![1]⟩]⟩⟩ : NeuralNetwork ℚ 1 1 2)
        [(⟨⟨![1]⟩, 0⟩ : Img ℚ 1), (⟨⟨![-1]⟩, 1⟩ : Img ℚ 1)] (1 / 2) id (fun _ => 1) 2 0
      = Except.ok ⟨⟨![⟨![-15 / 2]⟩]⟩, ⟨![⟨![-5 / 2]⟩, ⟨![-3 / 2]⟩]⟩⟩ := by
  have hthm := NeuralNetwork.train_batch_inner_spec
    (⟨⟨![⟨![2]⟩]⟩, ⟨![⟨![3]⟩, ⟨![1]⟩]⟩⟩ : NeuralNetwork ℚ 1 1 2)
    [(⟨⟨![1]⟩, 0⟩ : Img ℚ 1), (⟨⟨![-1]⟩, 1⟩ : Img ℚ 1)] (1 / 2) id (fun _ => 1) 2 0
    (by decide) (by decide)
    (by
      intro i img hi hget
      have hi2 : i = 0 ∨ i = 1 := by omega
      rcases hi2 with rfl | rfl
      · simp at hget
        rw [← hget]
        decide
      · simp at hget
        rw [← hget]
        decide)
  refine ⟨hthm, ?_⟩
  obtain ⟨hd, od, htrain, hrun⟩ := hthm
  have h0 : NeuralNetwork.train (⟨⟨![⟨![2]⟩]⟩, ⟨![⟨![3]⟩, ⟨![1]⟩]⟩⟩ : NeuralNetwork ℚ 1 1 2)
      (⟨![1]⟩ : Vector ℚ 1) (one_hot 2 0) id (fun _ => 1) 0 = Except.ok (hd 0, od 0) :=
    htrain 0 ⟨⟨![1]⟩, 0⟩ (by decide) rfl
  have h1 : NeuralNetwork.train (⟨⟨![⟨![2]⟩]⟩, ⟨![⟨![3]⟩, ⟨![1]⟩]⟩⟩ : NeuralNetwork ℚ 1 1 2)
      (⟨![-1]⟩ : Vector ℚ 1) (one_hot 2 1) id (fun _ => 1) 0 = Except.ok (hd 1, od 1) :=
    htrain 1 ⟨⟨![-1]⟩, 1⟩ (by decide) rfl
  rw [train_example_first] at h0
  rw [train_example_second] at h1
  obtain ⟨h0h, h0o⟩ := Prod.mk.inj (Except.ok.inj h0)
  obtain ⟨h1h, h1o⟩ := Prod.mk.inj (Except.ok.inj h1)
  rw [hrun]
  congr 2
  · apply matrix_ext_data
    intro r c
    fin_cases r
    fin_cases c
    simp [Finset.sum_range_succ, ← h0h, ← h1h]
    norm_num
  · apply matrix_ext_data
    intro r c
    fin_cases c
    fin_cases r <;> simp [Finset.sum_range_succ, ← h0o, ← h1o] <;> norm_num

/-- Witness for C15: five samples, windows of two, one epoch. -/
theorem NeuralNetwork.train_batch_last_window_past_end_witness :
    NeuralNetwork.train_batch 10 (⟨⟨![⟨![1]⟩]⟩, ⟨![⟨![1]⟩]⟩⟩ : NeuralNetwork ℚ 1 1 1)
        (List.replicate 5 (⟨⟨![1]⟩, 0⟩ : Img ℚ 1)) 1
        (List.replicate 5 (⟨⟨![1]⟩, 0⟩ : Img ℚ 1)).length 2 (7 / 10) (9 / 10) id id 0
      = Except.error Fault.undefined_behavior :=
  (NeuralNetwork.train_batch_last_window_past_end
    (⟨⟨![⟨![1]⟩]⟩, ⟨![⟨![1]⟩]⟩⟩ : NeuralNetwork ℚ 1 1 1)
    (List.replicate 5 (⟨⟨![1]⟩, 0⟩ : Img ℚ 1)) 1 2 (7 / 10) (9 / 10) id id 0 10
    (by decide) (by rw [List.length_replicate]; decide)
    (by
      intro img himg
      rw [(List.mem_replicate.mp himg).2]
      exact Nat.zero_lt_one)
    (by decide) (by rw [List.length_replicate]; norm_num) (by norm_num)
    (by rw [List.length_replicate]; norm_num)).2.2

/-- Witness for C16: four samples, windows of two, two epochs. -/
theorem NeuralNetwork.train_batch_spec_witness :
    NeuralNetwork.train_batch 10 (⟨⟨![⟨![1]⟩]⟩, ⟨![⟨![1]⟩]⟩⟩ : NeuralNetwork ℚ 1 1 1)
        (List.replicate 4 (⟨⟨![1]⟩, 0⟩ : Img ℚ 1)) 2 4 2 (7 / 10) (9 / 10) id id 0
      = NeuralNetwork.train_batch_described
        (⟨⟨![⟨![1]⟩]⟩, ⟨![⟨![1]⟩]⟩⟩ : NeuralNetwork ℚ 1 1 1)
        (List.replicate 4 (⟨⟨![1]⟩, 0⟩ : Img ℚ 1)) 2 4 2 (7 / 10) (9 / 10) id id 0 :=
  (NeuralNetwork.train_batch_spec (⟨⟨![⟨![1]⟩]⟩, ⟨![⟨![1]⟩]⟩⟩ : NeuralNetwork ℚ 1 1 1)
    (List.replicate 4 (⟨⟨![1]⟩, 0⟩ : Img ℚ 1)) 2 4 2 (7 / 10) (9 / 10) id id 0 10
    (by decide) (by norm_num) (by norm_num) (by norm_num)).1

end TrainerClaims

/-! ## Random initialisation -/

section RandomizeLemmas

variable {T : Type} {ROWS COLS : Nat}

/-- The inner loop of `randomize` for row `r`: column `c` receives the value for
the draw number `k + c`, and the number of calls grows by the number of columns. -/
theorem randomize_row_fold (f : Nat → T) (r : Fin ROWS) (l : List (Fin COLS)) (hl : l.Nodup) :
    ∀ (M : Matrix T ROWS COLS) (k : Nat),
      l.foldl (fun (st : Matrix T ROWS COLS × Nat) c =>
          (st.1.write r ((st.1.data r).write c (f st.2)), st.2 + 1)) (M, k)
        = (M.write r ⟨fun c => if c ∈ l then f (k + l.indexOf c) else (M.data r).data c⟩,
            k + l.length) := by
  induction l with
  | nil =>
    intro M k
    simp [Matrix.write]
  | cons a l ih =>
    intro M k
    rw [List.nodup_cons] at hl
    rw [List.foldl_cons, ih hl.2]
    refine Prod.ext ?_ (by simp only [List.length_cons]; omega)
    apply matrix_ext_data
    intro i j
    by_cases hi : i = r
    · subst hi
      by_cases hja : j = a
      · subst hja
        simp [Matrix.write, Vector.write, hl.1]
      · have hne : a ≠ j := fun h => hja h.symm
        by_cases hj : j ∈ l
        · simp [Matrix.write, Vector.write, hj, hja, List.indexOf_cons_ne _ hne]
          congr 1
          omega
        · simp [Matrix.write, Vector.write, hj, hja]
    · simp [Matrix.write, hi]

/-- The outer loop of `randomize`: row `r` receives the draws from
`k + r * COLS` on. -/
theorem randomize_rows_fold (f : Nat → T) (l : List (Fin ROWS)) (hl : l.Nodup) :
    ∀ (M : Matrix T ROWS COLS) (k : Nat),
      l.foldl (fun (st : Matrix T ROWS COLS × Nat) r =>
          (st.1.write r ⟨fun c => f (st.2 + c.val)⟩, st.2 + COLS)) (M, k)
        = (⟨fun r => if r ∈ l then ⟨fun c => f (k + l.indexOf r * COLS + c.val)⟩
              else M.data r⟩, k + l.length * COLS) := by
  induction l with
  | nil =>
    intro M k
    simp
  | cons a l ih =>
    intro M k
    rw [List.nodup_cons] at hl
    rw [List.foldl_cons, ih hl.2]
    refine Prod.ext ?_ (by simp only [List.length_cons, Nat.succ_mul]; omega)
    apply matrix_ext_data
    intro i j
    by_cases hia : i = a
    · subst hia
      simp [Matrix.write, hl.1]
    · have hne : a ≠ i := fun h => hia h.symm
      by_cases hi : i ∈ l
      · simp [hi, hia, List.indexOf_cons_ne _ hne, Nat.succ_mul]
        congr 1
        omega
      · simp [Matrix.write, hi, hia]

theorem int_of_floating_fits [LinearOrderedField T] [FloorRing T] (x : T) (h0 : 0 ≤ x)
    (hmax : ⌊x⌋ ≤ 2 ^ 31 - 1) : int_of_floating x = Except.ok ⌊x⌋ := by
  have hfl : (0 : Int) ≤ ⌊x⌋ := Int.floor_nonneg.mpr h0
  unfold int_of_floating
  simp only [if_pos h0]
  rw [if_pos ⟨by omega, hmax⟩]
  rfl

theorem int_of_floating_too_large [LinearOrderedField T] [FloorRing T] (x : T) (h0 : 0 ≤ x)
    (hbig : 2 ^ 31 - 1 < ⌊x⌋) : int_of_floating x = Except.error Fault.undefined_behavior := by
  unfold int_of_floating
  simp only [if_pos h0]
  rw [if_neg (fun h => absurd h.2 (not_le.mpr hbig))]
  rfl

theorem uniform_distribution_eq [LinearOrderedField T] [FloorRing T] (draw : Int) (low high : T)
    (hdiff : 0 ≤ (high - low) * 10000) (hlo : 1 ≤ ⌊(high - low) * 10000⌋)
    (hhi : ⌊(high - low) * 10000⌋ ≤ 2 ^ 31 - 1) (hdraw : 0 ≤ draw) :
    Matrix.uniform_distribution draw low high
      = Except.ok (low + ((draw % ⌊(high - low) * 10000⌋ : Int) : T) / 10000) := by
  unfold Matrix.uniform_distribution
  simp only [Int.cast_ofNat]
  rw [int_of_floating_fits _ hdiff hhi]
  simp only [bind, Except.bind]
  rw [if_neg (by omega), Int.tmod_eq_emod hdraw (by omega), one_mul]
  rfl

/-- The run of `randomize` when every call of `uniform_distribution` returns
normally with the value `f k` for the draw number `k`. -/
theorem randomize_eq [LinearOrderedField T] [FloorRing T] (self : Matrix T ROWS COLS)
    (sqrt : T → T) (rand : Nat → Int) (calls : Nat) (n : T) (f : Nat → T)
    (hf : ∀ k, Matrix.uniform_distribution (rand k) (-1 / sqrt n) (1 / sqrt n)
      = Except.ok (f k)) :
    self.randomize sqrt rand calls n
      = Except.ok (⟨fun r => ⟨fun c => f (calls + r.val * COLS + c.val)⟩⟩,
          calls + ROWS * COLS) := by
  unfold Matrix.randomize
  simp only []
  rw [foldlM_pure _ (fun (st : Matrix T ROWS COLS × Nat) r =>
    (st.1.write r ⟨fun c => f (st.2 + c.val)⟩, st.2 + COLS))]
  · rw [randomize_rows_fold f _ (List.nodup_finRange ROWS)]
    simp
  · intro st r _
    rw [foldlM_pure _ (fun (st : Matrix T ROWS COLS × Nat) c =>
      (st.1.write r ((st.1.data r).write c (f st.2)), st.2 + 1))]
    · rw [randomize_row_fold f r _ (List.nodup_finRange COLS)]
      simp
    · intro st2 c _
      rw [hf, vector_operator_index_fin]
      rfl

end RandomizeLemmas

section RandomizeClaims

variable {ROWS COLS : Nat}

/-- C20 (amended). `Matrix::randomize(n)` over the reals, with the values returned
by `rand()` as a parameter: for every `n > 0` whose bucket count
`floor(10000 · 2/√n)` is at least 1 and fits an `int` (at most `2^31 − 1`), and
for non-negative draws, the call returns normally after `ROWS · COLS` calls of
`rand()`, the element in row `r`, column `c` equals
`−1/√n + (draw mod floor(10000 · 2/√n)) / 10000` for the draw number
`r · COLS + c` of the call, and lies in `[−1/√n, 1/√n]`; the modulus is not zero. -/
theorem Matrix.randomize_spec (self : Matrix ℝ ROWS COLS) (rand : Nat → Int) (calls : Nat)
    (n : ℝ) (hn : 0 < n) (hlo : 1 ≤ ⌊10000 * 2 / Real.sqrt n⌋)
    (hhi : ⌊10000 * 2 / Real.sqrt n⌋ ≤ 2 ^ 31 - 1) (hrand : ∀ k, 0 ≤ rand k) :
    ⌊10000 * 2 / Real.sqrt n⌋ ≠ 0 ∧
    ∃ M : Matrix ℝ ROWS COLS,
      self.randomize Real.sqrt rand calls n = Except.ok (M, calls + ROWS * COLS) ∧
      ∀ (r : Fin ROWS) (c : Fin COLS),
        (M.data r).data c = -1 / Real.sqrt n
          + ((rand (calls + r.val * COLS + c.val) % ⌊10000 * 2 / Real.sqrt n⌋ : Int) : ℝ)
            / 10000 ∧
        -1 / Real.sqrt n ≤ (M.data r).data c ∧ (M.data r).data c ≤ 1 / Real.sqrt n := by
  have hsq : 0 < Real.sqrt n := Real.sqrt_pos.mpr hn
  have harg : (1 / Real.sqrt n - -1 / Real.sqrt n) * 10000 = 10000 * 2 / Real.sqrt n := by
    field_simp
    ring
  have hnonneg : 0 ≤ (1 / Real.sqrt n - -1 / Real.sqrt n) * 10000 := by
    rw [harg]
    positivity
  have hdraw : ∀ k, Matrix.uniform_distribution (rand k) (-1 / Real.sqrt n) (1 / Real.sqrt n)
      = Except.ok (-1 / Real.sqrt n
          + ((rand k % ⌊10000 * 2 / Real.sqrt n⌋ : Int) : ℝ) / 10000) := by
    intro k
    rw [uniform_distribution_eq (rand k) (-1 / Real.sqrt n) (1 / Real.sqrt n) hnonneg
      (by rw [harg]; exact hlo) (by rw [harg]; exact hhi) (hrand k), harg]
  refine ⟨by omega, _, randomize_eq self Real.sqrt rand calls n _ hdraw, ?_⟩
  intro r c
  refine ⟨rfl, ?_, ?_⟩
  · show -1 / Real.sqrt n ≤ -1 / Real.sqrt n + _
    have hq : (0 : ℝ) ≤ ((rand (calls + r.val * COLS + c.val)
        % ⌊10000 * 2 / Real.sqrt n⌋ : Int) : ℝ) :=
      Int.cast_nonneg.mpr (Int.emod_nonneg _ (by omega))
    have : (0 : ℝ) ≤ ((rand (calls + r.val * COLS + c.val)
        % ⌊10000 * 2 / Real.sqrt n⌋ : Int) : ℝ) / 10000 := div_nonneg hq (by norm_num)
    linarith
  · show -1 / Real.sqrt n + _ ≤ 1 / Real.sqrt n
    have hlt : rand (calls + r.val * COLS + c.val) % ⌊10000 * 2 / Real.sqrt n⌋
        < ⌊10000 * 2 / Real.sqrt n⌋ := Int.emod_lt_of_pos _ (by omega)
    have hq : ((rand (calls + r.val * COLS + c.val)
        % ⌊10000 * 2 / Real.sqrt n⌋ : Int) : ℝ) ≤ (⌊10000 * 2 / Real.sqrt n⌋ : ℝ) :=
      Int.cast_le.mpr (le_of_lt hlt)
    have hfl : (⌊10000 * 2 / Real.sqrt n⌋ : ℝ) ≤ 10000 * 2 / Real.sqrt n := Int.floor_le _
    have hsplit : 1 / Real.sqrt n = -1 / Real.sqrt n + (10000 * 2 / Real.sqrt n) / 10000 := by
      field_simp
      ring
    rw [hsplit]
    have : ((rand (calls + r.val * COLS + c.val)
        % ⌊10000 * 2 / Real.sqrt n⌋ : Int) : ℝ) / 10000 ≤ (10000 * 2 / Real.sqrt n) / 10000 :=
      div_le_div_of_nonneg_right (le_trans hq hfl) (by norm_num)
    linarith

/-- Witness for C20: `n = 1`, where the bucket count is 20000. -/
theorem Matrix.randomize_spec_witness :
    ∃ M : Matrix ℝ 1 2,
      Matrix.randomize (⟨![⟨![0, 0]⟩]⟩ : Matrix ℝ 1 2) Real.sqrt (fun k => (k : Int)) 0 1
        = Except.ok (M, 0 + 1 * 2) ∧
      ∀ (r : Fin 1) (c : Fin 2),
        (M.data r).data c = -1 / Real.sqrt 1
          + ((((fun k => (k : Int)) (0 + r.val * 2 + c.val))
              % ⌊10000 * 2 / Real.sqrt 1⌋ : Int) : ℝ) / 10000 ∧
        -1 / Real.sqrt 1 ≤ (M.data r).data c ∧ (M.data r).data c ≤ 1 / Real.sqrt 1 :=
  (Matrix.randomize_spec (⟨![⟨![0, 0]⟩]⟩ : Matrix ℝ 1 2) (fun k => (k : Int)) 0 1 (by norm_num)
    (by
      rw [Real.sqrt_one]
      have h : ⌊(10000 : ℝ) * 2 / 1⌋ = 20000 := by
        rw [Int.floor_eq_iff]
        norm_num
      rw [h]
      norm_num)
    (by
      rw [Real.sqrt_one]
      have h : ⌊(10000 : ℝ) * 2 / 1⌋ = 20000 := by
        rw [Int.floor_eq_iff]
        norm_num
      rw [h]
      norm_num)
    (fun k => Int.natCast_nonneg k)).2

/-- C20 as stated fails at `n = 10⁻¹²`: there `n > 0` and the bucket count
`floor(10000 · 2/√n) = 2 · 10¹⁰` is at least 1, the draws are non-negative, but
the bucket count is not an `int`, so the conversion `(int)(difference * scale)`
is undefined and no element is written. -/
theorem Matrix.randomize_bucket_count_overflows :
    (0 : ℝ) < 1 / 10 ^ 12 ∧ 1 ≤ ⌊(10000 : ℝ) * 2 / Real.sqrt (1 / 10 ^ 12)⌋ ∧
    (∀ k : Nat, (0 : Int) ≤ (fun _ => (0 : Int)) k) ∧
    Matrix.randomize (⟨![⟨![0]⟩]⟩ : Matrix ℝ 1 1) Real.sqrt (fun _ => 0) 0 (1 / 10 ^ 12)
      = Except.error Fault.undefined_behavior := by
  have hsqrt : Real.sqrt (1 / 10 ^ 12) = 1 / 10 ^ 6 := by
    rw [show (1 : ℝ) / 10 ^ 12 = (1 / 10 ^ 6) ^ 2 by norm_num]
    exact Real.sqrt_sq (by norm_num)
  have hfloor : ⌊(10000 : ℝ) * 2 / (1 / 10 ^ 6)⌋ = 20000000000 := by
    rw [Int.floor_eq_iff]
    norm_num
  refine ⟨by norm_num, ?_, fun _ => le_refl _, ?_⟩
  · rw [hsqrt, hfloor]
    norm_num
  · have harg : ((1 : ℝ) / (1 / 10 ^ 6) - -1 / (1 / 10 ^ 6)) * 10000
        = 10000 * 2 / (1 / 10 ^ 6) := by norm_num
    have hub : Matrix.uniform_distribution (0 : Int) (-1 / (1 / 10 ^ 6 : ℝ)) (1 / (1 / 10 ^ 6))
        = Except.error Fault.undefined_behavior := by
      unfold Matrix.uniform_distribution
      simp only [Int.cast_ofNat]
      rw [int_of_floating_too_large _ (by norm_num) (by rw [harg, hfloor]; norm_num)]
      rfl
    simp only [Matrix.randomize, hsqrt, List.finRange_succ_eq_map, List.finRange_zero,
      List.map_nil, List.foldlM_cons, List.foldlM_nil, hub]
    rfl

end RandomizeClaims

/-! ## Accuracy -/

section AccuracyClaims

variable {T D : Type} {SIZE INPUT_SIZE HIDDEN_SIZE OUTPUT_SIZE : Nat}

theorem vector_argmax_returns [LinearOrder T] (v : Vector T SIZE) (h : 1 ≤ SIZE) :
    ∃ p : Nat, v.argmax = Except.ok p := by
  unfold Vector.argmax
  rw [dif_neg (by omega)]
  exact ⟨_, rfl⟩

theorem NeuralNetwork.predict_img_returns [LinearOrderedField T]
    (net : NeuralNetwork T INPUT_SIZE HIDDEN_SIZE OUTPUT_SIZE) (exp : T → T)
    (img : Img T INPUT_SIZE) (act : T → T) (junk : T) (h : 1 ≤ OUTPUT_SIZE) :
    ∃ p : Nat, net.predict_img exp img act junk = Except.ok p := by
  unfold NeuralNetwork.predict_img NeuralNetwork.predict
  rw [NeuralNetwork.feed_forward_eq]
  simp only [bind, Except.bind]
  rw [vector_softmax_eq]
  exact vector_argmax_returns _ h

/-- Counting the indices below `n` that satisfy `p` with a counter. -/
theorem foldl_count (p : Nat → Prop) [DecidablePred p] (n : Nat) :
    (List.range n).foldl (fun (count : Nat) i => if p i then count + 1 else count) 0
      = ((Finset.range n).filter p).card := by
  induction n with
  | zero => rfl
  | succ n ih =>
    rw [List.range_succ, List.foldl_append, ih, Finset.range_succ, Finset.filter_insert]
    by_cases hp : p n
    · rw [if_pos hp, Finset.card_insert_of_not_mem (by simp)]
      simp [hp]
    · rw [if_neg hp]
      simp [hp]

theorem predict_imgs_eq [LinearOrderedField T] [One D] [Mul D] [Div D] [NatCast D]
    (net : NeuralNetwork T INPUT_SIZE HIDDEN_SIZE OUTPUT_SIZE) (exp : T → T)
    (imgs : List (Img T INPUT_SIZE)) (n : Nat) (act : T → T) (junk : T)
    (prediction label : Nat → Nat)
    (h : ∀ i, i < n → ∃ img, imgs[i]? = some img ∧
      net.predict_img exp img act junk = Except.ok (prediction i) ∧ img.label = label i) :
    (net.predict_imgs exp imgs n act junk : Except Fault D)
      = Except.ok (1 * (((Finset.range n).filter (fun i => prediction i = label i)).card : D)
          / (n : D)) := by
  unfold NeuralNetwork.predict_imgs
  rw [foldlM_pure _ (fun (count : Nat) i => if prediction i = label i then count + 1 else count)]
  · rw [foldl_count]
    rfl
  · intro count i hi
    obtain ⟨img, hget, hpred, hlab⟩ := h i (List.mem_range.mp hi)
    rw [Img.deref_some imgs i img hget]
    simp only [bind, Except.bind]
    rw [hpred, Fault.lift_ok]
    simp only [hlab]
    by_cases heq : prediction i = label i
    · rw [if_pos heq, if_pos heq]
      rfl
    · rw [if_neg heq, if_neg heq]
      rfl

/-- C18 (amended). `NeuralNetwork::predict_imgs` is the accuracy. For a network
with at least one output class (`OUTPUT_SIZE ≥ 1`) and every sequence of `n ≥ 1`
samples, whatever their labels, every call of `predict_img` returns a class,
`predict_img(sample) = argmax(predict(sample.input))`, and `predict_imgs`
returns `k / n`, where `k` is the number of samples `i < n` whose predicted
class equals their label; the result lies in `[0, 1]`, is 1 exactly when every
sample is classified correctly and 0 exactly when none is. -/
theorem NeuralNetwork.predict_imgs_spec [LinearOrderedField T] [LinearOrderedField D]
    (net : NeuralNetwork T INPUT_SIZE HIDDEN_SIZE OUTPUT_SIZE) (exp : T → T)
    (imgs : List (Img T INPUT_SIZE)) (n : Nat) (act : T → T) (junk : T) (hn : 1 ≤ n)
    (hlen : n ≤ imgs.length) (hout : 1 ≤ OUTPUT_SIZE) :
    ∃ (prediction label : Nat → Nat),
      (∀ i img, i < n → imgs[i]? = some img →
        net.predict_img exp img act junk = Except.ok (prediction i) ∧
        net.predict_img exp img act junk
          = (net.predict exp img.img_data act junk >>= fun res => res.argmax) ∧
        img.label = label i) ∧
      (net.predict_imgs exp imgs n act junk : Except Fault D)
        = Except.ok ((((Finset.range n).filter (fun i => prediction i = label i)).card : D)
            / (n : D)) ∧
      (0 : D) ≤ (((Finset.range n).filter (fun i => prediction i = label i)).card : D) / (n : D) ∧
      (((Finset.range n).filter (fun i => prediction i = label i)).card : D) / (n : D) ≤ 1 ∧
      ((((Finset.range n).filter (fun i => prediction i = label i)).card : D) / (n : D) = 1
        ↔ ∀ i, i < n → prediction i = label i) ∧
      ((((Finset.range n).filter (fun i => prediction i = label i)).card : D) / (n : D) = 0
        ↔ ∀ i, i < n → prediction i ≠ label i) := by
  have hex : ∀ i : Nat, ∃ p : Nat,
      net.predict_img exp (imgs.getD i ⟨Vector.uninit junk, 0⟩) act junk = Except.ok p :=
    fun i => NeuralNetwork.predict_img_returns net exp _ act junk hout
  choose prediction hpred using hex
  have hsample : ∀ i img, i < n → imgs[i]? = some img →
      img = imgs.getD i ⟨Vector.uninit junk, 0⟩ := by
    intro i img hi hget
    have hi2 : i < imgs.length := lt_of_lt_of_le hi hlen
    rw [List.getD_eq_getElem _ _ hi2]
    rw [List.getElem?_eq_getElem hi2] at hget
    exact (Option.some.inj hget).symm
  have hnpos : (0 : D) < (n : D) := Nat.cast_pos.mpr (by omega)
  have hcard : ((Finset.range n).filter (fun i => prediction i
      = (imgs.getD i ⟨Vector.uninit junk, 0⟩).label)).card ≤ n := by
    have := Finset.card_filter_le (Finset.range n) (fun i => prediction i
      = (imgs.getD i ⟨Vector.uninit junk, 0⟩).label)
    rwa [Finset.card_range] at this
  refine ⟨prediction, fun i => (imgs.getD i ⟨Vector.uninit junk, 0⟩).label, ?_, ?_, ?_, ?_, ?_,
    ?_⟩
  · intro i img hi hget
    rw [hsample i img hi hget]
    exact ⟨hpred i, rfl, rfl⟩
  · rw [predict_imgs_eq net exp imgs n act junk prediction
      (fun i => (imgs.getD i ⟨Vector.uninit junk, 0⟩).label)
      (fun i hi => ⟨_, by
        have hi2 : i < imgs.length := lt_of_lt_of_le hi hlen
        rw [List.getD_eq_getElem _ _ hi2, List.getElem?_eq_getElem hi2], hpred i, rfl⟩),
      one_mul]
  · exact div_nonneg (Nat.cast_nonneg _) (le_of_lt hnpos)
  · rw [div_le_one hnpos]
    exact Nat.cast_le.mpr hcard
  · rw [div_eq_one_iff_eq (ne_of_gt hnpos), Nat.cast_inj]
    constructor
    · intro h i hi
      exact (Finset.card_filter_eq_iff.mp (by rw [Finset.card_range]; exact h)) i
        (Finset.mem_range.mpr hi)
    · intro h
      have := Finset.card_filter_eq_iff.mpr (fun i hi => h i (Finset.mem_range.mp hi))
      rwa [Finset.card_range] at this
  · rw [div_eq_zero_iff, Nat.cast_eq_zero, Finset.card_eq_zero, Finset.filter_eq_empty_iff]
    constructor
    · intro h i hi
      rcases h with h | h
      · exact h (Finset.mem_range.mpr hi)
      · exact absurd h (ne_of_gt hnpos)
    · intro h
      exact Or.inl (fun i hi => h i (Finset.mem_range.mp hi))

end AccuracyClaims

/-! ## Softmax and the predicted class -/

section SoftmaxArgmaxClaims

variable {T U : Type} {SIZE INPUT_SIZE HIDDEN_SIZE OUTPUT_SIZE : Nat}

/-- The loop of `argmax` on the image of a vector under an order-preserving map
visits the same indices as on the vector itself. -/
theorem argmax_fold_map [LinearOrder T] [LinearOrder U] (f : T → U)
    (hf : ∀ a b, a < b ↔ f a < f b) (v : Vector T SIZE) (l : List (Fin SIZE)) :
    ∀ st : Nat × T,
      l.foldl (fun (st : Nat × U) i => if f (v.data i) > st.2 then (i.val, f (v.data i)) else st)
          (st.1, f st.2)
        = ((l.foldl (fun (st : Nat × T) i => if v.data i > st.2 then (i.val, v.data i) else st)
            st).1,
           f (l.foldl (fun (st : Nat × T) i => if v.data i > st.2 then (i.val, v.data i) else st)
            st).2) := by
  induction l with
  | nil => intro st; rfl
  | cons a l ih =>
    intro st
    rw [List.foldl_cons, List.foldl_cons]
    by_cases h : v.data a > st.2
    · have h2 : f (v.data a) > f st.2 := (hf _ _).mp h
      rw [if_pos h, if_pos h2]
      exact ih (a.val, v.data a)
    · have h2 : ¬ f (v.data a) > f st.2 := fun hc => h ((hf _ _).mpr hc)
      rw [if_neg h, if_neg h2]
      exact ih st

/-- Applying an order-preserving map to every element does not change `argmax`. -/
theorem argmax_map [LinearOrder T] [LinearOrder U] (f : T → U)
    (hf : ∀ a b, a < b ↔ f a < f b) (v : Vector T SIZE) :
    (⟨fun i => f (v.data i)⟩ : Vector U SIZE).argmax = v.argmax := by
  unfold Vector.argmax
  by_cases h : SIZE = 0
  · rw [dif_pos h, dif_pos h]
  · rw [dif_neg h, dif_neg h]
    simp only []
    rw [argmax_fold_map f hf v _ (0, v.data ⟨0, Nat.pos_of_ne_zero h⟩)]

/-- Dividing the exponentials by their (positive) sum keeps the strict order of
the arguments. -/
theorem softmax_keeps_order (x : Vector ℝ SIZE) (h : 1 ≤ SIZE) (a b : ℝ) :
    a < b ↔ Real.exp a / ∑ j, Real.exp (x.data j) < Real.exp b / ∑ j, Real.exp (x.data j) := by
  have hpos : 0 < ∑ j : Fin SIZE, Real.exp (x.data j) := by
    haveI : Nonempty (Fin SIZE) := ⟨⟨0, h⟩⟩
    exact Finset.sum_pos (fun j _ => Real.exp_pos _) Finset.univ_nonempty
  rw [div_lt_div_iff_of_pos_right hpos, Real.exp_lt_exp]

/-- The `argmax` of the vector that `softmax` returns is the `argmax` of its
argument. -/
theorem argmax_softmax_eq (x : Vector ℝ SIZE) :
    (⟨fun i => Real.exp (x.data i) / ∑ j, Real.exp (x.data j)⟩ : Vector ℝ SIZE).argmax
      = x.argmax := by
  by_cases h : SIZE = 0
  · unfold Vector.argmax
    rw [dif_pos h, dif_pos h]
  · exact argmax_map (fun a => Real.exp a / ∑ j, Real.exp (x.data j))
      (softmax_keeps_order x (Nat.pos_of_ne_zero h)) x

/-- C23. Softmax never changes the predicted class. Over the reals, for every
vector `v` of length `N ≥ 1`, `softmax(v)` is returned, `argmax` returns an index
on both vectors and `argmax(softmax(v)) = argmax(v)`; the first-index tie-break
is included, since `argmax` is the source's comparison loop on both sides.
Consequently, for every network and sample, the forward pass returns and
`predict_img` returns the `argmax` of its activated final-layer output. -/
theorem NeuralNetwork.softmax_preserves_argmax (v : Vector ℝ SIZE) (junk : ℝ)
    (net : NeuralNetwork ℝ INPUT_SIZE HIDDEN_SIZE OUTPUT_SIZE) (img : Img ℝ INPUT_SIZE)
    (act : ℝ → ℝ) (hN : 1 ≤ SIZE) :
    (∃ (s : Vector ℝ SIZE) (k : Nat), v.softmax Real.exp junk = Except.ok s ∧
      v.argmax = Except.ok k ∧ s.argmax = Except.ok k) ∧
    (∃ (hidden : Vector ℝ HIDDEN_SIZE) (out : Vector ℝ OUTPUT_SIZE),
      net.feed_forward img.img_data act junk = Except.ok (hidden, out) ∧
      net.predict_img Real.exp img act junk = out.argmax) := by
  obtain ⟨k, hk⟩ := vector_argmax_returns v hN
  refine ⟨⟨_, k, vector_softmax_eq Real.exp v junk, hk, ?_⟩,
    _, _, NeuralNetwork.feed_forward_eq net img.img_data act junk, ?_⟩
  · rw [argmax_softmax_eq, hk]
  · unfold NeuralNetwork.predict_img NeuralNetwork.predict
    rw [NeuralNetwork.feed_forward_eq]
    simp only [bind, Except.bind]
    rw [vector_softmax_eq]
    exact argmax_softmax_eq _

/-- Witness for C23: the vector `[2, 5, 5]` with a tie for the maximum, and a
`1-1-2` network. -/
theorem NeuralNetwork.softmax_preserves_argmax_witness :
    (∃ (s : Vector ℝ 3) (k : Nat),
      Vector.softmax Real.exp (⟨![2, 5, 5]⟩ : Vector ℝ 3) 0 = Except.ok s ∧
      Vector.argmax (⟨![2, 5, 5]⟩ : Vector ℝ 3) = Except.ok k ∧ s.argmax = Except.ok k) ∧
    (∃ (hidden : Vector ℝ 1) (out : Vector ℝ 2),
      NeuralNetwork.feed_forward (⟨⟨![⟨![1]⟩]⟩, ⟨![⟨![1]⟩, ⟨![3]⟩]⟩⟩ : NeuralNetwork ℝ 1 1 2)
          (⟨⟨![1]⟩, 0⟩ : Img ℝ 1).img_data id 0 = Except.ok (hidden, out) ∧
      NeuralNetwork.predict_img (⟨⟨![⟨![1]⟩]⟩, ⟨![⟨![1]⟩, ⟨![3]⟩]⟩⟩ : NeuralNetwork ℝ 1 1 2)
          Real.exp (⟨⟨![1]⟩, 0⟩ : Img ℝ 1) id 0 = out.argmax) :=
  NeuralNetwork.softmax_preserves_argmax (⟨![2, 5, 5]⟩ : Vector ℝ 3) 0
    (⟨⟨![⟨![1]⟩]⟩, ⟨![⟨![1]⟩, ⟨![3]⟩]⟩⟩ : NeuralNetwork ℝ 1 1 2) (⟨⟨![1]⟩, 0⟩ : Img ℝ 1) id
    (by decide)

end SoftmaxArgmaxClaims

/-! ## A label out of range -/

section BadLabelClaims

variable {T : Type} {INPUT_SIZE HIDDEN_SIZE OUTPUT_SIZE : Nat}

/-- The mini-batch loop on a window inside the array that holds a sample whose
label is not below `OUTPUT_SIZE`: the checked store into the one-hot vector
throws, and no earlier iteration can fail in another way. -/
theorem train_mini_batch_bad_label [Ring T]
    (net : NeuralNetwork T INPUT_SIZE HIDDEN_SIZE OUTPUT_SIZE) (imgs : List (Img T INPUT_SIZE))
    (act act_prime : T → T) (m : Nat) (junk : T) (hlen : m ≤ imgs.length)
    (i : Nat) (img : Img T INPUT_SIZE) (hi : i < m) (hget : imgs[i]? = some img)
    (hbad : OUTPUT_SIZE ≤ img.label) :
    net.train_mini_batch imgs act act_prime m junk
      = Except.error (Fault.exception Error.out_of_range) := by
  unfold NeuralNetwork.train_mini_batch
  apply foldlM_throws
  · intro avg j hj
    have hj2 : j < imgs.length := lt_of_lt_of_le (List.mem_range.mp hj) hlen
    have hgetj : imgs[j]? = some imgs[j] := List.getElem?_eq_getElem hj2
    rw [Img.deref_some imgs j _ hgetj]
    simp only [bind, Except.bind]
    by_cases hlabel : imgs[j].label < OUTPUT_SIZE
    · left
      rw [one_hot_assign _ junk hlabel, Fault.lift_ok]
      simp only []
      rw [NeuralNetwork.train_eq, Fault.lift_ok]
      simp only [matrix_operator_plus_assign_eq, Fault.lift_ok]
      exact ⟨_, rfl⟩
    · right
      rw [one_hot_assign_bad _ junk (not_lt.mp hlabel), Fault.lift_error]
  · refine ⟨i, List.mem_range.mpr hi, fun avg => ?_⟩
    rw [Img.deref_some imgs i img hget]
    simp only [bind, Except.bind]
    rw [one_hot_assign_bad _ junk hbad, Fault.lift_error]

/-- C22. A bad label aborts the mini-batch atomically. For every network and
every window of `m ≥ 1` samples of the array: if some sample of the window has a
label `≥ OUTPUT_SIZE`, the checked store into its one-hot vector throws
`std::out_of_range`, `train_batch_inner` ends with that exception and
`hidden_weights` and `output_weights` are exactly what they were before the
call; conversely, if every label of the window is below `OUTPUT_SIZE`, the call
returns without an error (with the weights the value model of the call gives). -/
theorem NeuralNetwork.train_batch_inner_bad_label_atomic [Field T]
    (net : NeuralNetwork T INPUT_SIZE HIDDEN_SIZE OUTPUT_SIZE) (imgs : List (Img T INPUT_SIZE))
    (lr : T) (act act_prime : T → T) (m : Nat) (junk : T) (_hm : 1 ≤ m)
    (hlen : m ≤ imgs.length) :
    (∀ i img, i < m → imgs[i]? = some img → OUTPUT_SIZE ≤ img.label →
      (Vector.ctor_fill (0 : T) junk : Vector T OUTPUT_SIZE).assign img.label 1
          = Except.error Error.out_of_range ∧
        net.train_batch_inner_in_place imgs lr act act_prime m junk
          = (Except.error (Fault.exception Error.out_of_range), net)) ∧
    ((∀ i img, i < m → imgs[i]? = some img → img.label < OUTPUT_SIZE) →
      ∃ net2 : NeuralNetwork T INPUT_SIZE HIDDEN_SIZE OUTPUT_SIZE,
        net.train_batch_inner_in_place imgs lr act act_prime m junk = (Except.ok (), net2) ∧
        net.train_batch_inner imgs lr act act_prime m junk = Except.ok net2) := by
  constructor
  · intro i img hi hget hbad
    refine ⟨one_hot_assign_bad _ junk hbad, ?_⟩
    unfold NeuralNetwork.train_batch_inner_in_place
    rw [train_mini_batch_bad_label net imgs act act_prime m junk hlen i img hi hget hbad]
  · intro hlabel
    obtain ⟨d, hd⟩ := window_gradients net imgs act act_prime m junk hlen hlabel
    refine ⟨_, ?_, train_batch_inner_eq net imgs lr act act_prime m junk d hd⟩
    unfold NeuralNetwork.train_batch_inner_in_place
    rw [train_mini_batch_eq net imgs act act_prime m junk d hd]
    simp only [bind, Except.bind, matrix_operator_times_scalar_eq,
      matrix_operator_plus_assign_eq, Fault.lift_ok]

/-- Witness for C22: a `1-1-1` network over the rationals; a window of two
samples, the second with label 1, which is not below `OUTPUT_SIZE = 1`, and a
window of one sample with label 0. -/
theorem NeuralNetwork.train_batch_inner_bad_label_atomic_witness :
    ((Vector.ctor_fill (0 : ℚ) 0 : Vector ℚ 1).assign 1 1 = Except.error Error.out_of_range ∧
      NeuralNetwork.train_batch_inner_in_place
          (⟨⟨![⟨![1]⟩]⟩, ⟨![⟨![1]⟩]⟩⟩ : NeuralNetwork ℚ 1 1 1)
          [(⟨⟨![1]⟩, 0⟩ : Img ℚ 1), (⟨⟨![1]⟩, 1⟩ : Img ℚ 1)] (1 / 2) id id 2 0
        = (Except.error (Fault.exception Error.out_of_range),
            (⟨⟨![⟨![1]⟩]⟩, ⟨![⟨![1]⟩]⟩⟩ : NeuralNetwork ℚ 1 1 1))) ∧
    (∃ net2 : NeuralNetwork ℚ 1 1 1,
      NeuralNetwork.train_batch_inner_in_place
          (⟨⟨![⟨![1]⟩]⟩, ⟨![⟨![1]⟩]⟩⟩ : NeuralNetwork ℚ 1 1 1)
          [(⟨⟨![1]⟩, 0⟩ : Img ℚ 1)] (1 / 2) id id 1 0 = (Except.ok (), net2) ∧
      NeuralNetwork.train_batch_inner (⟨⟨![⟨![1]⟩]⟩, ⟨![⟨![1]⟩]⟩⟩ : NeuralNetwork ℚ 1 1 1)
          [(⟨⟨![1]⟩, 0⟩ : Img ℚ 1)] (1 / 2) id id 1 0 = Except.ok net2) :=
  ⟨(NeuralNetwork.train_batch_inner_bad_label_atomic
      (⟨⟨![⟨![1]⟩]⟩, ⟨![⟨![1]⟩]⟩⟩ : NeuralNetwork ℚ 1 1 1)
      [(⟨⟨![1]⟩, 0⟩ : Img ℚ 1), (⟨⟨![1]⟩, 1⟩ : Img ℚ 1)] (1 / 2) id id 2 0
      (by decide) (by decide)).1 1 (⟨⟨![1]⟩, 1⟩ : Img ℚ 1) (by decide) rfl (by decide),
    (NeuralNetwork.train_batch_inner_bad_label_atomic
      (⟨⟨![⟨![1]⟩]⟩, ⟨![⟨![1]⟩]⟩⟩ : NeuralNetwork ℚ 1 1 1)
      [(⟨⟨![1]⟩, 0⟩ : Img ℚ 1)] (1 / 2) id id 1 0 (by decide) (by decide)).2
      (by
        intro i img hi hget
        obtain rfl : i = 0 := by omega
        simp at hget
        rw [← hget]
        exact Nat.zero_lt_one)⟩

end BadLabelClaims

/-! ## The default constructor of the network -/

section ConstructionClaims

variable {ROWS COLS INPUT_SIZE HIDDEN_SIZE OUTPUT_SIZE : Nat}

/-- The bucket count `floor(10000 · 2/√N)` of `randomize(N)` for a size `N`
between 1 and `4 · 10⁸`: at least 1 and at most 20000. -/
theorem bucket_count_of_size (N : Nat) (h1 : 1 ≤ N) (h2 : N ≤ 400000000) :
    1 ≤ ⌊10000 * 2 / Real.sqrt (N : ℝ)⌋ ∧ ⌊10000 * 2 / Real.sqrt (N : ℝ)⌋ ≤ 20000 := by
  have hN1 : (1 : ℝ) ≤ (N : ℝ) := by exact_mod_cast h1
  have hN2 : (N : ℝ) ≤ 20000 ^ 2 := by
    have : (N : ℝ) ≤ 400000000 := by exact_mod_cast h2
    linarith
  have hs1 : 1 ≤ Real.sqrt (N : ℝ) := (Real.le_sqrt' one_pos).mpr (by simpa using hN1)
  have hs2 : Real.sqrt (N : ℝ) ≤ 20000 := (Real.sqrt_le_left (by norm_num)).mpr hN2
  have hpos : 0 < Real.sqrt (N : ℝ) := lt_of_lt_of_le one_pos hs1
  constructor
  · rw [Int.le_floor, Int.cast_one, le_div_iff₀ hpos]
    linarith
  · have hle : 10000 * 2 / Real.sqrt (N : ℝ) ≤ 20000 := by
      rw [div_le_iff₀ hpos]
      nlinarith
    have := Int.floor_le_floor hle
    have h20000 : ⌊(20000 : ℝ)⌋ = 20000 := by
      rw [Int.floor_eq_iff]
      norm_num
    rw [h20000] at this
    exact this

/-- One element written by `randomize(n)` over the reals: the value for a
non-negative draw, when the bucket count is at least 1 and fits an `int`. -/
theorem uniform_distribution_real (n : ℝ) (hn : 0 < n) (draw : Int) (hdraw : 0 ≤ draw)
    (hlo : 1 ≤ ⌊10000 * 2 / Real.sqrt n⌋) (hhi : ⌊10000 * 2 / Real.sqrt n⌋ ≤ 2 ^ 31 - 1) :
    Matrix.uniform_distribution draw (-1 / Real.sqrt n) (1 / Real.sqrt n)
      = Except.ok (-1 / Real.sqrt n
          + ((draw % ⌊10000 * 2 / Real.sqrt n⌋ : Int) : ℝ) / 10000) := by
  have hsq : 0 < Real.sqrt n := Real.sqrt_pos.mpr hn
  have harg : (1 / Real.sqrt n - -1 / Real.sqrt n) * 10000 = 10000 * 2 / Real.sqrt n := by
    field_simp
    ring
  have hnonneg : 0 ≤ (1 / Real.sqrt n - -1 / Real.sqrt n) * 10000 := by
    rw [harg]
    positivity
  rw [uniform_distribution_eq draw (-1 / Real.sqrt n) (1 / Real.sqrt n) hnonneg
    (by rw [harg]; exact hlo) (by rw [harg]; exact hhi) hdraw, harg]

/-- The value `-1/√n + (draw mod buckets) / 10000` lies in `[-1/√n, 1/√n]`. -/
theorem drawn_value_in_range (n : ℝ) (hn : 0 < n) (draw : Int)
    (hlo : 1 ≤ ⌊10000 * 2 / Real.sqrt n⌋) :
    -1 / Real.sqrt n
        ≤ -1 / Real.sqrt n + ((draw % ⌊10000 * 2 / Real.sqrt n⌋ : Int) : ℝ) / 10000 ∧
      -1 / Real.sqrt n + ((draw % ⌊10000 * 2 / Real.sqrt n⌋ : Int) : ℝ) / 10000
        ≤ 1 / Real.sqrt n := by
  have hsq : 0 < Real.sqrt n := Real.sqrt_pos.mpr hn
  have hq : (0 : ℝ) ≤ ((draw % ⌊10000 * 2 / Real.sqrt n⌋ : Int) : ℝ) :=
    Int.cast_nonneg.mpr (Int.emod_nonneg _ (by omega))
  have hlt : draw % ⌊10000 * 2 / Real.sqrt n⌋ < ⌊10000 * 2 / Real.sqrt n⌋ :=
    Int.emod_lt_of_pos _ (by omega)
  have hq2 : ((draw % ⌊10000 * 2 / Real.sqrt n⌋ : Int) : ℝ)
      ≤ (⌊10000 * 2 / Real.sqrt n⌋ : ℝ) := Int.cast_le.mpr (le_of_lt hlt)
  have hfl : (⌊10000 * 2 / Real.sqrt n⌋ : ℝ) ≤ 10000 * 2 / Real.sqrt n := Int.floor_le _
  have hsplit : 1 / Real.sqrt n = -1 / Real.sqrt n + (10000 * 2 / Real.sqrt n) / 10000 := by
    field_simp
    ring
  constructor
  · have : (0 : ℝ) ≤ ((draw % ⌊10000 * 2 / Real.sqrt n⌋ : Int) : ℝ) / 10000 :=
      div_nonneg hq (by norm_num)
    linarith
  · rw [hsplit]
    have : ((draw % ⌊10000 * 2 / Real.sqrt n⌋ : Int) : ℝ) / 10000
        ≤ (10000 * 2 / Real.sqrt n) / 10000 :=
      div_le_div_of_nonneg_right (le_trans hq2 hfl) (by norm_num)
    linarith

/-- The run of `randomize(N)` over the reals for a size `N` between 1 and
`4 · 10⁸` and non-negative draws. -/
theorem randomize_of_size (self : Matrix ℝ ROWS COLS) (rand : Nat → Int) (calls : Nat)
    (N : Nat) (h1 : 1 ≤ N) (h2 : N ≤ 400000000) (hrand : ∀ k, 0 ≤ rand k) :
    self.randomize Real.sqrt rand calls (N : ℝ)
      = Except.ok (⟨fun r => ⟨fun c => -1 / Real.sqrt (N : ℝ)
            + ((rand (calls + r.val * COLS + c.val) % ⌊10000 * 2 / Real.sqrt (N : ℝ)⌋ : Int) : ℝ)
              / 10000⟩⟩,
          calls + ROWS * COLS) := by
  have hN : (0 : ℝ) < (N : ℝ) := by exact_mod_cast h1
  obtain ⟨hlo, hhi⟩ := bucket_count_of_size N h1 h2
  exact randomize_eq self Real.sqrt rand calls (N : ℝ)
    (fun k => -1 / Real.sqrt (N : ℝ)
      + ((rand k % ⌊10000 * 2 / Real.sqrt (N : ℝ)⌋ : Int) : ℝ) / 10000)
    (fun k => uniform_distribution_real (N : ℝ) hN (rand k) (hrand k) hlo (by omega))

/-- The run of `randomize` on a matrix with at least one element when the
call of `uniform_distribution` has undefined behaviour for every draw. -/
theorem randomize_undefined (self : Matrix ℝ ROWS COLS) (sqrt : ℝ → ℝ) (rand : Nat → Int)
    (calls : Nat) (n : ℝ) (hr : 1 ≤ ROWS) (hc : 1 ≤ COLS)
    (hub : ∀ k, Matrix.uniform_distribution (rand k) (-1 / sqrt n) (1 / sqrt n)
      = Except.error Fault.undefined_behavior) :
    self.randomize sqrt rand calls n = Except.error Fault.undefined_behavior := by
  have hrow : ∀ (st : Matrix ℝ ROWS COLS × Nat) (row : Fin ROWS),
      (List.finRange COLS).foldlM (fun (st : Matrix ℝ ROWS COLS × Nat) (col : Fin COLS) => do
        let x ← Matrix.uniform_distribution (rand st.2) (-1 / sqrt n) (1 / sqrt n)
        let loc ← Fault.lift ((st.1.data row).operator_index col.val)
        pure (st.1.write row ((st.1.data row).write loc x), st.2 + 1)) st
        = Except.error Fault.undefined_behavior := by
    intro st row
    apply foldlM_throws
    · intro s col _
      right
      rw [hub]
      rfl
    · refine ⟨⟨0, hc⟩, List.mem_finRange _, fun s => ?_⟩
      rw [hub]
      rfl
  unfold Matrix.randomize
  apply foldlM_throws
  · intro st row _
    right
    exact hrow st row
  · exact ⟨⟨0, hr⟩, List.mem_finRange _, fun st => hrow st _⟩

/-- C21 (amended). The default constructor over the reals, with the values
returned by `rand()` as a parameter. The scale of each layer is the number of
its outputs (the number of rows of its weight matrix), not of its inputs: for
`1 ≤ HIDDEN_SIZE, OUTPUT_SIZE ≤ 4 · 10⁸` and non-negative draws the constructor
returns after `HIDDEN_SIZE · INPUT_SIZE + OUTPUT_SIZE · HIDDEN_SIZE` calls of
`rand()`; `hidden_weights` is what `randomize` with `n = HIDDEN_SIZE` writes and
every entry of it lies in `[−1/√HIDDEN_SIZE, 1/√HIDDEN_SIZE]`; `output_weights`
is what `randomize` with `n = OUTPUT_SIZE` writes (on the draws that follow) and
every entry of it lies in `[−1/√OUTPUT_SIZE, 1/√OUTPUT_SIZE]`. -/
theorem NeuralNetwork.ctor_default_spec (rand : Nat → Int) (calls : Nat) (junk : ℝ)
    (hH1 : 1 ≤ HIDDEN_SIZE) (hH2 : HIDDEN_SIZE ≤ 400000000)
    (hO1 : 1 ≤ OUTPUT_SIZE) (hO2 : OUTPUT_SIZE ≤ 400000000) (hrand : ∀ k, 0 ≤ rand k) :
    ∃ net : NeuralNetwork ℝ INPUT_SIZE HIDDEN_SIZE OUTPUT_SIZE,
      NeuralNetwork.ctor_default Real.sqrt rand calls junk
        = Except.ok (net, calls + HIDDEN_SIZE * INPUT_SIZE + OUTPUT_SIZE * HIDDEN_SIZE) ∧
      (Matrix.uninit junk : Matrix ℝ HIDDEN_SIZE INPUT_SIZE).randomize Real.sqrt rand calls
          (HIDDEN_SIZE : ℝ)
        = Except.ok (net.hidden_weights, calls + HIDDEN_SIZE * INPUT_SIZE) ∧
      (Matrix.uninit junk : Matrix ℝ OUTPUT_SIZE HIDDEN_SIZE).randomize Real.sqrt rand
          (calls + HIDDEN_SIZE * INPUT_SIZE) (OUTPUT_SIZE : ℝ)
        = Except.ok (net.output_weights,
            calls + HIDDEN_SIZE * INPUT_SIZE + OUTPUT_SIZE * HIDDEN_SIZE) ∧
      (∀ (r : Fin HIDDEN_SIZE) (c : Fin INPUT_SIZE),
        -1 / Real.sqrt (HIDDEN_SIZE : ℝ) ≤ (net.hidden_weights.data r).data c ∧
        (net.hidden_weights.data r).data c ≤ 1 / Real.sqrt (HIDDEN_SIZE : ℝ)) ∧
      (∀ (r : Fin OUTPUT_SIZE) (c : Fin HIDDEN_SIZE),
        -1 / Real.sqrt (OUTPUT_SIZE : ℝ) ≤ (net.output_weights.data r).data c ∧
        (net.output_weights.data r).data c ≤ 1 / Real.sqrt (OUTPUT_SIZE : ℝ)) := by
  have hh := randomize_of_size (Matrix.uninit junk : Matrix ℝ HIDDEN_SIZE INPUT_SIZE) rand calls
    HIDDEN_SIZE hH1 hH2 hrand
  have ho := randomize_of_size (Matrix.uninit junk : Matrix ℝ OUTPUT_SIZE HIDDEN_SIZE) rand
    (calls + HIDDEN_SIZE * INPUT_SIZE) OUTPUT_SIZE hO1 hO2 hrand
  refine ⟨⟨_, _⟩, ?_, hh, ho, ?_, ?_⟩
  · unfold NeuralNetwork.ctor_default
    simp only [hh, ho, bind, Except.bind, pure, Except.pure]
  · intro r c
    exact drawn_value_in_range (HIDDEN_SIZE : ℝ) (by exact_mod_cast hH1) _
      (bucket_count_of_size HIDDEN_SIZE hH1 hH2).1
  · intro r c
    exact drawn_value_in_range (OUTPUT_SIZE : ℝ) (by exact_mod_cast hO1) _
      (bucket_count_of_size OUTPUT_SIZE hO1 hO2).1

/-- Witness for C21: a `4-2-3` network, the draw number `k` being `k`. -/
theorem NeuralNetwork.ctor_default_spec_witness :
    ∃ net : NeuralNetwork ℝ 4 2 3,
      NeuralNetwork.ctor_default Real.sqrt (fun k => (k : Int)) 0 0
        = Except.ok (net, 0 + 2 * 4 + 3 * 2) ∧
      (Matrix.uninit 0 : Matrix ℝ 2 4).randomize Real.sqrt (fun k => (k : Int)) 0 ((2 : Nat) : ℝ)
        = Except.ok (net.hidden_weights, 0 + 2 * 4) ∧
      (Matrix.uninit 0 : Matrix ℝ 3 2).randomize Real.sqrt (fun k => (k : Int)) (0 + 2 * 4)
          ((3 : Nat) : ℝ)
        = Except.ok (net.output_weights, 0 + 2 * 4 + 3 * 2) ∧
      (∀ (r : Fin 2) (c : Fin 4),
        -1 / Real.sqrt ((2 : Nat) : ℝ) ≤ (net.hidden_weights.data r).data c ∧
        (net.hidden_weights.data r).data c ≤ 1 / Real.sqrt ((2 : Nat) : ℝ)) ∧
      (∀ (r : Fin 3) (c : Fin 2),
        -1 / Real.sqrt ((3 : Nat) : ℝ) ≤ (net.output_weights.data r).data c ∧
        (net.output_weights.data r).data c ≤ 1 / Real.sqrt ((3 : Nat) : ℝ)) :=
  @NeuralNetwork.ctor_default_spec 4 2 3 (fun k => (k : Int)) 0 0 (by decide) (by decide)
    (by decide) (by decide) (fun k => Int.natCast_nonneg k)

/-- C21 as stated fails. For `INPUT = 4`, `HIDDEN = 1`, `OUTPUT = 1` and draws
that are all 0 the constructor returns, after 5 calls of `rand()`, the network
whose weights are all `−1`: the hidden weights were drawn with `n = HIDDEN = 1`,
and they do not lie in `[−1/√INPUT, 1/√INPUT] = [−1/2, 1/2]`. For `INPUT = 1`, `HIDDEN = 10⁹`,
`OUTPUT = 1` the bucket count `floor(10000 · 2/√HIDDEN)` is 0, the remainder
`rand() % 0` is undefined and no network is constructed. -/
theorem NeuralNetwork.ctor_default_scales_by_rows :
    (NeuralNetwork.ctor_default Real.sqrt (fun _ => 0) 0 0
        = Except.ok ((⟨⟨fun _ => ⟨fun _ => -1⟩⟩, ⟨fun _ => ⟨fun _ => -1⟩⟩⟩ :
            NeuralNetwork ℝ 4 1 1), 5) ∧
      ¬ (-1 / Real.sqrt 4 ≤ (-1 : ℝ))) ∧
    (NeuralNetwork.ctor_default Real.sqrt (fun _ => 0) 0 0 :
        Except Fault (NeuralNetwork ℝ 1 1000000000 1 × Nat))
      = Except.error Fault.undefined_behavior := by
  constructor
  · have hh : (Matrix.uninit 0 : Matrix ℝ 1 4).randomize Real.sqrt (fun _ => 0) 0
        ((1 : Nat) : ℝ) = Except.ok (⟨fun _ => ⟨fun _ => -1⟩⟩, 4) := by
      rw [randomize_of_size (Matrix.uninit 0 : Matrix ℝ 1 4) (fun _ => 0) 0 1
        (by decide) (by decide) (fun _ => le_refl _)]
      simp
    have ho : (Matrix.uninit 0 : Matrix ℝ 1 1).randomize Real.sqrt (fun _ => 0) 4
        ((1 : Nat) : ℝ) = Except.ok (⟨fun _ => ⟨fun _ => -1⟩⟩, 5) := by
      rw [randomize_of_size (Matrix.uninit 0 : Matrix ℝ 1 1) (fun _ => 0) 4 1
        (by decide) (by decide) (fun _ => le_refl _)]
      simp
    have hsqrt4 : Real.sqrt 4 = 2 := by
      rw [show (4 : ℝ) = 2 ^ 2 by norm_num]
      exact Real.sqrt_sq (by norm_num)
    constructor
    · unfold NeuralNetwork.ctor_default
      simp only [hh, ho, bind, Except.bind, pure, Except.pure]
    · rw [hsqrt4]
      norm_num
  · have hs : (20000 : ℝ) < Real.sqrt ((1000000000 : Nat) : ℝ) := by
      rw [Real.lt_sqrt (by norm_num)]
      norm_num
    have hpos : (0 : ℝ) < Real.sqrt ((1000000000 : Nat) : ℝ) := by linarith
    have harg : (1 / Real.sqrt ((1000000000 : Nat) : ℝ)
          - -1 / Real.sqrt ((1000000000 : Nat) : ℝ)) * 10000
        = 20000 / Real.sqrt ((1000000000 : Nat) : ℝ) := by
      field_simp
      ring
    have hfloor : ⌊(1 / Real.sqrt ((1000000000 : Nat) : ℝ)
          - -1 / Real.sqrt ((1000000000 : Nat) : ℝ)) * 10000⌋ = 0 := by
      rw [harg, Int.floor_eq_zero_iff]
      constructor
      · positivity
      · rw [div_lt_one hpos]
        exact hs
    have hub : ∀ k : Nat, Matrix.uniform_distribution ((fun _ => (0 : Int)) k)
        (-1 / Real.sqrt ((1000000000 : Nat) : ℝ)) (1 / Real.sqrt ((1000000000 : Nat) : ℝ))
        = Except.error Fault.undefined_behavior := by
      intro k
      unfold Matrix.uniform_distribution
      simp only [Int.cast_ofNat]
      rw [int_of_floating_fits _ (by rw [harg]; positivity) (by rw [hfloor]; norm_num), hfloor]
      rfl
    have hrun := randomize_undefined (Matrix.uninit 0 : Matrix ℝ 1000000000 1) Real.sqrt
      (fun _ => 0) 0 ((1000000000 : Nat) : ℝ) (by norm_num) (le_refl 1) hub
    unfold NeuralNetwork.ctor_default
    simp only []
    rw [hrun]
    rfl

end ConstructionClaims

/-! ## The accuracy on a worked example, and without output classes -/

section AccuracyExamples

/-- What `predict_img` returns on the `1-1-2` network with weights `2` and
`(3, −1)` and identity activation for the input `1`: the final output is
`(6, −2)`, class 0. -/
theorem predict_img_example_first (label : Nat) :
    NeuralNetwork.predict_img (⟨⟨![⟨![2]⟩]⟩, ⟨![⟨![3]⟩, ⟨![-1]⟩]⟩⟩ : NeuralNetwork ℝ 1 1 2)
        Real.exp (⟨⟨![1]⟩, label⟩ : Img ℝ 1) id 0 = Except.ok 0 := by
  unfold NeuralNetwork.predict_img NeuralNetwork.predict
  rw [NeuralNetwork.feed_forward_eq]
  simp only [bind, Except.bind]
  rw [vector_softmax_eq]
  refine (argmax_softmax_eq _).trans ?_
  simp [Vector.argmax, List.finRange_succ_eq_map, Fin.sum_univ_succ]
  norm_num
  rfl

/-- The same network for the input `−1`: the final output is `(−6, 2)`, class 1. -/
theorem predict_img_example_second (label : Nat) :
    NeuralNetwork.predict_img (⟨⟨![⟨![2]⟩]⟩, ⟨![⟨![3]⟩, ⟨![-1]⟩]⟩⟩ : NeuralNetwork ℝ 1 1 2)
        Real.exp (⟨⟨![-1]⟩, label⟩ : Img ℝ 1) id 0 = Except.ok 1 := by
  unfold NeuralNetwork.predict_img NeuralNetwork.predict
  rw [NeuralNetwork.feed_forward_eq]
  simp only [bind, Except.bind]
  rw [vector_softmax_eq]
  refine (argmax_softmax_eq _).trans ?_
  simp [Vector.argmax, List.finRange_succ_eq_map, Fin.sum_univ_succ]
  norm_num
  rfl

/-- Witness for C18: the `1-1-2` network with weights `2` and `(3, −1)` over the
reals with the real exponential, and three samples: input `1` with label 0
(classified correctly), input `−1` with label 0 (classified as 1) and input `1`
with label 5, a label that is no class of the network (classified as 0). The
accuracy is `1 / 3`. -/
theorem NeuralNetwork.predict_imgs_spec_witness :
    (∃ (prediction label : Nat → Nat),
      (∀ i img, i < 3 →
        [(⟨⟨![1]⟩, 0⟩ : Img ℝ 1), (⟨⟨![-1]⟩, 0⟩ : Img ℝ 1), (⟨⟨![1]⟩, 5⟩ : Img ℝ 1)][i]?
          = some img →
        NeuralNetwork.predict_img
            (⟨⟨![⟨![2]⟩]⟩, ⟨![⟨![3]⟩, ⟨![-1]⟩]⟩⟩ : NeuralNetwork ℝ 1 1 2) Real.exp img id 0
          = Except.ok (prediction i) ∧
        NeuralNetwork.predict_img
            (⟨⟨![⟨![2]⟩]⟩, ⟨![⟨![3]⟩, ⟨![-1]⟩]⟩⟩ : NeuralNetwork ℝ 1 1 2) Real.exp img id 0
          = (NeuralNetwork.predict
              (⟨⟨![⟨![2]⟩]⟩, ⟨![⟨![3]⟩, ⟨![-1]⟩]⟩⟩ : NeuralNetwork ℝ 1 1 2) Real.exp
              img.img_data id 0 >>= fun res => res.argmax) ∧
        img.label = label i) ∧
      (NeuralNetwork.predict_imgs
          (⟨⟨![⟨![2]⟩]⟩, ⟨![⟨![3]⟩, ⟨![-1]⟩]⟩⟩ : NeuralNetwork ℝ 1 1 2) Real.exp
          [(⟨⟨![1]⟩, 0⟩ : Img ℝ 1), (⟨⟨![-1]⟩, 0⟩ : Img ℝ 1), (⟨⟨![1]⟩, 5⟩ : Img ℝ 1)] 3 id 0 :
          Except Fault ℚ)
        = Except.ok ((((Finset.range 3).filter (fun i => prediction i = label i)).card : ℚ)
            / ((3 : Nat) : ℚ)) ∧
      (0 : ℚ) ≤ (((Finset.range 3).filter (fun i => prediction i = label i)).card : ℚ)
        / ((3 : Nat) : ℚ) ∧
      (((Finset.range 3).filter (fun i => prediction i = label i)).card : ℚ) / ((3 : Nat) : ℚ)
        ≤ 1 ∧
      ((((Finset.range 3).filter (fun i => prediction i = label i)).card : ℚ) / ((3 : Nat) : ℚ)
          = 1 ↔ ∀ i, i < 3 → prediction i = label i) ∧
      ((((Finset.range 3).filter (fun i => prediction i = label i)).card : ℚ) / ((3 : Nat) : ℚ)
          = 0 ↔ ∀ i, i < 3 → prediction i ≠ label i)) ∧
    (NeuralNetwork.predict_imgs
        (⟨⟨![⟨![2]⟩]⟩, ⟨![⟨![3]⟩, ⟨![-1]⟩]⟩⟩ : NeuralNetwork ℝ 1 1 2) Real.exp
        [(⟨⟨![1]⟩, 0⟩ : Img ℝ 1), (⟨⟨![-1]⟩, 0⟩ : Img ℝ 1), (⟨⟨![1]⟩, 5⟩ : Img ℝ 1)] 3 id 0 :
        Except Fault ℚ)
      = Except.ok (1 / 3) := by
  have hthm := @NeuralNetwork.predict_imgs_spec ℝ ℚ 1 1 2 _ _
    (⟨⟨![⟨![2]⟩]⟩, ⟨![⟨![3]⟩, ⟨![-1]⟩]⟩⟩ : NeuralNetwork ℝ 1 1 2) Real.exp
    [(⟨⟨![1]⟩, 0⟩ : Img ℝ 1), (⟨⟨![-1]⟩, 0⟩ : Img ℝ 1), (⟨⟨![1]⟩, 5⟩ : Img ℝ 1)] 3 id 0
    (by decide) (by decide) (by decide)
  refine ⟨hthm, ?_⟩
  obtain ⟨prediction, label, hs, hrun, _⟩ := hthm
  obtain ⟨hp0, _, hl0⟩ := hs 0 ⟨⟨![1]⟩, 0⟩ (by decide) rfl
  obtain ⟨hp1, _, hl1⟩ := hs 1 ⟨⟨![-1]⟩, 0⟩ (by decide) rfl
  obtain ⟨hp2, _, hl2⟩ := hs 2 ⟨⟨![1]⟩, 5⟩ (by decide) rfl
  rw [predict_img_example_first] at hp0 hp2
  rw [predict_img_example_second] at hp1
  have p0 : prediction 0 = 0 := (Except.ok.inj hp0).symm
  have p1 : prediction 1 = 1 := (Except.ok.inj hp1).symm
  have p2 : prediction 2 = 0 := (Except.ok.inj hp2).symm
  have l0 : label 0 = 0 := hl0.symm
  have l1 : label 1 = 0 := hl1.symm
  have l2 : label 2 = 5 := hl2.symm
  have hfilter : (Finset.range 3).filter (fun i => prediction i = label i) = {0} := by
    ext i
    simp only [Finset.mem_filter, Finset.mem_range, Finset.mem_singleton]
    constructor
    · rintro ⟨hi, h⟩
      interval_cases i
      · rfl
      · omega
      · omega
    · rintro rfl
      exact ⟨by decide, by omega⟩
  rw [hrun, hfilter]
  norm_num

/-- C18 as stated fails for a network without output classes. With
`OUTPUT_SIZE = 0` the vector `predict` returns is empty, `argmax` throws its
`std::runtime_error` in the first iteration and `predict_imgs` ends with that
exception: for the one sample given (`n = 1`) no `k / n` is returned. -/
theorem NeuralNetwork.predict_imgs_throws_without_classes :
    (NeuralNetwork.predict_imgs (⟨⟨![⟨![2]⟩]⟩, ⟨![]⟩⟩ : NeuralNetwork ℝ 1 1 0) Real.exp
        [(⟨⟨![1]⟩, 0⟩ : Img ℝ 1)] 1 id 0 : Except Fault ℚ)
      = Except.error (Fault.exception Error.runtime_error) ∧
    ∀ k : Nat,
      (NeuralNetwork.predict_imgs (⟨⟨![⟨![2]⟩]⟩, ⟨![]⟩⟩ : NeuralNetwork ℝ 1 1 0) Real.exp
          [(⟨⟨![1]⟩, 0⟩ : Img ℝ 1)] 1 id 0 : Except Fault ℚ)
        ≠ Except.ok ((k : ℚ) / ((1 : Nat) : ℚ)) := by
  have hrun : (NeuralNetwork.predict_imgs (⟨⟨![⟨![2]⟩]⟩, ⟨![]⟩⟩ : NeuralNetwork ℝ 1 1 0)
      Real.exp [(⟨⟨![1]⟩, 0⟩ : Img ℝ 1)] 1 id 0 : Except Fault ℚ)
      = Except.error (Fault.exception Error.runtime_error) := by
    have himg : NeuralNetwork.predict_img (⟨⟨![⟨![2]⟩]⟩, ⟨![]⟩⟩ : NeuralNetwork ℝ 1 1 0)
        Real.exp (⟨⟨![1]⟩, 0⟩ : Img ℝ 1) id 0 = Except.error Error.runtime_error := by
      unfold NeuralNetwork.predict_img NeuralNetwork.predict
      rw [NeuralNetwork.feed_forward_eq]
      simp only [bind, Except.bind]
      rw [vector_softmax_eq]
      rfl
    unfold NeuralNetwork.predict_imgs
    simp only [List.range_succ, List.range_zero, List.nil_append, List.foldlM_cons,
      List.foldlM_nil]
    rw [Img.deref_some _ 0 ⟨⟨![1]⟩, 0⟩ rfl]
    simp only [bind, Except.bind]
    rw [himg]
    rfl
  refine ⟨hrun, fun k h => ?_⟩
  rw [hrun] at h
  cases h

end AccuracyExamples

end CppNN
